import Mathlib

/-!
# datadiff: the comparison engine

A shallow embedding of `compare.go`, `format.go`, `extract.go` and
`datadiff.go`.

Conventions of the embedding.

* A Go slice `[]T` whose nil-ness is observable (`row.values`,
  `rowDiff.valuesA`, `rowDiff.valuesB`, `rowDiff.mismatch`) is an
  `Option (List T)`: `none` is the nil slice, `some []` an empty non-nil one.
  Slices that are only ever measured and traversed (`columns`, `rows`,
  `diffs`) are plain lists.
* `reflect.DeepEqual` on two `any` values is a parameter `deq : α → α → Bool`.
  Nothing is assumed about it unless a theorem says so (Go's relation is not
  reflexive: a NaN differs from itself).
* A function that indexes or reslices returns `Option`: `none` is a run-time
  panic (index or slice bound out of range).
* Go `int` counters that only count up from 0 to a length are `Nat`; the row
  index stored in a `rowDiff` and `bestCandidate` (which starts at `-1`) are
  `Int`.
-/

namespace Datadiff

/-! ## Slices -/

/-- Go `len(s)`: the nil slice has length 0. -/
def sliceLen {β : Type} (s : Option (List β)) : Nat :=
  match s with
  | none => 0
  | some l => l.length

/-- Go `s[i]` as a read; `none` is the panic on an index out of range. -/
def sliceAt {β : Type} (s : Option (List β)) (i : Nat) : Option β :=
  match s with
  | none => none
  | some l => l.get? i

/-- Go `s[i] = v` on a non-nil slice; `none` is the panic on an index out of
range. -/
def setAt {β : Type} (s : List β) (i : Nat) (v : β) : Option (List β) :=
  if i < s.length then some (s.set i v) else none

/-! ## Data model (`extract.go`, `format.go`) -/

/-- The type `row` of `extract.go`. -/
structure row (α : Type) where
  values : Option (List α)
deriving DecidableEq

/-- The type `dataset` of `extract.go`. -/
structure dataset (α : Type) where
  typeName : String
  columns : List String
  rows : List (row α)
deriving DecidableEq

/-- The type `rowStatus` of `format.go`. -/
inductive rowStatus where
  | rowMatch
  | rowMismatch
  | rowExtra
deriving DecidableEq

/-- The type `rowDiff` of `format.go`. A field left out of a Go composite
literal has its zero value: the nil slice. -/
structure rowDiff (α : Type) where
  index : Int
  status : rowStatus
  valuesA : Option (List α)
  valuesB : Option (List α)
  mismatch : Option (List Bool)
deriving DecidableEq

/-- The type `diffResult` of `format.go`. -/
structure diffResult (α : Type) where
  equal : Bool
  typeName : String
  columns : List String
  diffs : List (rowDiff α)
deriving DecidableEq

/-! ## `fieldMismatch` -/

/-- The loop `for i := 0; i < columnCount; i++` of `fieldMismatch`, with `n`
iterations left; the state is `(mismatch, mismatchCount)`. -/
def fieldMismatchLoop {α : Type} (deq : α → α → Bool) (valuesA valuesB : Option (List α)) :
    Nat → Nat → List Bool × Nat → Option (List Bool × Nat)
  | 0, _, st => some st
  | n + 1, i, (mismatch, mismatchCount) =>
    if i ≥ sliceLen valuesA ∨ i ≥ sliceLen valuesB then
      match setAt mismatch i true with
      | none => none
      | some mismatch1 => fieldMismatchLoop deq valuesA valuesB n (i + 1) (mismatch1, mismatchCount + 1)
    else
      match sliceAt valuesA i, sliceAt valuesB i with
      | some x, some y =>
        if deq x y then
          fieldMismatchLoop deq valuesA valuesB n (i + 1) (mismatch, mismatchCount)
        else
          match setAt mismatch i true with
          | none => none
          | some mismatch1 =>
            fieldMismatchLoop deq valuesA valuesB n (i + 1) (mismatch1, mismatchCount + 1)
      | _, _ => none

/-- The function `fieldMismatch` of `compare.go`. -/
def fieldMismatch {α : Type} (deq : α → α → Bool) (valuesA valuesB : Option (List α))
    (columnCount : Nat) : Option (List Bool × Nat) :=
  fieldMismatchLoop deq valuesA valuesB columnCount 0 (List.replicate columnCount false, 0)

/-! ## `compareOrdered` -/

/-- The first loop of `compareOrdered` (`for i := 0; i < limit; i++`), with `n`
iterations left. -/
def orderedPairLoop {α : Type} (deq : α → α → Bool) (a b : dataset α) :
    Nat → Nat → diffResult α → Option (diffResult α)
  | 0, _, result => some result
  | n + 1, i, result =>
    match a.rows.get? i, b.rows.get? i with
    | some rowA, some rowB =>
      match fieldMismatch deq rowA.values rowB.values result.columns.length with
      | none => none
      | some (mismatch, mismatchCount) =>
        if mismatchCount = 0 then
          orderedPairLoop deq a b n (i + 1)
            { result with
              diffs := result.diffs ++
                [{ index := (i : Int), status := rowStatus.rowMatch,
                   valuesA := rowA.values, valuesB := rowB.values, mismatch := none }] }
        else
          orderedPairLoop deq a b n (i + 1)
            { result with
              equal := false
              diffs := result.diffs ++
                [{ index := (i : Int), status := rowStatus.rowMismatch,
                   valuesA := rowA.values, valuesB := rowB.values,
                   mismatch := some mismatch }] }
    | _, _ => none

/-- The second loop of `compareOrdered` (`for i := limit; i < len(a.rows); i++`),
with `n` iterations left. -/
def orderedExtraALoop {α : Type} (a : dataset α) (ignoreLengths : Bool) :
    Nat → Nat → diffResult α → Option (diffResult α)
  | 0, _, result => some result
  | n + 1, i, result =>
    match a.rows.get? i with
    | none => none
    | some rowA =>
      orderedExtraALoop a ignoreLengths n (i + 1)
        { result with
          equal := if !ignoreLengths then false else result.equal
          diffs := result.diffs ++
            [{ index := (i : Int), status := rowStatus.rowExtra,
               valuesA := rowA.values, valuesB := none, mismatch := none }] }

/-- The third loop of `compareOrdered` (`for i := limit; i < len(b.rows); i++`),
with `n` iterations left. -/
def orderedExtraBLoop {α : Type} (b : dataset α) (ignoreLengths : Bool) :
    Nat → Nat → diffResult α → Option (diffResult α)
  | 0, _, result => some result
  | n + 1, i, result =>
    match b.rows.get? i with
    | none => none
    | some rowB =>
      orderedExtraBLoop b ignoreLengths n (i + 1)
        { result with
          equal := if !ignoreLengths then false else result.equal
          diffs := result.diffs ++
            [{ index := (i : Int), status := rowStatus.rowExtra,
               valuesA := none, valuesB := rowB.values, mismatch := none }] }

/-- The function `compareOrdered` of `compare.go`; the updated `*result` is
returned. -/
def compareOrdered {α : Type} (deq : α → α → Bool) (result : diffResult α) (a b : dataset α)
    (ignoreLengths : Bool) : Option (diffResult α) :=
  let limit := if b.rows.length < a.rows.length then b.rows.length else a.rows.length
  match orderedPairLoop deq a b limit 0 result with
  | none => none
  | some result1 =>
    match orderedExtraALoop a ignoreLengths (a.rows.length - limit) limit result1 with
    | none => none
    | some result2 => orderedExtraBLoop b ignoreLengths (b.rows.length - limit) limit result2

/-! ## `compareUnordered` -/

/-- The local type `unmatchedRow` of `compareUnordered`. -/
structure unmatchedRow (α : Type) where
  index : Int
  values : Option (List α)
deriving DecidableEq

/-- The loop `for i := range b.rows` that fills the pool, with `n` iterations
left. -/
def fillUnmatchedLoop {α : Type} (b : dataset α) :
    Nat → Nat → List (unmatchedRow α) → Option (List (unmatchedRow α))
  | 0, _, unmatched => some unmatched
  | n + 1, i, unmatched =>
    match b.rows.get? i with
    | none => none
    | some rowB =>
      match setAt unmatched i { index := (i : Int), values := rowB.values } with
      | none => none
      | some unmatched1 => fillUnmatchedLoop b n (i + 1) unmatched1

/-- The variables `bestCandidate`, `bestMismatchCount`, `bestMismatch` of the
scan of the pool. -/
structure bestState where
  bestCandidate : Int
  bestMismatchCount : Nat
  bestMismatch : Option (List Bool)
deriving DecidableEq

/-- The loop `for j, candidate := range unmatched` over the rest of the pool,
`j` being the position of its head; a zero count leaves the loop (`break`). -/
def scanLoop {α : Type} (deq : α → α → Bool) (valuesA : Option (List α)) (columnCount : Nat) :
    List (unmatchedRow α) → Nat → bestState → Option bestState
  | [], _, best => some best
  | candidate :: rest, j, best =>
    match fieldMismatch deq valuesA candidate.values columnCount with
    | none => none
    | some (mismatch, mismatchCount) =>
      if mismatchCount = 0 then
        some { bestCandidate := (j : Int), bestMismatchCount := 0, bestMismatch := some mismatch }
      else if mismatchCount < best.bestMismatchCount then
        scanLoop deq valuesA columnCount rest (j + 1)
          { bestCandidate := (j : Int), bestMismatchCount := mismatchCount,
            bestMismatch := some mismatch }
      else
        scanLoop deq valuesA columnCount rest (j + 1) best

/-- The statement `unmatched = append(unmatched[:k], unmatched[k+1:]...)`;
`none` is the panic when `k + 1` exceeds the length. -/
def removeAt {β : Type} (s : List β) (k : Nat) : Option (List β) :=
  if k + 1 ≤ s.length then some (s.take k ++ s.drop (k + 1)) else none

/-- The loop `for i, rowA := range a.rows` of `compareUnordered` over the rest
of the rows, `i` being the position of its head; the state is
`(result, unmatched)`. -/
def matchLoop {α : Type} (deq : α → α → Bool) (ignoreLengths : Bool) :
    List (row α) → Nat → diffResult α × List (unmatchedRow α) →
      Option (diffResult α × List (unmatchedRow α))
  | [], _, st => some st
  | rowA :: rest, i, (result, unmatched) =>
    if unmatched.length = 0 then
      matchLoop deq ignoreLengths rest (i + 1)
        ({ result with
           equal := if !ignoreLengths then false else result.equal
           diffs := result.diffs ++
             [{ index := (i : Int), status := rowStatus.rowExtra,
                valuesA := rowA.values, valuesB := none, mismatch := none }] }, unmatched)
    else
      match scanLoop deq rowA.values result.columns.length unmatched 0
          { bestCandidate := -1, bestMismatchCount := result.columns.length + 1,
            bestMismatch := none } with
      | none => none
      | some best =>
        if best.bestCandidate < 0 then
          matchLoop deq ignoreLengths rest (i + 1)
            ({ result with
               equal := if !ignoreLengths then false else result.equal
               diffs := result.diffs ++
                 [{ index := (i : Int), status := rowStatus.rowExtra,
                    valuesA := rowA.values, valuesB := none, mismatch := none }] }, unmatched)
        else
          match unmatched.get? best.bestCandidate.toNat with
          | none => none
          | some candidate =>
            match removeAt unmatched best.bestCandidate.toNat with
            | none => none
            | some unmatched1 =>
              if best.bestMismatchCount = 0 then
                matchLoop deq ignoreLengths rest (i + 1)
                  ({ result with
                     diffs := result.diffs ++
                       [{ index := (i : Int), status := rowStatus.rowMatch,
                          valuesA := rowA.values, valuesB := candidate.values,
                          mismatch := none }] }, unmatched1)
              else
                matchLoop deq ignoreLengths rest (i + 1)
                  ({ result with
                     equal := false
                     diffs := result.diffs ++
                       [{ index := (i : Int), status := rowStatus.rowMismatch,
                          valuesA := rowA.values, valuesB := candidate.values,
                          mismatch := best.bestMismatch }] }, unmatched1)

/-- The last loop of `compareUnordered` (`for _, candidate := range unmatched`). -/
def leftoverLoop {α : Type} (ignoreLengths : Bool) :
    List (unmatchedRow α) → diffResult α → diffResult α
  | [], result => result
  | candidate :: rest, result =>
    leftoverLoop ignoreLengths rest
      { result with
        equal := if !ignoreLengths then false else result.equal
        diffs := result.diffs ++
          [{ index := candidate.index, status := rowStatus.rowExtra,
             valuesA := none, valuesB := candidate.values, mismatch := none }] }

/-- The function `compareUnordered` of `compare.go`; the updated `*result` is
returned. -/
def compareUnordered {α : Type} (deq : α → α → Bool) (result : diffResult α) (a b : dataset α)
    (ignoreLengths : Bool) : Option (diffResult α) :=
  match fillUnmatchedLoop b b.rows.length 0
      (List.replicate b.rows.length { index := 0, values := none }) with
  | none => none
  | some unmatched =>
    match matchLoop deq ignoreLengths a.rows 0 (result, unmatched) with
    | none => none
    | some (result1, unmatched1) => some (leftoverLoop ignoreLengths unmatched1 result1)

/-! ## `compare` -/

/-- The function `compare` of `compare.go`. -/
def compare {α : Type} (deq : α → α → Bool) (a b : dataset α) (ignoreOrder ignoreLengths : Bool) :
    Option (diffResult α) :=
  let result : diffResult α :=
    { equal := true, typeName := a.typeName, columns := a.columns, diffs := [] }
  let result := if result.typeName = "" then { result with typeName := b.typeName } else result
  let result := if result.columns.length = 0 then { result with columns := b.columns } else result
  if ignoreOrder then
    compareUnordered deq result a b ignoreLengths
  else
    compareOrdered deq result a b ignoreLengths

/-! ## `formatDiff` (`format.go`)

The two library pieces the rendering goes through are parameters:
`fmtV v` is `fmt.Sprintf("%v", v)`, and `tab text` is what the
`tabwriter.NewWriter(&b, 0, 0, 2, ' ', 0)` emits on `Flush` for the text
written to it. -/

/-- The constant `ansiReset` of `format.go`. -/
def ansiReset : String := "\x1b[0m"

/-- The constant `ansiRed` of `format.go`. -/
def ansiRed : String := "\x1b[31m"

/-- The constant `ansiGreen` of `format.go`. -/
def ansiGreen : String := "\x1b[32m"

/-- The constant `ansiYellow` of `format.go`. -/
def ansiYellow : String := "\x1b[33m"

/-- The function `colorize` of `format.go`. -/
def colorize (value color : String) : String :=
  color ++ value ++ ansiReset

/-- The loop `for i := 0; i < len(columns); i++` of `writeRow`, with `n`
iterations left; the result is the text it writes. The guarded reads
`i < len(values)` then `values[i]`, and `i < len(mismatch) && mismatch[i]`, are
the matches on `sliceAt`. -/
def writeRowLoop {α : Type} (fmtV : α → String) (values : Option (List α))
    (mismatch : Option (List Bool)) : Nat → Nat → String
  | 0, _ => ""
  | n + 1, i =>
    (match sliceAt values i with
      | some v =>
        (match sliceAt mismatch i with
          | some true => colorize (fmtV v) ansiRed
          | _ => fmtV v)
      | none => "") ++ "\t" ++ writeRowLoop fmtV values mismatch n (i + 1)

/-- The function `writeRow` of `format.go`: the text it writes to `w`. -/
def writeRow {α : Type} (fmtV : α → String) (marker index : String) (values : Option (List α))
    (mismatch : Option (List Bool)) (columns : List String) (note : String) : String :=
  marker ++ "\t" ++ index ++ "\t" ++ writeRowLoop fmtV values mismatch columns.length 0 ++
    (if note ≠ "" then note ++ "\t" else "") ++ "\n"

/-- The body of the loop `for _, diff := range result.diffs` of `formatDiff`:
the text written for one row. -/
def formatRow {α : Type} (fmtV : α → String) (columns : List String) (diff : rowDiff α) :
    String :=
  match diff.status with
  | rowStatus.rowMatch =>
    writeRow fmtV (colorize "✓" ansiGreen) (toString diff.index) diff.valuesA none columns ""
  | rowStatus.rowMismatch =>
    writeRow fmtV (colorize "✗" ansiRed) (toString diff.index) diff.valuesA diff.mismatch columns
        "← expected" ++
      writeRow fmtV "" "" diff.valuesB diff.mismatch columns "← actual"
  | rowStatus.rowExtra =>
    match diff.valuesA with
    | some valuesA =>
      writeRow fmtV (colorize "+" ansiYellow) (toString diff.index) (some valuesA) none columns
        "← extra in expected"
    | none =>
      writeRow fmtV (colorize "+" ansiYellow) (toString diff.index) diff.valuesB none columns
        "← extra in actual"

/-- The text `formatDiff` writes to the tab writer: the column header, the
separator line, then the rows. -/
def tableText {α : Type} (fmtV : α → String) (result : diffResult α) : String :=
  " \t#\t" ++ String.join (result.columns.map (fun column => column ++ "\t")) ++ "\n" ++
    "-\t-\t" ++ String.join (result.columns.map (fun _ => "-\t")) ++ "\n" ++
    String.join (result.diffs.map (formatRow fmtV result.columns))

/-- The function `formatDiff` of `format.go`. -/
def formatDiff {α : Type} (fmtV : α → String) (tab : String → String) (result : diffResult α) :
    String :=
  if result.equal then
    ""
  else
    "datadiff: []" ++ result.typeName ++ " are not equal\n\n" ++ tab (tableText fmtV result)

/-! ## `extract` (`extract.go`)

What `extract` sees of its argument through `reflect`. -/

/-- A struct field as `reflect` shows it: `Name` and `IsExported()`. -/
structure structField where
  name : String
  exported : Bool
deriving DecidableEq

/-- The element type of a slice: a struct type with its `Name()` (empty for an
anonymous struct) and its fields in declaration order, or a type of another
kind with its `Kind().String()`. -/
inductive elemKind where
  | structType (name : String) (fields : List structField)
  | otherKind (kind : String)
deriving DecidableEq

/-- A Go value passed as `any`: the nil interface, a value whose kind is not
`Slice` (with its `%T` text), or a slice (possibly nil or empty) with its
element type and its elements, each element giving the value of its field
number `i`. -/
inductive goAny (α : Type) where
  | nilInterface
  | notSlice (typeText : String)
  | slice (elem : elemKind) (elems : List (Nat → α))

/-- The loop `for i := 0; i < elemType.NumField(); i++` of `extract` over the
rest of the fields, `i` being the number of its head; the state is
`(columns, exportedFieldIndexes)`. -/
def exportedLoop : List structField → Nat → List String × List Nat → List String × List Nat
  | [], _, st => st
  | field :: rest, i, (columns, exportedFieldIndexes) =>
    if !field.exported then
      exportedLoop rest (i + 1) (columns, exportedFieldIndexes)
    else
      exportedLoop rest (i + 1) (columns ++ [field.name], exportedFieldIndexes ++ [i])

/-- The function `extract` of `extract.go`; the error is its message. -/
def extract {α : Type} (v : goAny α) : Except String (dataset α) :=
  match v with
  | goAny.nilInterface => Except.error "datadiff: input is nil"
  | goAny.notSlice typeText => Except.error ("datadiff: expected slice, got " ++ typeText)
  | goAny.slice (elemKind.otherKind kind) _ =>
    Except.error ("datadiff: expected slice of structs, got slice of " ++ kind)
  | goAny.slice (elemKind.structType name fields) elems =>
    match exportedLoop fields 0 ([], []) with
    | (columns, exportedFieldIndexes) =>
      if columns.length = 0 then
        Except.error ("datadiff: struct " ++ name ++ " has no exported fields")
      else
        Except.ok
          { typeName := name
            columns := columns
            rows := elems.map (fun element =>
              { values := some (exportedFieldIndexes.map (fun fieldIndex => element fieldIndex)) }) }

/-! ## `Assert` (`datadiff.go`) -/

/-- The constant `IgnoreOrder` of `datadiff.go` (`iota + 1`). -/
def IgnoreOrder : Int := 1

/-- The constant `IgnoreLengths` of `datadiff.go`. -/
def IgnoreLengths : Int := 2

/-- One of the variadic `flags ...any`: a value of type `Flag`, or a value of
another type (with its `%T` text). -/
inductive flagArg where
  | flag (value : Int)
  | other (typeText : String)
deriving DecidableEq

/-- The loop `for _, f := range flags` of `Assert`; the state is
`(ignoreOrder, ignoreLengths)` and the error is the message given to
`t.Fatalf`. -/
def flagLoop : List flagArg → Bool × Bool → Except String (Bool × Bool)
  | [], st => Except.ok st
  | f :: rest, (ignoreOrder, ignoreLengths) =>
    match f with
    | flagArg.other typeText =>
      Except.error ("datadiff: unknown flag type " ++ typeText ++ " (expected datadiff.Flag)")
    | flagArg.flag value =>
      if value = IgnoreOrder then
        flagLoop rest (true, ignoreLengths)
      else if value = IgnoreLengths then
        flagLoop rest (ignoreOrder, true)
      else
        Except.error ("datadiff: unknown flag value: " ++ toString value)

/-- What a call of `Assert` does: the message given to `t.Fatalf` if that is
called (`t.Fatalf` ends in `runtime.Goexit`: the test goroutine stops there and
`Assert` does not return, the `return false` after it is not reached), the
message given to `t.Errorf` if that is called, the result of `compare` if it is
called, and the value returned. -/
structure assertRun (α : Type) where
  fatalf : Option String
  errorf : Option String
  compared : Option (diffResult α)
  returned : Option Bool

/-- The function `Assert` of `datadiff.go`; `none` is a panic of `compare`. -/
def Assert {α : Type} (deq : α → α → Bool) (fmtV : α → String) (tab : String → String)
    (listA listB : goAny α) (flags : List flagArg) : Option (assertRun α) :=
  match flagLoop flags (false, false) with
  | Except.error message =>
    some { fatalf := some message, errorf := none, compared := none, returned := none }
  | Except.ok (ignoreOrder, ignoreLengths) =>
    match extract listA with
    | Except.error err =>
      some { fatalf := some ("datadiff: first argument: " ++ err), errorf := none,
             compared := none, returned := none }
    | Except.ok dsA =>
      match extract listB with
      | Except.error err =>
        some { fatalf := some ("datadiff: second argument: " ++ err), errorf := none,
               compared := none, returned := none }
      | Except.ok dsB =>
        if dsA.typeName ≠ dsB.typeName then
          some { fatalf := none,
                 errorf := some ("datadiff: type mismatch: []" ++ dsA.typeName ++ " vs []" ++
                   dsB.typeName),
                 compared := none, returned := some false }
        else
          match compare deq dsA dsB ignoreOrder ignoreLengths with
          | none => none
          | some result =>
            if !result.equal then
              some { fatalf := none, errorf := some ("\n" ++ formatDiff fmtV tab result),
                     compared := some result, returned := some false }
            else
              some { fatalf := none, errorf := none, compared := some result,
                     returned := some true }

/-! ## Closed forms of the loops -/

/-- Whether column `i` is flagged: a value is missing on either side, or the two
values are not deep-equal. -/
def colMismatch {α : Type} (deq : α → α → Bool) (valuesA valuesB : Option (List α)) (i : Nat) :
    Bool :=
  match sliceAt valuesA i, sliceAt valuesB i with
  | some x, some y => !deq x y
  | _, _ => true

/-- The mismatch vector in closed form. -/
def mismatchVec {α : Type} (deq : α → α → Bool) (valuesA valuesB : Option (List α)) (n : Nat) :
    List Bool :=
  (List.range' 0 n).map (colMismatch deq valuesA valuesB)

/-- The values of row `k` of a row list (nil when there is no such row). -/
def rowValues {α : Type} (rows : List (row α)) (k : Nat) : Option (List α) :=
  match rows.get? k with
  | some r => r.values
  | none => none

/-- The `rowDiff` emitted for a first-list row paired with a second-list row. -/
def pairDiff {α : Type} (deq : α → α → Bool) (n : Nat) (i : Nat)
    (valuesA valuesB : Option (List α)) : rowDiff α :=
  if (mismatchVec deq valuesA valuesB n).count true = 0 then
    { index := (i : Int), status := rowStatus.rowMatch, valuesA := valuesA, valuesB := valuesB,
      mismatch := none }
  else
    { index := (i : Int), status := rowStatus.rowMismatch, valuesA := valuesA, valuesB := valuesB,
      mismatch := some (mismatchVec deq valuesA valuesB n) }

/-- The `rowDiff` emitted for a first-list row without counterpart. -/
def extraADiff {α : Type} (i : Int) (valuesA : Option (List α)) : rowDiff α :=
  { index := i, status := rowStatus.rowExtra, valuesA := valuesA, valuesB := none,
    mismatch := none }

/-- The `rowDiff` emitted for a second-list row without counterpart. -/
def extraBDiff {α : Type} (i : Int) (valuesB : Option (List α)) : rowDiff α :=
  { index := i, status := rowStatus.rowExtra, valuesA := none, valuesB := valuesB,
    mismatch := none }

/-- Whether emitting `d` leaves `result.equal` untouched. -/
def rowOK {α : Type} (ignoreLengths : Bool) (d : rowDiff α) : Bool :=
  match d.status with
  | rowStatus.rowMatch => true
  | rowStatus.rowMismatch => false
  | rowStatus.rowExtra => ignoreLengths

/-- The effect on `result` of emitting the rows `ds` one after the other. -/
def extend {α : Type} (ignoreLengths : Bool) (result : diffResult α) (ds : List (rowDiff α)) :
    diffResult α :=
  { result with
    equal := result.equal && ds.all (rowOK ignoreLengths)
    diffs := result.diffs ++ ds }

/-- The rows emitted by `compareOrdered`, in closed form. -/
def diffsOrdered {α : Type} (deq : α → α → Bool) (n : Nat) (rowsA rowsB : List (row α)) :
    List (rowDiff α) :=
  let limit := if rowsB.length < rowsA.length then rowsB.length else rowsA.length
  (List.range' 0 limit).map (fun k => pairDiff deq n k (rowValues rowsA k) (rowValues rowsB k)) ++
    ((List.range' limit (rowsA.length - limit)).map
        (fun (k : Nat) => extraADiff (k : Int) (rowValues rowsA k)) ++
      (List.range' limit (rowsB.length - limit)).map
        (fun (k : Nat) => extraBDiff (k : Int) (rowValues rowsB k)))

/-- The pool built at the start of `compareUnordered`, in closed form. -/
def initialPool {α : Type} (rowsB : List (row α)) : List (unmatchedRow α) :=
  (List.range' 0 rowsB.length).map
    (fun (k : Nat) => ({ index := (k : Int), values := rowValues rowsB k } : unmatchedRow α))

/-- The scan of the pool without the panic plumbing. -/
def scanBest {α : Type} (deq : α → α → Bool) (valuesA : Option (List α)) (n : Nat) :
    List (unmatchedRow α) → Nat → bestState → bestState
  | [], _, best => best
  | candidate :: rest, j, best =>
    if (mismatchVec deq valuesA candidate.values n).count true = 0 then
      { bestCandidate := (j : Int), bestMismatchCount := 0,
        bestMismatch := some (mismatchVec deq valuesA candidate.values n) }
    else if (mismatchVec deq valuesA candidate.values n).count true < best.bestMismatchCount then
      scanBest deq valuesA n rest (j + 1)
        { bestCandidate := (j : Int),
          bestMismatchCount := (mismatchVec deq valuesA candidate.values n).count true,
          bestMismatch := some (mismatchVec deq valuesA candidate.values n) }
    else
      scanBest deq valuesA n rest (j + 1) best

/-- The position in the pool of the candidate claimed for a first-list row. -/
def pick {α : Type} (deq : α → α → Bool) (valuesA : Option (List α)) (n : Nat)
    (pool : List (unmatchedRow α)) : Nat :=
  (scanBest deq valuesA n pool 0
    { bestCandidate := -1, bestMismatchCount := n + 1, bestMismatch := none }).bestCandidate.toNat

/-- The values of entry `k` of the pool (nil when there is no such entry). -/
def poolValues {α : Type} (pool : List (unmatchedRow α)) (k : Nat) : Option (List α) :=
  match pool.get? k with
  | some c => c.values
  | none => none

/-- The rows emitted by the main loop of `compareUnordered` for the rest of the
first list, and the pool it leaves, in closed form. -/
def matchDiffs {α : Type} (deq : α → α → Bool) (n : Nat) :
    List (row α) → Nat → List (unmatchedRow α) → List (rowDiff α) × List (unmatchedRow α)
  | [], _, pool => ([], pool)
  | rowA :: rest, i, pool =>
    if pool.length = 0 then
      (extraADiff (i : Int) rowA.values :: (matchDiffs deq n rest (i + 1) pool).1,
        (matchDiffs deq n rest (i + 1) pool).2)
    else
      (pairDiff deq n i rowA.values (poolValues pool (pick deq rowA.values n pool)) ::
          (matchDiffs deq n rest (i + 1)
            (pool.take (pick deq rowA.values n pool) ++
              pool.drop (pick deq rowA.values n pool + 1))).1,
        (matchDiffs deq n rest (i + 1)
          (pool.take (pick deq rowA.values n pool) ++
            pool.drop (pick deq rowA.values n pool + 1))).2)

/-- The rows emitted by `compareUnordered`, in closed form. -/
def diffsUnordered {α : Type} (deq : α → α → Bool) (n : Nat) (rowsA rowsB : List (row α)) :
    List (rowDiff α) :=
  (matchDiffs deq n rowsA 0 (initialPool rowsB)).1 ++
    (matchDiffs deq n rowsA 0 (initialPool rowsB)).2.map
      (fun c => extraBDiff c.index c.values)

/-- The canonical column list chosen by `compare`. -/
def canonColumns {α : Type} (a b : dataset α) : List String :=
  if a.columns.length = 0 then b.columns else a.columns

/-- The canonical type name chosen by `compare`. -/
def canonTypeName {α : Type} (a b : dataset α) : String :=
  if a.typeName = "" then b.typeName else a.typeName

/-- The rows emitted by `compare`, in closed form. -/
def diffsOf {α : Type} (deq : α → α → Bool) (a b : dataset α) (ignoreOrder : Bool) :
    List (rowDiff α) :=
  if ignoreOrder then diffsUnordered deq (canonColumns a b).length a.rows b.rows
  else diffsOrdered deq (canonColumns a b).length a.rows b.rows

/-- The scan state describes entry `k` of the pool. -/
def bestAt {α : Type} (deq : α → α → Bool) (valuesA : Option (List α)) (n : Nat)
    (pool : List (unmatchedRow α)) (best : bestState) (k : Nat) : Prop :=
  best.bestCandidate = (k : Int) ∧ k < pool.length ∧
    best.bestMismatch = some (mismatchVec deq valuesA (poolValues pool k) n) ∧
    best.bestMismatchCount = (mismatchVec deq valuesA (poolValues pool k) n).count true

/-- The three shapes of an emitted row, for canonical column count `n`. -/
inductive emitted {α : Type} (deq : α → α → Bool) (n : Nat) : rowDiff α → Prop where
  | pair (i : Nat) (valuesA valuesB : Option (List α)) :
      emitted deq n (pairDiff deq n i valuesA valuesB)
  | extraA (i : Int) (valuesA : Option (List α)) : emitted deq n (extraADiff i valuesA)
  | extraB (i : Int) (valuesB : Option (List α)) : emitted deq n (extraBDiff i valuesB)

/-- Two value lists agree on the first `n` columns: both hold a value at every
column below `n` and the two values are deep-equal. -/
def rowsAgree {α : Type} (deq : α → α → Bool) (n : Nat) (valuesA valuesB : Option (List α)) :
    Prop :=
  ∀ c, c < n → ∃ x y, sliceAt valuesA c = some x ∧ sliceAt valuesB c = some y ∧ deq x y = true

/-- Deep equality on natural-number values, for the concrete examples. -/
def natEq : Nat → Nat → Bool := fun x y => decide (x = y)

/-- A table of natural-number values with non-nil rows, for the concrete
examples. -/
def natTable (typeName : String) (columns : List String) (rows : List (List Nat)) :
    dataset Nat :=
  { typeName := typeName, columns := columns, rows := rows.map (fun r => { values := some r }) }

/-- Where an emitted row comes from: it pairs the first-list row at its index
with a second-list row, or is an Extra of the first-list row at its index, or
is an Extra of the second-list row at its index. -/
inductive provenance {α : Type} (deq : α → α → Bool) (n : Nat) (rowsA rowsB : List (row α)) :
    rowDiff α → Prop where
  | pair (k : Nat) (rowA rowB : row α) (hA : rowsA.get? k = some rowA) (hB : rowB ∈ rowsB) :
      provenance deq n rowsA rowsB (pairDiff deq n k rowA.values rowB.values)
  | extraA (k : Nat) (rowA : row α) (hA : rowsA.get? k = some rowA) :
      provenance deq n rowsA rowsB (extraADiff (k : Int) rowA.values)
  | extraB (k : Nat) (rowB : row α) (hB : rowsB.get? k = some rowB) :
      provenance deq n rowsA rowsB (extraBDiff (k : Int) rowB.values)

/-- A pool of three unclaimed rows, for the concrete examples. -/
def samplePool : List (unmatchedRow Nat) :=
  [{ index := 0, values := some [2, 25] }, { index := 1, values := some [1, 31] },
    { index := 2, values := some [9, 30] }]

/-- An empty result over the columns `Name`, `Age`, for the concrete examples. -/
def sampleResult : diffResult Nat :=
  { equal := true, typeName := "Person", columns := ["Name", "Age"], diffs := [] }

/-- A flag argument `Assert` accepts: a `Flag` equal to `IgnoreOrder` or to
`IgnoreLengths`. -/
def validFlag (f : flagArg) : Prop :=
  f = flagArg.flag IgnoreOrder ∨ f = flagArg.flag IgnoreLengths

/-- The slice `[]Person{}` of the tests, for the concrete examples. -/
def emptyPersons : goAny Nat :=
  goAny.slice (elemKind.structType "Person" [{ name := "Name", exported := true },
    { name := "Age", exported := true }]) []

/-- The numbers of the exported fields among the rest of the fields, `i` being
the number of its head. -/
def exportedIndexes : List structField → Nat → List Nat
  | [], _ => []
  | field :: rest, i =>
    if field.exported then i :: exportedIndexes rest (i + 1) else exportedIndexes rest (i + 1)

/-- The slice `[]Person` of `TestExtract_UnexportedFieldsSkipped` with one
element, values being numbered. -/
def samplePersons : goAny Nat :=
  goAny.slice (elemKind.structType "Person" [{ name := "Name", exported := true },
    { name := "age", exported := false }, { name := "City", exported := true }])
    [fun i => 10 + i]

/-- The table `extract` makes of `samplePersons`. -/
def samplePersonsTable : dataset Nat :=
  { typeName := "Person", columns := ["Name", "City"], rows := [{ values := some [10, 12] }] }

/-- The scan of the pool without the early exit: every candidate is examined,
and a candidate replaces the best one only when its mismatch count is strictly
lower. -/
def scanLoopNoBreak {α : Type} (deq : α → α → Bool) (valuesA : Option (List α))
    (columnCount : Nat) : List (unmatchedRow α) → Nat → bestState → Option bestState
  | [], _, best => some best
  | candidate :: rest, j, best =>
    match fieldMismatch deq valuesA candidate.values columnCount with
    | none => none
    | some (mismatch, mismatchCount) =>
      if mismatchCount < best.bestMismatchCount then
        scanLoopNoBreak deq valuesA columnCount rest (j + 1)
          { bestCandidate := (j : Int), bestMismatchCount := mismatchCount,
            bestMismatch := some mismatch }
      else
        scanLoopNoBreak deq valuesA columnCount rest (j + 1) best

/-- The main loop of `compareUnordered` with the scan without early exit. -/
def matchLoopNoBreak {α : Type} (deq : α → α → Bool) (ignoreLengths : Bool) :
    List (row α) → Nat → diffResult α × List (unmatchedRow α) →
      Option (diffResult α × List (unmatchedRow α))
  | [], _, st => some st
  | rowA :: rest, i, (result, unmatched) =>
    if unmatched.length = 0 then
      matchLoopNoBreak deq ignoreLengths rest (i + 1)
        ({ result with
           equal := if !ignoreLengths then false else result.equal
           diffs := result.diffs ++
             [{ index := (i : Int), status := rowStatus.rowExtra,
                valuesA := rowA.values, valuesB := none, mismatch := none }] }, unmatched)
    else
      match scanLoopNoBreak deq rowA.values result.columns.length unmatched 0
          { bestCandidate := -1, bestMismatchCount := result.columns.length + 1,
            bestMismatch := none } with
      | none => none
      | some best =>
        if best.bestCandidate < 0 then
          matchLoopNoBreak deq ignoreLengths rest (i + 1)
            ({ result with
               equal := if !ignoreLengths then false else result.equal
               diffs := result.diffs ++
                 [{ index := (i : Int), status := rowStatus.rowExtra,
                    valuesA := rowA.values, valuesB := none, mismatch := none }] }, unmatched)
        else
          match unmatched.get? best.bestCandidate.toNat with
          | none => none
          | some candidate =>
            match removeAt unmatched best.bestCandidate.toNat with
            | none => none
            | some unmatched1 =>
              if best.bestMismatchCount = 0 then
                matchLoopNoBreak deq ignoreLengths rest (i + 1)
                  ({ result with
                     diffs := result.diffs ++
                       [{ index := (i : Int), status := rowStatus.rowMatch,
                          valuesA := rowA.values, valuesB := candidate.values,
                          mismatch := none }] }, unmatched1)
              else
                matchLoopNoBreak deq ignoreLengths rest (i + 1)
                  ({ result with
                     equal := false
                     diffs := result.diffs ++
                       [{ index := (i : Int), status := rowStatus.rowMismatch,
                          valuesA := rowA.values, valuesB := candidate.values,
                          mismatch := best.bestMismatch }] }, unmatched1)

/-- The function `compareUnordered` with the scan without early exit. -/
def compareUnorderedNoBreak {α : Type} (deq : α → α → Bool) (result : diffResult α)
    (a b : dataset α) (ignoreLengths : Bool) : Option (diffResult α) :=
  match fillUnmatchedLoop b b.rows.length 0
      (List.replicate b.rows.length { index := 0, values := none }) with
  | none => none
  | some unmatched =>
    match matchLoopNoBreak deq ignoreLengths a.rows 0 (result, unmatched) with
    | none => none
    | some (result1, unmatched1) => some (leftoverLoop ignoreLengths unmatched1 result1)

/-- The rows emitted for a first list against a pool when every row claims the
entry of the pool at its own position. -/
def alignedDiffs {α : Type} (deq : α → α → Bool) (n : Nat) :
    Nat → List (row α) → List (unmatchedRow α) → List (rowDiff α)
  | _, [], _ => []
  | i, rowA :: rest, [] => extraADiff (i : Int) rowA.values :: alignedDiffs deq n (i + 1) rest []
  | i, rowA :: rest, c :: pool =>
    pairDiff deq n i rowA.values c.values :: alignedDiffs deq n (i + 1) rest pool

/-! ## The loops compute their closed forms -/

theorem sliceAt_eq_none {β : Type} (s : Option (List β)) (i : Nat) (h : sliceLen s ≤ i) :
    sliceAt s i = none := by
  cases s with
  | none => rfl
  | some l => simpa [sliceAt, sliceLen] using h

theorem sliceAt_isSome {β : Type} (s : Option (List β)) (i : Nat) (h : i < sliceLen s) :
    ∃ x, sliceAt s i = some x := by
  cases s with
  | none => simp [sliceLen] at h
  | some l =>
    simp only [sliceLen] at h
    exact ⟨l.get ⟨i, h⟩, by simp [sliceAt, List.get?_eq_get h]⟩

theorem sliceAt_some_lt {β : Type} (s : Option (List β)) (i : Nat) (x : β)
    (h : sliceAt s i = some x) : i < sliceLen s := by
  by_contra hc
  rw [sliceAt_eq_none s i (Nat.le_of_not_lt hc)] at h
  cases h

theorem setAt_append_cons {β : Type} (pre : List β) (x v : β) (post : List β) :
    setAt (pre ++ x :: post) pre.length v = some (pre ++ v :: post) := by
  simp [setAt]

theorem fieldMismatchLoop_eq {α : Type} (deq : α → α → Bool) (valuesA valuesB : Option (List α))
    (n : Nat) : ∀ (i : Nat) (pre : List Bool) (c : Nat), pre.length = i →
      fieldMismatchLoop deq valuesA valuesB n i (pre ++ List.replicate n false, c) =
        some (pre ++ (List.range' i n).map (colMismatch deq valuesA valuesB),
          c + ((List.range' i n).map (colMismatch deq valuesA valuesB)).count true) := by
  induction n with
  | zero => intro i pre c _; simp [fieldMismatchLoop]
  | succ n ih =>
    intro i pre c hlen
    subst hlen
    have hstep : ∀ (v : Bool) (c1 : Nat),
        fieldMismatchLoop deq valuesA valuesB n (pre.length + 1)
            (pre ++ v :: List.replicate n false, c1) =
          some (pre ++ v :: (List.range' (pre.length + 1) n).map (colMismatch deq valuesA valuesB),
            c1 + ((List.range' (pre.length + 1) n).map
              (colMismatch deq valuesA valuesB)).count true) := by
      intro v c1
      have h := ih (pre.length + 1) (pre ++ [v]) c1 (by simp)
      simpa using h
    simp only [fieldMismatchLoop, List.replicate_succ, List.range'_succ, List.map_cons]
    by_cases hob : pre.length ≥ sliceLen valuesA ∨ pre.length ≥ sliceLen valuesB
    · have hcm : colMismatch deq valuesA valuesB pre.length = true := by
        unfold colMismatch
        rcases hob with h | h
        · rw [sliceAt_eq_none valuesA _ h]
        · rw [sliceAt_eq_none valuesB _ h]
          cases sliceAt valuesA pre.length <;> rfl
      rw [if_pos hob, setAt_append_cons, hcm]
      simp only [hstep, List.count_cons_self]
      congr 2
      omega
    · rw [if_neg hob]
      have hA : pre.length < sliceLen valuesA := by omega
      have hB : pre.length < sliceLen valuesB := by omega
      obtain ⟨x, hx⟩ := sliceAt_isSome valuesA _ hA
      obtain ⟨y, hy⟩ := sliceAt_isSome valuesB _ hB
      have hcm : colMismatch deq valuesA valuesB pre.length = !deq x y := by
        unfold colMismatch
        rw [hx, hy]
      rw [hx, hy, hcm]
      by_cases hd : deq x y = true
      · simp only [hd, if_true, hstep, Bool.not_true]
        simp
      · have hf : deq x y = false := by simpa using hd
        simp only [hf, Bool.false_eq_true, if_false, setAt_append_cons, hstep, Bool.not_false,
          List.count_cons_self]
        congr 2
        omega

theorem fieldMismatch_eq {α : Type} (deq : α → α → Bool) (valuesA valuesB : Option (List α))
    (n : Nat) :
    fieldMismatch deq valuesA valuesB n =
      some (mismatchVec deq valuesA valuesB n, (mismatchVec deq valuesA valuesB n).count true) := by
  have h := fieldMismatchLoop_eq deq valuesA valuesB n 0 [] 0 rfl
  simpa [fieldMismatch, mismatchVec] using h

theorem extend_nil {α : Type} (il : Bool) (r : diffResult α) : extend il r [] = r := by
  cases r; simp [extend]

theorem extend_extend {α : Type} (il : Bool) (r : diffResult α) (ds es : List (rowDiff α)) :
    extend il (extend il r ds) es = extend il r (ds ++ es) := by
  cases r; simp [extend, Bool.and_assoc]

theorem extend_cons {α : Type} (il : Bool) (r : diffResult α) (d : rowDiff α)
    (ds : List (rowDiff α)) : extend il r (d :: ds) = extend il (extend il r [d]) ds := by
  rw [extend_extend]; rfl

theorem emit_eq {α : Type} (il : Bool) (r : diffResult α) (d : rowDiff α) (e : Bool)
    (he : e = (r.equal && rowOK il d)) :
    ({ r with equal := e, diffs := r.diffs ++ [d] } : diffResult α) = extend il r [d] := by
  subst he; simp [extend]

theorem extend_columns {α : Type} (il : Bool) (r : diffResult α) (ds : List (rowDiff α)) :
    (extend il r ds).columns = r.columns := rfl

theorem rowValues_of_get? {α : Type} (rows : List (row α)) (k : Nat) (r : row α)
    (h : rows.get? k = some r) : rowValues rows k = r.values := by
  unfold rowValues
  rw [h]

theorem get?_isSome_of_lt {β : Type} (l : List β) (i : Nat) (h : i < l.length) :
    ∃ x, l.get? i = some x := ⟨l.get ⟨i, h⟩, List.get?_eq_get h⟩

theorem orderedPairLoop_eq {α : Type} (deq : α → α → Bool) (a b : dataset α) (il : Bool)
    (n : Nat) : ∀ (i : Nat) (result : diffResult α),
      i + n ≤ a.rows.length → i + n ≤ b.rows.length →
      orderedPairLoop deq a b n i result =
        some (extend il result ((List.range' i n).map
          (fun k => pairDiff deq result.columns.length k (rowValues a.rows k)
            (rowValues b.rows k)))) := by
  induction n with
  | zero => intro i result _ _; simp [orderedPairLoop, extend_nil]
  | succ n ih =>
    intro i result ha hb
    obtain ⟨rowA, hA⟩ := get?_isSome_of_lt a.rows i (by omega)
    obtain ⟨rowB, hB⟩ := get?_isSome_of_lt b.rows i (by omega)
    simp only [orderedPairLoop, hA, hB, fieldMismatch_eq, List.range'_succ, List.map_cons,
      rowValues_of_get? _ _ _ hA, rowValues_of_get? _ _ _ hB]
    by_cases hc : (mismatchVec deq rowA.values rowB.values result.columns.length).count true = 0
    · have hd : pairDiff deq result.columns.length i rowA.values rowB.values =
          { index := (i : Int), status := rowStatus.rowMatch, valuesA := rowA.values,
            valuesB := rowB.values, mismatch := none } := by
        simp [pairDiff, hc]
      rw [if_pos hc, ih (i + 1) _ (by omega) (by omega), extend_cons, hd]
      have hs := emit_eq il result (pairDiff deq result.columns.length i rowA.values rowB.values)
        result.equal (by simp [rowOK, hd])
      rw [hd] at hs
      simp only [hs, extend_columns]
    · have hd : pairDiff deq result.columns.length i rowA.values rowB.values =
          { index := (i : Int), status := rowStatus.rowMismatch, valuesA := rowA.values,
            valuesB := rowB.values,
            mismatch := some (mismatchVec deq rowA.values rowB.values result.columns.length) } := by
        simp [pairDiff, hc]
      rw [if_neg hc, ih (i + 1) _ (by omega) (by omega), extend_cons, hd]
      have hs := emit_eq il result (pairDiff deq result.columns.length i rowA.values rowB.values)
        false (by simp [rowOK, hd])
      rw [hd] at hs
      simp only [hs, extend_columns]

theorem orderedExtraALoop_eq {α : Type} (a : dataset α) (il : Bool)
    (n : Nat) : ∀ (i : Nat) (result : diffResult α), i + n ≤ a.rows.length →
      orderedExtraALoop a il n i result =
        some (extend il result ((List.range' i n).map
          (fun (k : Nat) => extraADiff (k : Int) (rowValues a.rows k)))) := by
  induction n with
  | zero => intro i result _; simp [orderedExtraALoop, extend_nil]
  | succ n ih =>
    intro i result ha
    obtain ⟨rowA, hA⟩ := get?_isSome_of_lt a.rows i (by omega)
    simp only [orderedExtraALoop, hA, List.range'_succ, List.map_cons,
      rowValues_of_get? _ _ _ hA]
    rw [ih (i + 1) _ (by omega), extend_cons]
    have hs := emit_eq il result (extraADiff (i : Int) rowA.values)
      (if !il then false else result.equal) (by cases il <;> simp [rowOK, extraADiff])
    simp only [extraADiff] at hs ⊢
    simp only [hs]

theorem orderedExtraBLoop_eq {α : Type} (b : dataset α) (il : Bool)
    (n : Nat) : ∀ (i : Nat) (result : diffResult α), i + n ≤ b.rows.length →
      orderedExtraBLoop b il n i result =
        some (extend il result ((List.range' i n).map
          (fun (k : Nat) => extraBDiff (k : Int) (rowValues b.rows k)))) := by
  induction n with
  | zero => intro i result _; simp [orderedExtraBLoop, extend_nil]
  | succ n ih =>
    intro i result hb
    obtain ⟨rowB, hB⟩ := get?_isSome_of_lt b.rows i (by omega)
    simp only [orderedExtraBLoop, hB, List.range'_succ, List.map_cons,
      rowValues_of_get? _ _ _ hB]
    rw [ih (i + 1) _ (by omega), extend_cons]
    have hs := emit_eq il result (extraBDiff (i : Int) rowB.values)
      (if !il then false else result.equal) (by cases il <;> simp [rowOK, extraBDiff])
    simp only [extraBDiff] at hs ⊢
    simp only [hs]

theorem compareOrdered_eq {α : Type} (deq : α → α → Bool) (result : diffResult α)
    (a b : dataset α) (il : Bool) :
    compareOrdered deq result a b il =
      some (extend il result (diffsOrdered deq result.columns.length a.rows b.rows)) := by
  unfold compareOrdered
  simp only []
  rw [orderedPairLoop_eq deq a b il _ 0 result (by split <;> omega) (by split <;> omega)]
  simp only []
  rw [orderedExtraALoop_eq a il _ _ _ (by split <;> omega)]
  simp only []
  rw [orderedExtraBLoop_eq b il _ _ _ (by split <;> omega)]
  simp [extend_extend, diffsOrdered, extend_columns]

theorem fillUnmatchedLoop_eq {α : Type} (b : dataset α) (z : unmatchedRow α)
    (n : Nat) : ∀ (i : Nat) (pre : List (unmatchedRow α)), pre.length = i →
      i + n ≤ b.rows.length →
      fillUnmatchedLoop b n i (pre ++ List.replicate n z) =
        some (pre ++ (List.range' i n).map
          (fun (k : Nat) =>
            ({ index := (k : Int), values := rowValues b.rows k } : unmatchedRow α))) := by
  induction n with
  | zero => intro i pre _ _; simp [fillUnmatchedLoop]
  | succ n ih =>
    intro i pre hlen hb
    subst hlen
    obtain ⟨rowB, hB⟩ := get?_isSome_of_lt b.rows pre.length (by omega)
    simp only [fillUnmatchedLoop, hB, List.replicate_succ, setAt_append_cons, List.range'_succ,
      List.map_cons, rowValues_of_get? _ _ _ hB]
    have h := ih (pre.length + 1)
      (pre ++ [({ index := (pre.length : Int), values := rowB.values } : unmatchedRow α)])
      (by simp) (by omega)
    simpa using h

theorem scanLoop_eq {α : Type} (deq : α → α → Bool) (valuesA : Option (List α)) (n : Nat)
    (pool : List (unmatchedRow α)) : ∀ (j : Nat) (best : bestState),
      scanLoop deq valuesA n pool j best = some (scanBest deq valuesA n pool j best) := by
  induction pool with
  | nil => intro j best; rfl
  | cons c rest ih =>
    intro j best
    simp only [scanLoop, scanBest, fieldMismatch_eq, ih]
    split
    · rfl
    · split <;> rfl

theorem count_mismatchVec_le {α : Type} (deq : α → α → Bool) (valuesA valuesB : Option (List α))
    (n : Nat) : (mismatchVec deq valuesA valuesB n).count true ≤ n := by
  have h := List.count_le_length true (mismatchVec deq valuesA valuesB n)
  simpa [mismatchVec] using h

theorem scanBest_bestAt {α : Type} (deq : α → α → Bool) (valuesA : Option (List α)) (n : Nat)
    (pool : List (unmatchedRow α)) (suffix : List (unmatchedRow α)) :
    ∀ (j : Nat) (best : bestState), pool.drop j = suffix →
      ((∃ k, bestAt deq valuesA n pool best k) ∨ (suffix ≠ [] ∧ n < best.bestMismatchCount)) →
      ∃ k, bestAt deq valuesA n pool (scanBest deq valuesA n suffix j best) k := by
  induction suffix with
  | nil =>
    intro j best _ h
    rcases h with h | h
    · exact h
    · exact absurd rfl h.1
  | cons c rest ih =>
    intro j best hdrop h
    have hj : j < pool.length := by
      by_contra hc
      rw [List.drop_eq_nil_of_le (by omega)] at hdrop
      cases hdrop
    have hget : pool.get? j = some c := by
      have := List.getElem?_drop pool j 0
      rw [hdrop] at this
      simpa using this.symm
    have hpv : poolValues pool j = c.values := by
      unfold poolValues; rw [hget]
    have hrest : pool.drop (j + 1) = rest := by
      have := List.drop_drop 1 j pool
      rw [hdrop] at this
      simpa [Nat.add_comm] using this.symm
    have hnew : ∀ cnt, cnt = (mismatchVec deq valuesA c.values n).count true →
        bestAt deq valuesA n pool
          { bestCandidate := (j : Int), bestMismatchCount := cnt,
            bestMismatch := some (mismatchVec deq valuesA c.values n) } j := by
      intro cnt hcnt
      exact ⟨rfl, hj, by rw [hpv], by rw [hpv]; exact hcnt⟩
    simp only [scanBest]
    split
    · rename_i hz
      exact ⟨j, hnew 0 hz.symm⟩
    · split
      · exact ih (j + 1) _ hrest (Or.inl ⟨j, hnew _ rfl⟩)
      · rename_i hnz hlt
        rcases h with h | h
        · exact ih (j + 1) _ hrest (Or.inl h)
        · exfalso
          have := count_mismatchVec_le deq valuesA c.values n
          omega

theorem pick_spec {α : Type} (deq : α → α → Bool) (valuesA : Option (List α)) (n : Nat)
    (pool : List (unmatchedRow α)) (hne : pool ≠ []) :
    bestAt deq valuesA n pool
      (scanBest deq valuesA n pool 0
        { bestCandidate := -1, bestMismatchCount := n + 1, bestMismatch := none })
      (pick deq valuesA n pool) := by
  obtain ⟨k, hk⟩ := scanBest_bestAt deq valuesA n pool pool 0
    { bestCandidate := -1, bestMismatchCount := n + 1, bestMismatch := none } rfl
    (Or.inr ⟨hne, by simp⟩)
  have : pick deq valuesA n pool = k := by
    unfold pick
    rw [hk.1]
    simp
  rw [this]
  exact hk

theorem pick_lt {α : Type} (deq : α → α → Bool) (valuesA : Option (List α)) (n : Nat)
    (pool : List (unmatchedRow α)) (hne : pool ≠ []) :
    pick deq valuesA n pool < pool.length :=
  (pick_spec deq valuesA n pool hne).2.1

theorem matchLoop_eq {α : Type} (deq : α → α → Bool) (il : Bool) (rows : List (row α)) :
    ∀ (i : Nat) (result : diffResult α) (pool : List (unmatchedRow α)),
      matchLoop deq il rows i (result, pool) =
        some (extend il result (matchDiffs deq result.columns.length rows i pool).1,
          (matchDiffs deq result.columns.length rows i pool).2) := by
  induction rows with
  | nil => intro i result pool; simp [matchLoop, matchDiffs, extend_nil]
  | cons rowA rest ih =>
    intro i result pool
    have hsX := emit_eq il result (extraADiff (i : Int) rowA.values)
      (if !il then false else result.equal) (by cases il <;> simp [rowOK, extraADiff])
    simp only [extraADiff] at hsX
    by_cases hp : pool.length = 0
    · simp only [matchLoop, matchDiffs, if_pos hp, hsX, ih, extend_columns]
      rw [extend_extend]
      rfl
    · have hne : pool ≠ [] := by
        intro h; apply hp; rw [h]; rfl
      have hb := pick_spec deq rowA.values result.columns.length pool hne
      obtain ⟨hbc, hlt, hbm, hcnt⟩ := hb
      obtain ⟨c, hc⟩ := get?_isSome_of_lt pool _ hlt
      have hpv : poolValues pool (pick deq rowA.values result.columns.length pool) = c.values := by
        unfold poolValues; rw [hc]
      have hnn : ¬ ((scanBest deq rowA.values result.columns.length pool 0
          { bestCandidate := -1, bestMismatchCount := result.columns.length + 1,
            bestMismatch := none }).bestCandidate < 0) := by
        rw [hbc]; omega
      have htn : (scanBest deq rowA.values result.columns.length pool 0
          { bestCandidate := -1, bestMismatchCount := result.columns.length + 1,
            bestMismatch := none }).bestCandidate.toNat =
          pick deq rowA.values result.columns.length pool := rfl
      have hrm : removeAt pool (pick deq rowA.values result.columns.length pool) =
          some (pool.take (pick deq rowA.values result.columns.length pool) ++
            pool.drop (pick deq rowA.values result.columns.length pool + 1)) := by
        unfold removeAt
        rw [if_pos (by omega)]
      simp only [matchLoop, matchDiffs, if_neg hp, scanLoop_eq, if_neg hnn, htn, hc, hrm]
      rw [extend_cons, hcnt, hbm, hpv]
      by_cases hz : (mismatchVec deq rowA.values c.values result.columns.length).count true = 0
      · have hd : pairDiff deq result.columns.length i rowA.values c.values =
            { index := (i : Int), status := rowStatus.rowMatch, valuesA := rowA.values,
              valuesB := c.values, mismatch := none } := by
          simp [pairDiff, hz]
        have hs := emit_eq il result (pairDiff deq result.columns.length i rowA.values c.values)
          result.equal (by simp [rowOK, hd])
        rw [hd] at hs
        rw [if_pos hz, hd]
        simp only [hs, ih, extend_columns]
      · have hd : pairDiff deq result.columns.length i rowA.values c.values =
            { index := (i : Int), status := rowStatus.rowMismatch, valuesA := rowA.values,
              valuesB := c.values,
              mismatch := some (mismatchVec deq rowA.values c.values result.columns.length) } := by
          simp [pairDiff, hz]
        have hs := emit_eq il result (pairDiff deq result.columns.length i rowA.values c.values)
          false (by simp [rowOK, hd])
        rw [hd] at hs
        rw [if_neg hz, hd]
        simp only [hs, ih, extend_columns]

theorem leftoverLoop_eq {α : Type} (il : Bool) (pool : List (unmatchedRow α)) :
    ∀ (result : diffResult α),
      leftoverLoop il pool result =
        extend il result (pool.map (fun c => extraBDiff c.index c.values)) := by
  induction pool with
  | nil => intro result; simp [leftoverLoop, extend_nil]
  | cons c rest ih =>
    intro result
    have hs := emit_eq il result (extraBDiff c.index c.values)
      (if !il then false else result.equal) (by cases il <;> simp [rowOK, extraBDiff])
    simp only [extraBDiff] at hs
    simp only [leftoverLoop, List.map_cons, hs, ih]
    rw [extend_extend]
    rfl

theorem compareUnordered_eq {α : Type} (deq : α → α → Bool) (result : diffResult α)
    (a b : dataset α) (il : Bool) :
    compareUnordered deq result a b il =
      some (extend il result (diffsUnordered deq result.columns.length a.rows b.rows)) := by
  have hfill := fillUnmatchedLoop_eq b { index := 0, values := none } b.rows.length 0 [] rfl
    (by omega)
  simp only [List.nil_append] at hfill
  unfold compareUnordered
  rw [hfill]
  simp only [matchLoop_eq, leftoverLoop_eq, extend_extend]
  rfl

/-- The result of `compare`, in closed form. -/
theorem compare_eq {α : Type} (deq : α → α → Bool) (a b : dataset α) (io il : Bool) :
    compare deq a b io il =
      some { equal := (diffsOf deq a b io).all (rowOK il)
             typeName := canonTypeName a b
             columns := canonColumns a b
             diffs := diffsOf deq a b io } := by
  unfold compare
  simp only [compareUnordered_eq, compareOrdered_eq]
  cases io <;> by_cases h1 : a.typeName = "" <;> by_cases h2 : a.columns.length = 0 <;>
    simp [h1, h2, extend, diffsOf, canonTypeName, canonColumns]

theorem mismatchVec_length {α : Type} (deq : α → α → Bool) (valuesA valuesB : Option (List α))
    (n : Nat) : (mismatchVec deq valuesA valuesB n).length = n := by
  simp [mismatchVec]

theorem mismatchVec_get? {α : Type} (deq : α → α → Bool) (valuesA valuesB : Option (List α))
    (n i : Nat) (h : i < n) :
    (mismatchVec deq valuesA valuesB n).get? i = some (colMismatch deq valuesA valuesB i) := by
  simp [mismatchVec, List.getElem?_range' 0 1 h]

theorem colMismatch_eq_true_iff {α : Type} (deq : α → α → Bool)
    (valuesA valuesB : Option (List α)) (i : Nat) :
    colMismatch deq valuesA valuesB i = true ↔
      (i ≥ sliceLen valuesA ∨ i ≥ sliceLen valuesB ∨
        ∃ x y, sliceAt valuesA i = some x ∧ sliceAt valuesB i = some y ∧ deq x y = false) := by
  unfold colMismatch
  by_cases hA : i < sliceLen valuesA
  · by_cases hB : i < sliceLen valuesB
    · obtain ⟨x, hx⟩ := sliceAt_isSome valuesA i hA
      obtain ⟨y, hy⟩ := sliceAt_isSome valuesB i hB
      rw [hx, hy]
      constructor
      · intro h
        exact Or.inr (Or.inr ⟨x, y, rfl, rfl, by simpa using h⟩)
      · intro h
        rcases h with h | h | ⟨x1, y1, h1, h2, h3⟩
        · omega
        · omega
        · cases h1; cases h2; simp [h3]
    · rw [sliceAt_eq_none valuesB i (by omega)]
      constructor
      · intro _; exact Or.inr (Or.inl (by omega))
      · intro _; cases sliceAt valuesA i <;> rfl
  · rw [sliceAt_eq_none valuesA i (by omega)]
    constructor
    · intro _; exact Or.inl (by omega)
    · intro _; rfl

theorem emitted_diffsOrdered {α : Type} (deq : α → α → Bool) (n : Nat) (rowsA rowsB : List (row α))
    (d : rowDiff α) (hd : d ∈ diffsOrdered deq n rowsA rowsB) : emitted deq n d := by
  simp only [diffsOrdered, List.mem_append, List.mem_map] at hd
  rcases hd with ⟨k, _, rfl⟩ | ⟨k, _, rfl⟩ | ⟨k, _, rfl⟩
  · exact emitted.pair _ _ _
  · exact emitted.extraA _ _
  · exact emitted.extraB _ _

theorem emitted_matchDiffs {α : Type} (deq : α → α → Bool) (n : Nat) (rows : List (row α)) :
    ∀ (i : Nat) (pool : List (unmatchedRow α)) (d : rowDiff α),
      d ∈ (matchDiffs deq n rows i pool).1 → emitted deq n d := by
  induction rows with
  | nil => intro i pool d hd; simp [matchDiffs] at hd
  | cons rowA rest ih =>
    intro i pool d hd
    by_cases hp : pool.length = 0
    · simp only [matchDiffs, if_pos hp, List.mem_cons] at hd
      rcases hd with rfl | hd
      · exact emitted.extraA _ _
      · exact ih _ _ _ hd
    · simp only [matchDiffs, if_neg hp, List.mem_cons] at hd
      rcases hd with rfl | hd
      · exact emitted.pair _ _ _
      · exact ih _ _ _ hd

theorem emitted_diffsOf {α : Type} (deq : α → α → Bool) (a b : dataset α) (io : Bool)
    (d : rowDiff α) (hd : d ∈ diffsOf deq a b io) : emitted deq (canonColumns a b).length d := by
  cases io
  · exact emitted_diffsOrdered deq _ _ _ d (by simpa [diffsOf] using hd)
  · simp only [diffsOf, if_true, diffsUnordered, List.mem_append, List.mem_map] at hd
    rcases hd with hd | ⟨c, _, rfl⟩
    · exact emitted_matchDiffs deq _ _ _ _ d hd
    · exact emitted.extraB _ _

theorem pairDiff_status {α : Type} (deq : α → α → Bool) (n i : Nat)
    (valuesA valuesB : Option (List α)) :
    ((mismatchVec deq valuesA valuesB n).count true = 0 ∧
        pairDiff deq n i valuesA valuesB =
          { index := (i : Int), status := rowStatus.rowMatch, valuesA := valuesA,
            valuesB := valuesB, mismatch := none }) ∨
      (0 < (mismatchVec deq valuesA valuesB n).count true ∧
        pairDiff deq n i valuesA valuesB =
          { index := (i : Int), status := rowStatus.rowMismatch, valuesA := valuesA,
            valuesB := valuesB, mismatch := some (mismatchVec deq valuesA valuesB n) }) := by
  by_cases hc : (mismatchVec deq valuesA valuesB n).count true = 0
  · exact Or.inl ⟨hc, by simp [pairDiff, hc]⟩
  · exact Or.inr ⟨by omega, by simp [pairDiff, hc]⟩

theorem all_rowOK_iff {α : Type} (il : Bool) (ds : List (rowDiff α)) :
    ds.all (rowOK il) = true ↔
      ((∀ d ∈ ds, d.status ≠ rowStatus.rowMismatch) ∧
        (il = false → ∀ d ∈ ds, d.status ≠ rowStatus.rowExtra)) := by
  rw [List.all_eq_true]
  constructor
  · intro h
    refine ⟨fun d hd hs => ?_, fun hil d hd hs => ?_⟩
    · have := h d hd
      simp [rowOK, hs] at this
    · have := h d hd
      simp [rowOK, hs, hil] at this
  · rintro ⟨h1, h2⟩ d hd
    have h1d := h1 d hd
    cases hs : d.status
    · simp [rowOK, hs]
    · exact absurd hs h1d
    · cases il
      · exact absurd hs (h2 rfl d hd)
      · simp [rowOK, hs]

theorem colMismatch_eq_false_iff {α : Type} (deq : α → α → Bool)
    (valuesA valuesB : Option (List α)) (i : Nat) :
    colMismatch deq valuesA valuesB i = false ↔
      ∃ x y, sliceAt valuesA i = some x ∧ sliceAt valuesB i = some y ∧ deq x y = true := by
  unfold colMismatch
  cases hA : sliceAt valuesA i with
  | none => simp
  | some x =>
    cases hB : sliceAt valuesB i with
    | none => simp
    | some y => simp

theorem count_eq_zero_iff_rowsAgree {α : Type} (deq : α → α → Bool) (n : Nat)
    (valuesA valuesB : Option (List α)) :
    (mismatchVec deq valuesA valuesB n).count true = 0 ↔ rowsAgree deq n valuesA valuesB := by
  rw [List.count_eq_zero]
  unfold rowsAgree
  constructor
  · intro h c hc
    rw [← colMismatch_eq_false_iff]
    by_contra hne
    apply h
    have : colMismatch deq valuesA valuesB c = true := by simpa using hne
    rw [← this]
    simp only [mismatchVec, List.mem_map, List.mem_range']
    exact ⟨c, ⟨c, hc, by omega⟩, rfl⟩
  · intro h hmem
    simp only [mismatchVec, List.mem_map, List.mem_range'] at hmem
    obtain ⟨c, ⟨i, hi, rfl⟩, hcm⟩ := hmem
    have := (colMismatch_eq_false_iff deq valuesA valuesB (0 + 1 * i)).mpr (h _ (by omega))
    rw [this] at hcm
    cases hcm

theorem rowOK_pairDiff {α : Type} (deq : α → α → Bool) (il : Bool) (n i : Nat)
    (valuesA valuesB : Option (List α)) :
    rowOK il (pairDiff deq n i valuesA valuesB) = true ↔ rowsAgree deq n valuesA valuesB := by
  rw [← count_eq_zero_iff_rowsAgree]
  rcases pairDiff_status deq n i valuesA valuesB with ⟨hc, hp⟩ | ⟨hc, hp⟩
  · rw [hp]; simp [rowOK, hc]
  · rw [hp]; simp [rowOK]; omega

theorem all_rowOK_diffsOrdered {α : Type} (deq : α → α → Bool) (il : Bool) (n : Nat)
    (rowsA rowsB : List (row α)) :
    (diffsOrdered deq n rowsA rowsB).all (rowOK il) = true ↔
      ((∀ k, k < rowsA.length → k < rowsB.length →
          rowsAgree deq n (rowValues rowsA k) (rowValues rowsB k)) ∧
        (il = false → rowsA.length = rowsB.length)) := by
  simp only [diffsOrdered, List.all_append, Bool.and_eq_true, List.all_eq_true, List.mem_map,
    List.mem_range', forall_exists_index, and_imp]
  constructor
  · rintro ⟨h1, h2, h3⟩
    refine ⟨fun k hka hkb => ?_, fun hil => ?_⟩
    · have := h1 _ k k (by split <;> omega) (by omega) rfl
      exact (rowOK_pairDiff deq il n k _ _).mp this
    · subst hil
      by_contra hne
      by_cases hlt : rowsB.length < rowsA.length
      · have := h2 _ _ 0 (by rw [if_pos hlt]; omega) rfl rfl
        simp [rowOK, extraADiff] at this
      · have := h3 _ _ 0 (by rw [if_neg hlt]; omega) rfl rfl
        simp [rowOK, extraBDiff] at this
  · rintro ⟨h1, h2⟩
    refine ⟨?_, ?_, ?_⟩
    · intro d k i hi hk hd
      subst hk hd
      have hlt : 0 + 1 * i < rowsA.length ∧ 0 + 1 * i < rowsB.length := by
        split at hi <;> omega
      exact (rowOK_pairDiff deq il n _ _ _).mpr (h1 _ hlt.1 hlt.2)
    · intro d k i hi hk hd
      subst hk hd
      cases il
      · have := h2 rfl
        exfalso
        split at hi <;> omega
      · simp [rowOK, extraADiff]
    · intro d k i hi hk hd
      subst hk hd
      cases il
      · have := h2 rfl
        exfalso
        split at hi <;> omega
      · simp [rowOK, extraBDiff]

theorem initialPool_length {α : Type} (rowsB : List (row α)) :
    (initialPool rowsB).length = rowsB.length := by
  simp [initialPool]

theorem removed_length {β : Type} (pool : List β) (k : Nat) (hk : k < pool.length) :
    (pool.take k ++ pool.drop (k + 1)).length = pool.length - 1 := by
  simp only [List.length_append, List.length_take, List.length_drop]
  omega

theorem matchDiffs_pool_length {α : Type} (deq : α → α → Bool) (n : Nat) (rows : List (row α)) :
    ∀ (i : Nat) (pool : List (unmatchedRow α)),
      (matchDiffs deq n rows i pool).2.length = pool.length - rows.length := by
  induction rows with
  | nil => intro i pool; simp [matchDiffs]
  | cons rowA rest ih =>
    intro i pool
    by_cases hp : pool.length = 0
    · simp only [matchDiffs, if_pos hp, ih, List.length_cons]
      omega
    · have hne : pool ≠ [] := by intro h; apply hp; rw [h]; rfl
      simp only [matchDiffs, if_neg hp, ih, List.length_cons,
        removed_length pool _ (pick_lt deq rowA.values n pool hne)]
      omega

theorem matchDiffs_extra_of_lt {α : Type} (deq : α → α → Bool) (n : Nat) (rows : List (row α)) :
    ∀ (i : Nat) (pool : List (unmatchedRow α)), pool.length < rows.length →
      ∃ d ∈ (matchDiffs deq n rows i pool).1, d.status = rowStatus.rowExtra := by
  induction rows with
  | nil => intro i pool h; simp at h
  | cons rowA rest ih =>
    intro i pool h
    by_cases hp : pool.length = 0
    · simp only [matchDiffs, if_pos hp]
      exact ⟨_, List.mem_cons_self _ _, rfl⟩
    · have hne : pool ≠ [] := by intro h; apply hp; rw [h]; rfl
      have hlen := removed_length pool _ (pick_lt deq rowA.values n pool hne)
      obtain ⟨d, hd, hs⟩ := ih (i + 1)
        (pool.take (pick deq rowA.values n pool) ++ pool.drop (pick deq rowA.values n pool + 1))
        (by rw [hlen]; simp only [List.length_cons] at h; omega)
      simp only [matchDiffs, if_neg hp]
      exact ⟨d, List.mem_cons_of_mem _ hd, hs⟩

theorem extra_of_length_ne {α : Type} (deq : α → α → Bool) (a b : dataset α) (io : Bool)
    (hne : a.rows.length ≠ b.rows.length) :
    ∃ d ∈ diffsOf deq a b io, d.status = rowStatus.rowExtra := by
  cases io
  · simp only [diffsOf, Bool.false_eq_true, if_false, diffsOrdered, List.mem_append, List.mem_map,
      List.mem_range']
    by_cases hlt : b.rows.length < a.rows.length
    · exact ⟨_, Or.inr (Or.inl ⟨_, ⟨0, by rw [if_pos hlt]; omega, rfl⟩, rfl⟩), rfl⟩
    · exact ⟨_, Or.inr (Or.inr ⟨_, ⟨0, by rw [if_neg hlt]; omega, rfl⟩, rfl⟩), rfl⟩
  · simp only [diffsOf, if_true, diffsUnordered, List.mem_append, List.mem_map]
    by_cases hlt : b.rows.length < a.rows.length
    · obtain ⟨d, hd, hs⟩ := matchDiffs_extra_of_lt deq (canonColumns a b).length a.rows 0
        (initialPool b.rows) (by rw [initialPool_length]; exact hlt)
      exact ⟨d, Or.inl hd, hs⟩
    · have hlen := matchDiffs_pool_length deq (canonColumns a b).length a.rows 0
        (initialPool b.rows)
      rw [initialPool_length] at hlen
      have hpos : 0 < (matchDiffs deq (canonColumns a b).length a.rows 0
          (initialPool b.rows)).2.length := by omega
      obtain ⟨c, hc⟩ := List.exists_mem_of_length_pos hpos
      exact ⟨_, Or.inr ⟨c, hc, rfl⟩, rfl⟩

theorem forall₂_replace {β γ : Type} {R : β → γ → Prop} {L : List β} {S T : List γ} {p q : γ}
    (h : List.Forall₂ R L (S ++ p :: T)) (hpq : ∀ l, R l p → R l q) :
    List.Forall₂ R L (S ++ q :: T) := by
  have h1 := List.forall₂_take_append L S (p :: T) h
  have h2 := List.forall₂_drop_append L S (p :: T) h
  obtain ⟨a, u, hap, hu, hdrop⟩ := List.forall₂_cons_right_iff.mp h2
  rw [← List.take_append_drop S.length L, hdrop]
  exact List.rel_append h1 (List.Forall₂.cons (hpq a hap) hu)

/-- Claiming for `x` an entry `p` of the pool it agrees with leaves the rest
of the list matchable with the rest of the pool. -/
theorem matchable_step {β γ : Type} {R : β → γ → Prop} {x : β} {L : List β} {σ P1 P2 : List γ}
    {p : γ} (hF : List.Forall₂ R (x :: L) σ) (hP : σ.Perm (P1 ++ p :: P2))
    (hex : ∀ l s, R l p → R x s → R l s) :
    ∃ τ, List.Forall₂ R L τ ∧ τ.Perm (P1 ++ P2) := by
  cases hF with
  | @cons _ s0 _ σ1 hx0 hL =>
    have hmem : p ∈ s0 :: σ1 := hP.mem_iff.mpr (by simp)
    have hP1 : (s0 :: σ1).Perm (p :: (P1 ++ P2)) := hP.trans List.perm_middle
    rcases List.mem_cons.mp hmem with heq | hin
    · subst heq
      exact ⟨σ1, hL, hP1.cons_inv⟩
    · obtain ⟨S, T, rfl⟩ := List.append_of_mem hin
      refine ⟨S ++ s0 :: T, forall₂_replace hL (fun l hl => hex l s0 hl hx0), ?_⟩
      have h2 : (p :: s0 :: (S ++ T)).Perm (s0 :: (S ++ p :: T)) :=
        (List.Perm.swap s0 p (S ++ T)).trans (List.Perm.cons s0 List.perm_middle.symm)
      exact List.perm_middle.trans (h2.trans hP1).cons_inv

theorem rowsAgree_exchange {α : Type} (deq : α → α → Bool) (n : Nat)
    (hsymm : ∀ x y, deq x y = true → deq y x = true)
    (htrans : ∀ x y z, deq x y = true → deq y z = true → deq x z = true)
    (x p l s : Option (List α)) (hxp : rowsAgree deq n x p) (hlp : rowsAgree deq n l p)
    (hxs : rowsAgree deq n x s) : rowsAgree deq n l s := by
  intro c hc
  obtain ⟨x1, p1, hx1, hp1, h1⟩ := hxp c hc
  obtain ⟨l2, p2, hl2, hp2, h2⟩ := hlp c hc
  obtain ⟨x3, s3, hx3, hs3, h3⟩ := hxs c hc
  rw [hp1] at hp2
  rw [hx1] at hx3
  cases hp2
  cases hx3
  exact ⟨l2, s3, hl2, hs3, htrans _ _ _ (htrans _ _ _ h2 (hsymm _ _ h1)) h3⟩

theorem scanBest_zero {α : Type} (deq : α → α → Bool) (valuesA : Option (List α)) (n : Nat)
    (suffix : List (unmatchedRow α)) : ∀ (j : Nat) (best : bestState),
      (∃ c ∈ suffix, (mismatchVec deq valuesA c.values n).count true = 0) →
      (scanBest deq valuesA n suffix j best).bestMismatchCount = 0 := by
  induction suffix with
  | nil => intro j best h; simp at h
  | cons c rest ih =>
    intro j best h
    simp only [scanBest]
    split
    · rfl
    · rename_i hnz
      have hrest : ∃ c ∈ rest, (mismatchVec deq valuesA c.values n).count true = 0 := by
        obtain ⟨c1, hc1, hz⟩ := h
        rcases List.mem_cons.mp hc1 with rfl | hin
        · exact absurd hz hnz
        · exact ⟨c1, hin, hz⟩
      split
      · exact ih _ _ hrest
      · exact ih _ _ hrest

theorem pick_agrees {α : Type} (deq : α → α → Bool) (valuesA : Option (List α)) (n : Nat)
    (pool : List (unmatchedRow α)) (h : ∃ c ∈ pool, rowsAgree deq n valuesA c.values) :
    rowsAgree deq n valuesA (poolValues pool (pick deq valuesA n pool)) := by
  obtain ⟨c, hc, hag⟩ := h
  have hne : pool ≠ [] := List.ne_nil_of_mem hc
  have hz := scanBest_zero deq valuesA n pool 0
    { bestCandidate := -1, bestMismatchCount := n + 1, bestMismatch := none }
    ⟨c, hc, (count_eq_zero_iff_rowsAgree deq n _ _).mpr hag⟩
  have hs := (pick_spec deq valuesA n pool hne).2.2.2
  rw [hz] at hs
  exact (count_eq_zero_iff_rowsAgree deq n _ _).mp hs.symm

theorem pool_split {α : Type} (pool : List (unmatchedRow α)) (k : Nat) (hk : k < pool.length) :
    pool.map (fun c => c.values) =
      (pool.take k).map (fun c => c.values) ++
        poolValues pool k :: (pool.drop (k + 1)).map (fun c => c.values) := by
  obtain ⟨c, hc⟩ := get?_isSome_of_lt pool k hk
  have hpv : poolValues pool k = c.values := by unfold poolValues; rw [hc]
  have hdrop : pool.drop k = c :: pool.drop (k + 1) := by
    rw [List.drop_eq_getElem_cons hk]
    congr 1
    rw [List.get?_eq_get hk] at hc
    simpa using hc
  conv_lhs => rw [← List.take_append_drop k pool, hdrop]
  simp [hpv]

theorem matchDiffs_all_match {α : Type} (deq : α → α → Bool) (n : Nat)
    (hsymm : ∀ x y, deq x y = true → deq y x = true)
    (htrans : ∀ x y z, deq x y = true → deq y z = true → deq x z = true)
    (rows : List (row α)) :
    ∀ (i : Nat) (pool : List (unmatchedRow α)) (σ : List (Option (List α))),
      List.Forall₂ (rowsAgree deq n) (rows.map (fun r => r.values)) σ →
      σ.Perm (pool.map (fun c => c.values)) →
      (∀ d ∈ (matchDiffs deq n rows i pool).1, d.status = rowStatus.rowMatch) ∧
        (matchDiffs deq n rows i pool).1.length = rows.length ∧
        (matchDiffs deq n rows i pool).2 = [] := by
  induction rows with
  | nil =>
    intro i pool σ hF hP
    simp only [List.map_nil, List.forall₂_nil_left_iff] at hF
    subst hF
    have : pool = [] := by simpa using hP.symm.eq_nil
    simp [matchDiffs, this]
  | cons rowA rest ih =>
    intro i pool σ hF hP
    rw [List.map_cons] at hF
    have hex : ∃ c ∈ pool, rowsAgree deq n rowA.values c.values := by
      cases hF with
      | @cons _ s0 _ σ1 hx0 _ =>
        have hmem : s0 ∈ pool.map (fun c => c.values) := hP.mem_iff.mp (by simp)
        obtain ⟨c, hc, rfl⟩ := List.mem_map.mp hmem
        exact ⟨c, hc, hx0⟩
    have hne : pool ≠ [] := by
      obtain ⟨c0, hc0, _⟩ := hex
      exact List.ne_nil_of_mem hc0
    have hp : ¬ pool.length = 0 := by
      intro h; exact hne (List.length_eq_zero.mp h)
    have hag := pick_agrees deq rowA.values n pool hex
    have hlt := pick_lt deq rowA.values n pool hne
    rw [pool_split pool _ hlt] at hP
    obtain ⟨τ, hτF, hτP⟩ := matchable_step hF hP
      (fun l s hl hs => rowsAgree_exchange deq n hsymm htrans _ _ l s hag hl hs)
    rw [← List.map_append] at hτP
    obtain ⟨h1, h2, h3⟩ := ih (i + 1) _ τ hτF hτP
    have hcnt := (count_eq_zero_iff_rowsAgree deq n _ _).mpr hag
    simp only [matchDiffs, if_neg hp, List.mem_cons, List.length_cons, h2, h3]
    refine ⟨?_, trivial, trivial⟩
    rintro d (rfl | hd)
    · simp [pairDiff, hcnt]
    · exact h1 d hd

theorem initialPool_values {α : Type} (rowsB : List (row α)) :
    (initialPool rowsB).map (fun c => c.values) = rowsB.map (fun r => r.values) := by
  apply List.ext_getElem?
  intro i
  by_cases hi : i < rowsB.length
  · obtain ⟨r, hr⟩ := get?_isSome_of_lt rowsB i hi
    have hr1 : rowsB[i]? = some r := by simpa using hr
    have hr2 : rowsB[i] = r := by
      rw [List.getElem?_eq_getElem hi] at hr1
      simpa using hr1
    simp [initialPool, List.getElem?_range' 0 1 hi, hi, rowValues_of_get? _ _ _ hr, hr2]
  · rw [List.getElem?_eq_none (by simpa [initialPool] using hi),
      List.getElem?_eq_none (by simpa using hi)]

theorem natEq_iff (x y : Nat) : natEq x y = true ↔ x = y := by
  simp [natEq]

theorem matchDiffs_matchable {α : Type} (deq : α → α → Bool) (n : Nat) (rows : List (row α)) :
    ∀ (i : Nat) (pool : List (unmatchedRow α)),
      (∀ d ∈ (matchDiffs deq n rows i pool).1, d.status = rowStatus.rowMatch) →
      (matchDiffs deq n rows i pool).2 = [] →
      ∃ σ, List.Forall₂ (rowsAgree deq n) (rows.map (fun r => r.values)) σ ∧
        σ.Perm (pool.map (fun c => c.values)) := by
  induction rows with
  | nil =>
    intro i pool _ h2
    simp only [matchDiffs] at h2
    subst h2
    exact ⟨[], List.Forall₂.nil, List.Perm.refl _⟩
  | cons rowA rest ih =>
    intro i pool h1 h2
    by_cases hp : pool.length = 0
    · exfalso
      have := h1 (extraADiff (i : Int) rowA.values) (by simp [matchDiffs, hp])
      simp [extraADiff] at this
    · have hne : pool ≠ [] := by
        intro h; apply hp; rw [h]; rfl
      have hlt := pick_lt deq rowA.values n pool hne
      simp only [matchDiffs, if_neg hp, List.mem_cons, forall_eq_or_imp] at h1 h2
      obtain ⟨σ, hF, hP⟩ := ih (i + 1) _ h1.2 h2
      have hag : rowsAgree deq n rowA.values
          (poolValues pool (pick deq rowA.values n pool)) := by
        rw [← rowOK_pairDiff deq false n i]
        simp [rowOK, h1.1]
      refine ⟨poolValues pool (pick deq rowA.values n pool) :: σ, ?_, ?_⟩
      · rw [List.map_cons]
        exact List.Forall₂.cons hag hF
      · rw [pool_split pool _ hlt]
        rw [List.map_append] at hP
        exact (List.Perm.cons _ hP).trans List.perm_middle.symm

/-- In unordered mode without `ignoreLengths`, when value equality is symmetric
and transitive, the verdict is true exactly when the second row list is, up to
order, row by row in agreement with the first on the canonical columns. -/
theorem unordered_strict_verdict_iff {α : Type} (deq : α → α → Bool) (a b : dataset α)
    (hsymm : ∀ x y, deq x y = true → deq y x = true)
    (htrans : ∀ x y z, deq x y = true → deq y z = true → deq x z = true) :
    (diffsOf deq a b true).all (rowOK false) = true ↔
      ∃ σ, List.Forall₂ (rowsAgree deq (canonColumns a b).length)
          (a.rows.map (fun r => r.values)) σ ∧
        σ.Perm (b.rows.map (fun r => r.values)) := by
  rw [← initialPool_values b.rows]
  constructor
  · intro h
    rw [all_rowOK_iff] at h
    obtain ⟨hm, hx⟩ := h
    have hx := hx rfl
    simp only [diffsOf, if_true, diffsUnordered, List.mem_append, List.mem_map] at hm hx
    apply matchDiffs_matchable deq _ a.rows 0
    · intro d hd
      have h1 := hm d (Or.inl hd)
      have h2 := hx d (Or.inl hd)
      cases hs : d.status
      · rfl
      · exact absurd hs h1
      · exact absurd hs h2
    · cases hl : (matchDiffs deq (canonColumns a b).length a.rows 0 (initialPool b.rows)).2 with
      | nil => rfl
      | cons c rest =>
        exfalso
        exact hx (extraBDiff c.index c.values) (Or.inr ⟨c, by rw [hl]; simp, rfl⟩) rfl
  · rintro ⟨σ, hF, hP⟩
    obtain ⟨h1, _, h3⟩ := matchDiffs_all_match deq _ hsymm htrans a.rows 0 _ σ hF hP
    rw [List.all_eq_true]
    intro d hd
    simp only [diffsOf, if_true, diffsUnordered, h3, List.map_nil, List.append_nil] at hd
    simp [rowOK, h1 d hd]

/-- In unordered mode without `ignoreLengths`, when value equality is symmetric
and transitive, permuting the rows of either table leaves the verdict
unchanged. -/
theorem compare_unordered_strict_order_invariant {α : Type} (deq : α → α → Bool)
    (a b a1 b1 : dataset α)
    (hsymm : ∀ x y, deq x y = true → deq y x = true)
    (htrans : ∀ x y z, deq x y = true → deq y z = true → deq x z = true)
    (hca : a1.columns = a.columns) (hcb : b1.columns = b.columns)
    (hpa : a1.rows.Perm a.rows) (hpb : b1.rows.Perm b.rows) :
    ∃ r r1, compare deq a b true false = some r ∧ compare deq a1 b1 true false = some r1 ∧
      r1.equal = r.equal := by
  refine ⟨_, _, compare_eq deq a b true false, compare_eq deq a1 b1 true false, ?_⟩
  show (diffsOf deq a1 b1 true).all (rowOK false) = (diffsOf deq a b true).all (rowOK false)
  have hN : canonColumns a1 b1 = canonColumns a b := by
    unfold canonColumns; rw [hca, hcb]
  rw [Bool.eq_iff_iff, unordered_strict_verdict_iff deq a b hsymm htrans,
    unordered_strict_verdict_iff deq a1 b1 hsymm htrans, hN]
  constructor
  · rintro ⟨σ, hF, hP⟩
    obtain ⟨τ, hτF, hτP⟩ := List.perm_comp_forall₂ (hpa.map (fun r => r.values)).symm hF
    exact ⟨τ, hτF, hτP.trans (hP.trans (hpb.map _))⟩
  · rintro ⟨σ, hF, hP⟩
    obtain ⟨τ, hτF, hτP⟩ := List.perm_comp_forall₂ (hpa.map (fun r => r.values)) hF
    exact ⟨τ, hτF, hτP.trans (hP.trans (hpb.map _).symm)⟩

theorem mem_initialPool {α : Type} (rowsB : List (row α)) (c : unmatchedRow α)
    (hc : c ∈ initialPool rowsB) :
    ∃ k ro, rowsB.get? k = some ro ∧ c = { index := (k : Int), values := ro.values } := by
  simp only [initialPool, List.mem_map, List.mem_range'] at hc
  obtain ⟨k, ⟨i, hi, rfl⟩, rfl⟩ := hc
  obtain ⟨ro, hro⟩ := get?_isSome_of_lt rowsB (0 + 1 * i) (by omega)
  exact ⟨_, ro, hro, by rw [rowValues_of_get? _ _ _ hro]⟩

theorem mem_removed {β : Type} (pool : List β) (k : Nat) (c : β)
    (hc : c ∈ pool.take k ++ pool.drop (k + 1)) : c ∈ pool := by
  rcases List.mem_append.mp hc with h | h
  · exact List.mem_of_mem_take h
  · exact List.mem_of_mem_drop h

theorem removed_sublist {β : Type} (pool : List β) (k : Nat) :
    (pool.take k ++ pool.drop (k + 1)).Sublist pool := by
  have h : (pool.take k ++ pool.drop (k + 1)).Sublist (pool.take k ++ pool.drop k) :=
    List.Sublist.append (List.Sublist.refl _) (List.drop_sublist_drop_left pool (Nat.le_succ k))
  rwa [List.take_append_drop] at h

theorem poolValues_mem {α : Type} (pool : List (unmatchedRow α)) (k : Nat) (hk : k < pool.length) :
    ∃ c ∈ pool, poolValues pool k = c.values := by
  obtain ⟨c, hc⟩ := get?_isSome_of_lt pool k hk
  exact ⟨c, List.get?_mem hc, by unfold poolValues; rw [hc]⟩

/-- Every row the main loop of `compareUnordered` emits belongs to a row of the
first list, at the position its index gives, and is either an Extra of that
row or pairs it with an entry of the pool. -/
theorem matchDiffs_mem {α : Type} (deq : α → α → Bool) (n : Nat) (rows : List (row α)) :
    ∀ (i : Nat) (pool : List (unmatchedRow α)) (d : rowDiff α),
      d ∈ (matchDiffs deq n rows i pool).1 →
      ∃ k ro, rows.get? k = some ro ∧
        (d = extraADiff ((i + k : Nat) : Int) ro.values ∨
          ∃ c ∈ pool, d = pairDiff deq n (i + k) ro.values c.values) := by
  induction rows with
  | nil => intro i pool d hd; simp [matchDiffs] at hd
  | cons rowA rest ih =>
    intro i pool d hd
    by_cases hp : pool.length = 0
    · simp only [matchDiffs, if_pos hp, List.mem_cons] at hd
      rcases hd with rfl | hd
      · exact ⟨0, rowA, rfl, Or.inl rfl⟩
      · obtain ⟨k, ro, hk, h⟩ := ih _ _ _ hd
        refine ⟨k + 1, ro, hk, ?_⟩
        rw [show i + (k + 1) = i + 1 + k by omega]
        exact h
    · have hne : pool ≠ [] := by
        intro h; apply hp; rw [h]; rfl
      simp only [matchDiffs, if_neg hp, List.mem_cons] at hd
      rcases hd with rfl | hd
      · obtain ⟨c, hc, hv⟩ := poolValues_mem pool _ (pick_lt deq rowA.values n pool hne)
        exact ⟨0, rowA, rfl, Or.inr ⟨c, hc, by rw [hv]; rfl⟩⟩
      · obtain ⟨k, ro, hk, h⟩ := ih _ _ _ hd
        refine ⟨k + 1, ro, hk, ?_⟩
        rw [show i + (k + 1) = i + 1 + k by omega]
        rcases h with h | ⟨c, hc, h⟩
        · exact Or.inl h
        · exact Or.inr ⟨c, mem_removed pool _ c hc, h⟩

theorem matchDiffs_pool_sublist {α : Type} (deq : α → α → Bool) (n : Nat) (rows : List (row α)) :
    ∀ (i : Nat) (pool : List (unmatchedRow α)), (matchDiffs deq n rows i pool).2.Sublist pool := by
  induction rows with
  | nil => intro i pool; exact List.Sublist.refl _
  | cons rowA rest ih =>
    intro i pool
    by_cases hp : pool.length = 0
    · simp only [matchDiffs, if_pos hp]
      exact ih _ _
    · simp only [matchDiffs, if_neg hp]
      exact (ih _ _).trans (removed_sublist pool _)

theorem provenance_diffsOrdered {α : Type} (deq : α → α → Bool) (n : Nat)
    (rowsA rowsB : List (row α)) (d : rowDiff α) (hd : d ∈ diffsOrdered deq n rowsA rowsB) :
    provenance deq n rowsA rowsB d := by
  simp only [diffsOrdered, List.mem_append, List.mem_map, List.mem_range'] at hd
  rcases hd with ⟨k, ⟨i, hi, rfl⟩, rfl⟩ | ⟨k, ⟨i, hi, rfl⟩, rfl⟩ | ⟨k, ⟨i, hi, rfl⟩, rfl⟩
  · obtain ⟨rowA, hA⟩ := get?_isSome_of_lt rowsA (0 + 1 * i) (by split at hi <;> omega)
    obtain ⟨rowB, hB⟩ := get?_isSome_of_lt rowsB (0 + 1 * i) (by split at hi <;> omega)
    rw [rowValues_of_get? _ _ _ hA, rowValues_of_get? _ _ _ hB]
    exact provenance.pair _ rowA rowB hA (List.get?_mem hB)
  · obtain ⟨rowA, hA⟩ := get?_isSome_of_lt rowsA
      ((if rowsB.length < rowsA.length then rowsB.length else rowsA.length) + 1 * i)
      (by split at hi <;> split <;> omega)
    rw [rowValues_of_get? _ _ _ hA]
    exact provenance.extraA _ rowA hA
  · obtain ⟨rowB, hB⟩ := get?_isSome_of_lt rowsB
      ((if rowsB.length < rowsA.length then rowsB.length else rowsA.length) + 1 * i)
      (by split at hi <;> split <;> omega)
    rw [rowValues_of_get? _ _ _ hB]
    exact provenance.extraB _ rowB hB

theorem provenance_diffsUnordered {α : Type} (deq : α → α → Bool) (n : Nat)
    (rowsA rowsB : List (row α)) (d : rowDiff α) (hd : d ∈ diffsUnordered deq n rowsA rowsB) :
    provenance deq n rowsA rowsB d := by
  simp only [diffsUnordered, List.mem_append, List.mem_map] at hd
  rcases hd with hd | ⟨c, hc, rfl⟩
  · obtain ⟨k, ro, hk, h⟩ := matchDiffs_mem deq n rowsA 0 _ d hd
    rw [Nat.zero_add] at h
    rcases h with rfl | ⟨c, hc, rfl⟩
    · exact provenance.extraA k ro hk
    · obtain ⟨j, rb, hj, rfl⟩ := mem_initialPool rowsB c hc
      exact provenance.pair k ro rb hk (List.get?_mem hj)
  · have hc1 := (matchDiffs_pool_sublist deq n rowsA 0 (initialPool rowsB)).subset hc
    obtain ⟨j, rb, hj, rfl⟩ := mem_initialPool rowsB c hc1
    exact provenance.extraB j rb hj

theorem provenance_diffsOf {α : Type} (deq : α → α → Bool) (a b : dataset α) (io : Bool)
    (d : rowDiff α) (hd : d ∈ diffsOf deq a b io) :
    provenance deq (canonColumns a b).length a.rows b.rows d := by
  cases io
  · exact provenance_diffsOrdered deq _ _ _ d (by simpa [diffsOf] using hd)
  · exact provenance_diffsUnordered deq _ _ _ d (by simpa [diffsOf] using hd)

theorem pairDiff_fields {α : Type} (deq : α → α → Bool) (n i : Nat)
    (valuesA valuesB : Option (List α)) :
    (pairDiff deq n i valuesA valuesB).index = (i : Int) ∧
      (pairDiff deq n i valuesA valuesB).valuesA = valuesA ∧
      (pairDiff deq n i valuesA valuesB).valuesB = valuesB ∧
      ((pairDiff deq n i valuesA valuesB).status = rowStatus.rowMatch ∨
        (pairDiff deq n i valuesA valuesB).status = rowStatus.rowMismatch) := by
  rcases pairDiff_status deq n i valuesA valuesB with ⟨_, hp⟩ | ⟨_, hp⟩ <;> rw [hp] <;> simp

theorem diffsOrdered_length {α : Type} (deq : α → α → Bool) (n : Nat)
    (rowsA rowsB : List (row α)) :
    (diffsOrdered deq n rowsA rowsB).length = max rowsA.length rowsB.length := by
  simp only [diffsOrdered, List.length_append, List.length_map, List.length_range']
  split <;> omega

theorem diffsOrdered_get?_pair {α : Type} (deq : α → α → Bool) (n : Nat)
    (rowsA rowsB : List (row α)) (k : Nat) (hA : k < rowsA.length) (hB : k < rowsB.length) :
    (diffsOrdered deq n rowsA rowsB).get? k =
      some (pairDiff deq n k (rowValues rowsA k) (rowValues rowsB k)) := by
  have hk : k < (if rowsB.length < rowsA.length then rowsB.length else rowsA.length) := by
    split <;> omega
  simp only [diffsOrdered, List.get?_eq_getElem?]
  rw [List.getElem?_append_left (by simpa using hk)]
  simp [List.getElem?_range' 0 1 hk]

theorem diffsOrdered_get?_extraA {α : Type} (deq : α → α → Bool) (n : Nat)
    (rowsA rowsB : List (row α)) (k : Nat) (hA : k < rowsA.length) (hB : rowsB.length ≤ k) :
    (diffsOrdered deq n rowsA rowsB).get? k = some (extraADiff (k : Int) (rowValues rowsA k)) := by
  have hlt : rowsB.length < rowsA.length := by omega
  simp only [diffsOrdered, if_pos hlt, List.get?_eq_getElem?]
  rw [List.getElem?_append_right (by simpa using hB)]
  rw [List.getElem?_append_left (by simp; omega)]
  have h1 : k - rowsB.length < rowsA.length - rowsB.length := by omega
  simp only [List.length_map, List.length_range', List.getElem?_map,
    List.getElem?_range' rowsB.length 1 h1, Option.map_some', Nat.one_mul]
  rw [show rowsB.length + (k - rowsB.length) = k by omega]

theorem diffsOrdered_get?_extraB {α : Type} (deq : α → α → Bool) (n : Nat)
    (rowsA rowsB : List (row α)) (k : Nat) (hA : rowsA.length ≤ k) (hB : k < rowsB.length) :
    (diffsOrdered deq n rowsA rowsB).get? k = some (extraBDiff (k : Int) (rowValues rowsB k)) := by
  have hlt : ¬ rowsB.length < rowsA.length := by omega
  simp only [diffsOrdered, if_neg hlt, List.get?_eq_getElem?]
  rw [List.getElem?_append_right (by simpa using hA)]
  rw [List.getElem?_append_right (by simp)]
  have h1 : k - rowsA.length < rowsB.length - rowsA.length := by omega
  simp only [List.length_map, List.length_range', Nat.sub_self, Nat.sub_zero, List.getElem?_map,
    List.getElem?_range' rowsA.length 1 h1, Option.map_some', Nat.one_mul]
  rw [show rowsA.length + (k - rowsA.length) = k by omega]

theorem initialPool_pairwise {α : Type} (rowsB : List (row α)) :
    (initialPool rowsB).Pairwise (fun c e => c.index < e.index) := by
  unfold initialPool
  rw [List.pairwise_map]
  exact (List.pairwise_lt_range' 0 rowsB.length).imp (fun h => Int.ofNat_lt.mpr h)

theorem matchDiffs_length {α : Type} (deq : α → α → Bool) (n : Nat) (rows : List (row α)) :
    ∀ (i : Nat) (pool : List (unmatchedRow α)),
      (matchDiffs deq n rows i pool).1.length = rows.length := by
  induction rows with
  | nil => intro i pool; rfl
  | cons rowA rest ih =>
    intro i pool
    by_cases hp : pool.length = 0
    · simp only [matchDiffs, if_pos hp, List.length_cons, ih]
    · simp only [matchDiffs, if_neg hp, List.length_cons, ih]

/-- The scan from position `j` either keeps the state it starts from, when no
later candidate counts less, or ends on the first candidate from `j` on whose
count is the lowest. -/
theorem scanBest_argmin {α : Type} (deq : α → α → Bool) (valuesA : Option (List α)) (n : Nat)
    (pool : List (unmatchedRow α)) (suffix : List (unmatchedRow α)) :
    ∀ (j : Nat) (best : bestState), pool.drop j = suffix → 0 < best.bestMismatchCount →
      (scanBest deq valuesA n suffix j best = best ∧
          ∀ t, j ≤ t → t < pool.length →
            best.bestMismatchCount ≤ (mismatchVec deq valuesA (poolValues pool t) n).count true) ∨
        ∃ k, j ≤ k ∧ bestAt deq valuesA n pool (scanBest deq valuesA n suffix j best) k ∧
          (mismatchVec deq valuesA (poolValues pool k) n).count true < best.bestMismatchCount ∧
          (∀ t, j ≤ t → t < pool.length →
            (mismatchVec deq valuesA (poolValues pool k) n).count true ≤
              (mismatchVec deq valuesA (poolValues pool t) n).count true) ∧
          (∀ t, j ≤ t → t < k →
            (mismatchVec deq valuesA (poolValues pool k) n).count true <
              (mismatchVec deq valuesA (poolValues pool t) n).count true) := by
  induction suffix with
  | nil =>
    intro j best hdrop _
    refine Or.inl ⟨rfl, ?_⟩
    intro t hjt ht
    have hlen : pool.length ≤ j := List.drop_eq_nil_iff.mp hdrop
    omega
  | cons c rest ih =>
    intro j best hdrop hpos
    have hj : j < pool.length := by
      by_contra hc
      rw [List.drop_eq_nil_of_le (by omega)] at hdrop
      cases hdrop
    have hget : pool.get? j = some c := by
      have := List.getElem?_drop pool j 0
      rw [hdrop] at this
      simpa using this.symm
    have hpv : poolValues pool j = c.values := by
      unfold poolValues; rw [hget]
    have hrest : pool.drop (j + 1) = rest := by
      have := List.drop_drop 1 j pool
      rw [hdrop] at this
      simpa [Nat.add_comm] using this.symm
    have hnew : ∀ cnt, cnt = (mismatchVec deq valuesA c.values n).count true →
        bestAt deq valuesA n pool
          { bestCandidate := (j : Int), bestMismatchCount := cnt,
            bestMismatch := some (mismatchVec deq valuesA c.values n) } j := by
      intro cnt hcnt
      exact ⟨rfl, hj, by rw [hpv], by rw [hpv]; exact hcnt⟩
    simp only [scanBest]
    by_cases hz : (mismatchVec deq valuesA c.values n).count true = 0
    · rw [if_pos hz]
      refine Or.inr ⟨j, Nat.le_refl j, hnew 0 hz.symm, ?_, ?_, ?_⟩
      · rw [hpv, hz]; exact hpos
      · intro t _ _
        rw [hpv, hz]; exact Nat.zero_le _
      · intro t h1 h2; omega
    · rw [if_neg hz]
      by_cases hlt : (mismatchVec deq valuesA c.values n).count true < best.bestMismatchCount
      · rw [if_pos hlt]
        have hpos1 : 0 < (mismatchVec deq valuesA c.values n).count true := Nat.pos_of_ne_zero hz
        rcases ih (j + 1)
            (⟨(j : Int), (mismatchVec deq valuesA c.values n).count true,
              some (mismatchVec deq valuesA c.values n)⟩ : bestState) hrest hpos1 with ⟨heq, hall⟩ | ⟨k, hjk, hk, hk1, hk2, hk3⟩
        · rw [heq]
          refine Or.inr ⟨j, Nat.le_refl j, hnew _ rfl, by rw [hpv]; exact hlt, ?_, ?_⟩
          · intro t hjt ht
            rw [hpv]
            rcases Nat.eq_or_lt_of_le hjt with rfl | h
            · rw [hpv]
            · exact hall t h ht
          · intro t h1 h2; omega
        · refine Or.inr ⟨k, by omega, hk, ?_, ?_, ?_⟩
          · exact Nat.lt_trans hk1 hlt
          · intro t hjt ht
            rcases Nat.eq_or_lt_of_le hjt with rfl | h
            · rw [hpv]; exact Nat.le_of_lt hk1
            · exact hk2 t h ht
          · intro t hjt htk
            rcases Nat.eq_or_lt_of_le hjt with rfl | h
            · rw [hpv]; exact hk1
            · exact hk3 t h htk
      · rw [if_neg hlt]
        rcases ih (j + 1) best hrest hpos with ⟨heq, hall⟩ | ⟨k, hjk, hk, hk1, hk2, hk3⟩
        · refine Or.inl ⟨heq, ?_⟩
          intro t hjt ht
          rcases Nat.eq_or_lt_of_le hjt with rfl | h
          · rw [hpv]; omega
          · exact hall t h ht
        · refine Or.inr ⟨k, by omega, hk, hk1, ?_, ?_⟩
          · intro t hjt ht
            rcases Nat.eq_or_lt_of_le hjt with rfl | h
            · rw [hpv]; omega
            · exact hk2 t h ht
          · intro t hjt htk
            rcases Nat.eq_or_lt_of_le hjt with rfl | h
            · rw [hpv]; omega
            · exact hk3 t h htk

/-- The candidate claimed in a non-empty pool is the first one with the lowest
mismatch count. -/
theorem pick_argmin {α : Type} (deq : α → α → Bool) (valuesA : Option (List α)) (n : Nat)
    (pool : List (unmatchedRow α)) (hne : pool ≠ []) :
    (∀ t, t < pool.length →
        (mismatchVec deq valuesA (poolValues pool (pick deq valuesA n pool)) n).count true ≤
          (mismatchVec deq valuesA (poolValues pool t) n).count true) ∧
      (∀ t, t < pick deq valuesA n pool →
        (mismatchVec deq valuesA (poolValues pool (pick deq valuesA n pool)) n).count true <
          (mismatchVec deq valuesA (poolValues pool t) n).count true) := by
  have hpos : 0 < pool.length := List.length_pos.mpr hne
  rcases scanBest_argmin deq valuesA n pool pool 0
      { bestCandidate := -1, bestMismatchCount := n + 1, bestMismatch := none } rfl
      (Nat.succ_pos n) with ⟨_, hall⟩ | ⟨k, _, hk, _, hk2, hk3⟩
  · exfalso
    have h1 := hall 0 (Nat.le_refl 0) hpos
    have h2 := count_mismatchVec_le deq valuesA (poolValues pool 0) n
    have h3 : n + 1 ≤ (mismatchVec deq valuesA (poolValues pool 0) n).count true := h1
    omega
  · have hpk : pick deq valuesA n pool = k := by
      unfold pick
      rw [hk.1]
      simp
    rw [hpk]
    exact ⟨fun t ht => hk2 t (Nat.zero_le t) ht, fun t ht => hk3 t (Nat.zero_le t) ht⟩

/-- One iteration of the main loop of `compareUnordered` on a non-empty pool. -/
theorem matchLoop_step {α : Type} (deq : α → α → Bool) (il : Bool) (rowA : row α)
    (rest : List (row α)) (i : Nat) (result : diffResult α) (pool : List (unmatchedRow α))
    (hne : pool ≠ []) :
    matchLoop deq il (rowA :: rest) i (result, pool) =
      matchLoop deq il rest (i + 1)
        (extend il result [pairDiff deq result.columns.length i rowA.values
            (poolValues pool (pick deq rowA.values result.columns.length pool))],
          pool.take (pick deq rowA.values result.columns.length pool) ++
            pool.drop (pick deq rowA.values result.columns.length pool + 1)) := by
  have hp : ¬ pool.length = 0 := by
    intro h; exact hne (List.length_eq_zero.mp h)
  have hb := pick_spec deq rowA.values result.columns.length pool hne
  obtain ⟨hbc, hlt, hbm, hcnt⟩ := hb
  obtain ⟨c, hc⟩ := get?_isSome_of_lt pool _ hlt
  have hpv : poolValues pool (pick deq rowA.values result.columns.length pool) = c.values := by
    unfold poolValues; rw [hc]
  have hnn : ¬ ((scanBest deq rowA.values result.columns.length pool 0
      { bestCandidate := -1, bestMismatchCount := result.columns.length + 1,
        bestMismatch := none }).bestCandidate < 0) := by
    rw [hbc]; omega
  have htn : (scanBest deq rowA.values result.columns.length pool 0
      { bestCandidate := -1, bestMismatchCount := result.columns.length + 1,
        bestMismatch := none }).bestCandidate.toNat =
      pick deq rowA.values result.columns.length pool := rfl
  have hrm : removeAt pool (pick deq rowA.values result.columns.length pool) =
      some (pool.take (pick deq rowA.values result.columns.length pool) ++
        pool.drop (pick deq rowA.values result.columns.length pool + 1)) := by
    unfold removeAt
    rw [if_pos (by omega)]
  simp only [matchLoop, if_neg hp, scanLoop_eq, if_neg hnn, htn, hc, hrm]
  rw [hcnt, hbm, hpv]
  by_cases hz : (mismatchVec deq rowA.values c.values result.columns.length).count true = 0
  · have hd : pairDiff deq result.columns.length i rowA.values c.values =
        { index := (i : Int), status := rowStatus.rowMatch, valuesA := rowA.values,
          valuesB := c.values, mismatch := none } := by
      simp [pairDiff, hz]
    have hs := emit_eq il result (pairDiff deq result.columns.length i rowA.values c.values)
      result.equal (by simp [rowOK, hd])
    rw [hd] at hs
    rw [if_pos hz, hd]
    simp only [hs]
  · have hd : pairDiff deq result.columns.length i rowA.values c.values =
        { index := (i : Int), status := rowStatus.rowMismatch, valuesA := rowA.values,
          valuesB := c.values,
          mismatch := some (mismatchVec deq rowA.values c.values result.columns.length) } := by
      simp [pairDiff, hz]
    have hs := emit_eq il result (pairDiff deq result.columns.length i rowA.values c.values)
      false (by simp [rowOK, hd])
    rw [hd] at hs
    rw [if_neg hz, hd]
    simp only [hs]

theorem matchDiffs_claimed {α : Type} (deq : α → α → Bool) (n : Nat) (rows : List (row α)) :
    ∀ (i : Nat) (pool : List (unmatchedRow α)),
      ∃ claimed : List (unmatchedRow α),
        (claimed ++ (matchDiffs deq n rows i pool).2).Perm pool ∧
        (matchDiffs deq n rows i pool).1.filterMap (fun d => d.valuesB) =
          claimed.filterMap (fun c => c.values) ∧
        (matchDiffs deq n rows i pool).1.map (fun d => d.valuesA) =
          rows.map (fun ro => ro.values) := by
  induction rows with
  | nil => intro i pool; exact ⟨[], by simp [matchDiffs]⟩
  | cons rowA rest ih =>
    intro i pool
    by_cases hp : pool.length = 0
    · obtain ⟨claimed, h1, h2, h3⟩ := ih (i + 1) pool
      refine ⟨claimed, ?_, ?_, ?_⟩
      · simpa only [matchDiffs, if_pos hp] using h1
      · simp only [matchDiffs, if_pos hp]
        rw [List.filterMap_cons]
        simpa [extraADiff] using h2
      · simp only [matchDiffs, if_pos hp, List.map_cons, h3]
        rfl
    · have hne : pool ≠ [] := by
        intro h; apply hp; rw [h]; rfl
      have hlt := pick_lt deq rowA.values n pool hne
      obtain ⟨c, hc⟩ := get?_isSome_of_lt pool _ hlt
      have hpv : poolValues pool (pick deq rowA.values n pool) = c.values := by
        unfold poolValues; rw [hc]
      have hsplit : pool = pool.take (pick deq rowA.values n pool) ++
          c :: pool.drop (pick deq rowA.values n pool + 1) := by
        have hdrop : pool.drop (pick deq rowA.values n pool) =
            c :: pool.drop (pick deq rowA.values n pool + 1) := by
          rw [List.drop_eq_getElem_cons hlt]
          congr 1
          rw [List.get?_eq_get hlt] at hc
          simpa using hc
        conv_lhs => rw [← List.take_append_drop (pick deq rowA.values n pool) pool, hdrop]
      obtain ⟨claimed, h1, h2, h3⟩ := ih (i + 1)
        (pool.take (pick deq rowA.values n pool) ++ pool.drop (pick deq rowA.values n pool + 1))
      obtain ⟨_, hf2, hf3, _⟩ := pairDiff_fields deq n i rowA.values c.values
      refine ⟨c :: claimed, ?_, ?_, ?_⟩
      · simp only [matchDiffs, if_neg hp, List.cons_append]
        have h4 := List.Perm.cons c h1
        have h5 : (c :: (pool.take (pick deq rowA.values n pool) ++
            pool.drop (pick deq rowA.values n pool + 1))).Perm pool := by
          conv_rhs => rw [hsplit]
          exact List.perm_middle.symm
        exact h4.trans h5
      · simp only [matchDiffs, if_neg hp, hpv]
        rw [List.filterMap_cons, List.filterMap_cons, hf3, h2]
      · simp only [matchDiffs, if_neg hp, hpv, List.map_cons, h3, hf2]

theorem flagLoop_ok (flags : List flagArg) :
    ∀ (o l : Bool), (∀ f ∈ flags, validFlag f) →
      flagLoop flags (o, l) =
        Except.ok (o || decide (flagArg.flag IgnoreOrder ∈ flags),
          l || decide (flagArg.flag IgnoreLengths ∈ flags)) := by
  induction flags with
  | nil => intro o l _; simp [flagLoop]
  | cons f rest ih =>
    intro o l hv
    have hrest : ∀ g ∈ rest, validFlag g := fun g hg => hv g (List.mem_cons_of_mem _ hg)
    rcases hv f (List.mem_cons_self _ _) with rfl | rfl
    · simp only [flagLoop, if_true, ih true l hrest]
      simp [IgnoreOrder, IgnoreLengths]
    · have hne : ¬ IgnoreLengths = IgnoreOrder := by decide
      simp only [flagLoop, if_neg hne, if_true, ih o true hrest]
      simp [IgnoreOrder, IgnoreLengths]

theorem flagLoop_error (flags : List flagArg) :
    ∀ (st : Bool × Bool), (∃ f ∈ flags, ¬ validFlag f) →
      ∃ message, flagLoop flags st = Except.error message := by
  induction flags with
  | nil => intro st h; simp at h
  | cons f rest ih =>
    intro st h
    obtain ⟨o, l⟩ := st
    cases f with
    | other typeText => exact ⟨_, rfl⟩
    | flag value =>
      by_cases h1 : value = IgnoreOrder
      · simp only [flagLoop, if_pos h1]
        apply ih
        obtain ⟨g, hg, hng⟩ := h
        rcases List.mem_cons.mp hg with rfl | hg
        · exact absurd (Or.inl (by rw [h1])) hng
        · exact ⟨g, hg, hng⟩
      · by_cases h2 : value = IgnoreLengths
        · simp only [flagLoop, if_neg h1, if_pos h2]
          apply ih
          obtain ⟨g, hg, hng⟩ := h
          rcases List.mem_cons.mp hg with rfl | hg
          · exact absurd (Or.inr (by rw [h2])) hng
          · exact ⟨g, hg, hng⟩
        · exact ⟨_, by simp only [flagLoop, if_neg h1, if_neg h2]; rfl⟩

theorem header_ne_empty (typeName rest : String) :
    "datadiff: []" ++ typeName ++ " are not equal\n\n" ++ rest ≠ "" := by
  intro h
  have hl := congrArg String.length h
  simp only [String.length_append] at hl
  have h12 : "datadiff: []".length = 12 := by decide
  have h0 : "".length = 0 := by decide
  rw [h12, h0] at hl
  omega

theorem formatRow_extra {α : Type} (fmtV : α → String) (columns : List String) (d : rowDiff α)
    (hs : d.status = rowStatus.rowExtra) :
    ∃ cells note,
      ((d.valuesA ≠ none ∧ note = "← extra in expected") ∨
        (d.valuesA = none ∧ note = "← extra in actual")) ∧
      formatRow fmtV columns d =
        colorize "+" ansiYellow ++ "\t" ++ toString d.index ++ "\t" ++ cells ++ (note ++ "\t") ++
          "\n" := by
  unfold formatRow
  rw [hs]
  cases hA : d.valuesA with
  | none =>
    refine ⟨writeRowLoop fmtV d.valuesB none columns.length 0, "← extra in actual",
      Or.inr ⟨rfl, rfl⟩, ?_⟩
    simp only [writeRow]
    rw [if_pos (by decide)]
  | some valuesA =>
    refine ⟨writeRowLoop fmtV (some valuesA) none columns.length 0, "← extra in expected",
      Or.inl ⟨by simp, rfl⟩, ?_⟩
    simp only [writeRow]
    rw [if_pos (by decide)]

theorem exportedLoop_eq (fields : List structField) :
    ∀ (i : Nat) (columns : List String) (idx : List Nat),
      exportedLoop fields i (columns, idx) =
        (columns ++ (fields.filter (fun f => f.exported)).map (fun f => f.name),
          idx ++ exportedIndexes fields i) := by
  induction fields with
  | nil => intro i columns idx; simp [exportedLoop, exportedIndexes]
  | cons f rest ih =>
    intro i columns idx
    by_cases hf : f.exported = true
    · simp [exportedLoop, exportedIndexes, hf, ih]
    · have hf1 : f.exported = false := by simpa using hf
      simp [exportedLoop, exportedIndexes, hf1, ih]

theorem exportedIndexes_mem (fields : List structField) :
    ∀ (i k : Nat), k ∈ exportedIndexes fields i ↔
      i ≤ k ∧ ∃ f, fields.get? (k - i) = some f ∧ f.exported = true := by
  induction fields with
  | nil => intro i k; simp [exportedIndexes]
  | cons f rest ih =>
    intro i k
    have hrest : k ∈ exportedIndexes rest (i + 1) ↔
        i + 1 ≤ k ∧ ∃ g, rest.get? (k - (i + 1)) = some g ∧ g.exported = true := ih (i + 1) k
    have hshift : i + 1 ≤ k → (f :: rest).get? (k - i) = rest.get? (k - (i + 1)) := by
      intro h
      rw [show k - i = (k - (i + 1)) + 1 by omega]
      rfl
    by_cases hf : f.exported = true
    · simp only [exportedIndexes, hf, if_true, List.mem_cons, hrest]
      constructor
      · rintro (rfl | ⟨h1, g, hg, hge⟩)
        · exact ⟨Nat.le_refl _, f, by simp, hf⟩
        · exact ⟨by omega, g, by rw [hshift h1]; exact hg, hge⟩
      · rintro ⟨h1, g, hg, hge⟩
        rcases Nat.eq_or_lt_of_le h1 with rfl | h2
        · exact Or.inl rfl
        · exact Or.inr ⟨h2, g, by rw [← hshift h2]; exact hg, hge⟩
    · have hf1 : f.exported = false := by simpa using hf
      simp only [exportedIndexes, hf1, Bool.false_eq_true, if_false, hrest]
      constructor
      · rintro ⟨h1, g, hg, hge⟩
        exact ⟨by omega, g, by rw [hshift h1]; exact hg, hge⟩
      · rintro ⟨h1, g, hg, hge⟩
        rcases Nat.eq_or_lt_of_le h1 with rfl | h2
        · exfalso
          simp only [Nat.sub_self] at hg
          have : f = g := by simpa using hg
          rw [this] at hf
          exact hf hge
        · exact ⟨h2, g, by rw [← hshift h2]; exact hg, hge⟩

theorem exportedIndexes_pairwise (fields : List structField) :
    ∀ (i : Nat), (exportedIndexes fields i).Pairwise (fun x y => x < y) := by
  induction fields with
  | nil => intro i; simp [exportedIndexes]
  | cons f rest ih =>
    intro i
    by_cases hf : f.exported = true
    · simp only [exportedIndexes, hf, if_true, List.pairwise_cons]
      refine ⟨?_, ih (i + 1)⟩
      intro k hk
      have := ((exportedIndexes_mem rest (i + 1) k).mp hk).1
      omega
    · have hf1 : f.exported = false := by simpa using hf
      simp only [exportedIndexes, hf1, Bool.false_eq_true, if_false]
      exact ih (i + 1)

theorem exportedIndexes_names (fields : List structField) :
    ∀ (i : Nat) (all : List structField), all.drop i = fields →
      List.Forall₂ (fun k column => ∃ f, all.get? k = some f ∧ f.name = column)
        (exportedIndexes fields i) ((fields.filter (fun f => f.exported)).map (fun f => f.name)) := by
  induction fields with
  | nil => intro i all _; simp [exportedIndexes]
  | cons f rest ih =>
    intro i all hdrop
    have hi : i < all.length := by
      by_contra hc
      rw [List.drop_eq_nil_of_le (by omega)] at hdrop
      cases hdrop
    have hget : all.get? i = some f := by
      have := List.getElem?_drop all i 0
      rw [hdrop] at this
      simpa using this.symm
    have hrest : all.drop (i + 1) = rest := by
      have := List.drop_drop 1 i all
      rw [hdrop] at this
      simpa [Nat.add_comm] using this.symm
    by_cases hf : f.exported = true
    · simp only [exportedIndexes, hf, if_true, List.filter_cons_of_pos, List.map_cons]
      exact List.Forall₂.cons ⟨f, hget, rfl⟩ (ih (i + 1) all hrest)
    · have hf1 : f.exported = false := by simpa using hf
      simp only [exportedIndexes, hf1, Bool.false_eq_true, if_false]
      rw [List.filter_cons_of_neg (by simp [hf1])]
      exact ih (i + 1) all hrest

theorem extract_struct {α : Type} (name : String) (fields : List structField)
    (elems : List (Nat → α)) :
    extract (goAny.slice (elemKind.structType name fields) elems) =
      if ((fields.filter (fun f => f.exported)).map (fun f => f.name)).length = 0 then
        Except.error ("datadiff: struct " ++ name ++ " has no exported fields")
      else
        Except.ok
          { typeName := name
            columns := (fields.filter (fun f => f.exported)).map (fun f => f.name)
            rows := elems.map (fun element =>
              { values := some ((exportedIndexes fields 0).map (fun k => element k)) }) } := by
  simp only [extract, exportedLoop_eq, List.nil_append]

theorem no_exported_iff (fields : List structField) :
    ((fields.filter (fun f => f.exported)).map (fun f => f.name)).length = 0 ↔
      ∀ f ∈ fields, f.exported = false := by
  rw [List.length_map, List.length_eq_zero, List.filter_eq_nil_iff]
  constructor
  · intro h f hf
    simpa using h f hf
  · intro h f hf
    simp [h f hf]

/-- The `k`-th row emitted by the main loop of `compareUnordered` pairs row `k`
of the first list with a pool entry when `k` is below the size of the pool,
and is an Extra of row `k` otherwise. -/
theorem matchDiffs_get? {α : Type} (deq : α → α → Bool) (n : Nat) (rows : List (row α)) :
    ∀ (i : Nat) (pool : List (unmatchedRow α)) (k : Nat) (ro : row α),
      rows.get? k = some ro →
      ∃ d, (matchDiffs deq n rows i pool).1.get? k = some d ∧
        (k < pool.length → ∃ c ∈ pool, d = pairDiff deq n (i + k) ro.values c.values) ∧
        (pool.length ≤ k → d = extraADiff ((i + k : Nat) : Int) ro.values) := by
  induction rows with
  | nil => intro i pool k ro h; simp at h
  | cons rowA rest ih =>
    intro i pool k ro hk
    by_cases hp : pool.length = 0
    · cases k with
      | zero =>
        simp only [List.get?_cons_zero, Option.some.injEq] at hk
        subst hk
        refine ⟨extraADiff ((i + 0 : Nat) : Int) rowA.values,
          by simp only [matchDiffs, if_pos hp, List.get?_cons_zero]; rfl, ?_, fun _ => rfl⟩
        intro h; omega
      | succ k =>
        simp only [List.get?_cons_succ] at hk
        obtain ⟨d, hd, _, h2⟩ := ih (i + 1) pool k ro hk
        refine ⟨d, by simp only [matchDiffs, if_pos hp, List.get?_cons_succ]; exact hd, ?_, ?_⟩
        · intro h; omega
        · intro _
          rw [show i + (k + 1) = i + 1 + k by omega]
          exact h2 (by omega)
    · have hne : pool ≠ [] := by
        intro h; apply hp; rw [h]; rfl
      have hlt := pick_lt deq rowA.values n pool hne
      cases k with
      | zero =>
        simp only [List.get?_cons_zero, Option.some.injEq] at hk
        subst hk
        obtain ⟨c, hc, hv⟩ := poolValues_mem pool _ hlt
        refine ⟨pairDiff deq n i rowA.values (poolValues pool (pick deq rowA.values n pool)),
          by simp only [matchDiffs, if_neg hp, List.get?_cons_zero], ?_, ?_⟩
        · intro _
          exact ⟨c, hc, by rw [hv]; rfl⟩
        · intro h; omega
      | succ k =>
        simp only [List.get?_cons_succ] at hk
        have hlen := removed_length pool _ hlt
        obtain ⟨d, hd, h1, h2⟩ := ih (i + 1)
          (pool.take (pick deq rowA.values n pool) ++ pool.drop (pick deq rowA.values n pool + 1))
          k ro hk
        refine ⟨d, by simp only [matchDiffs, if_neg hp, List.get?_cons_succ]; exact hd, ?_, ?_⟩
        · intro h
          obtain ⟨c, hc, hdc⟩ := h1 (by rw [hlen]; omega)
          refine ⟨c, mem_removed pool _ c hc, ?_⟩
          rw [show i + (k + 1) = i + 1 + k by omega]
          exact hdc
        · intro h
          rw [show i + (k + 1) = i + 1 + k by omega]
          exact h2 (by rw [hlen]; omega)

theorem diffsUnordered_length {α : Type} (deq : α → α → Bool) (n : Nat)
    (rowsA rowsB : List (row α)) :
    (diffsUnordered deq n rowsA rowsB).length = max rowsA.length rowsB.length := by
  simp only [diffsUnordered, List.length_append, List.length_map, matchDiffs_length,
    matchDiffs_pool_length, initialPool_length]
  omega

theorem scanLoopNoBreak_zero {α : Type} (deq : α → α → Bool) (valuesA : Option (List α))
    (n : Nat) (pool : List (unmatchedRow α)) :
    ∀ (j : Nat) (best : bestState), best.bestMismatchCount = 0 →
      scanLoopNoBreak deq valuesA n pool j best = some best := by
  induction pool with
  | nil => intro j best _; rfl
  | cons c rest ih =>
    intro j best h0
    simp only [scanLoopNoBreak, fieldMismatch_eq, h0, Nat.not_lt_zero, if_false]
    exact ih (j + 1) best h0

theorem scanLoopNoBreak_eq {α : Type} (deq : α → α → Bool) (valuesA : Option (List α))
    (n : Nat) (pool : List (unmatchedRow α)) :
    ∀ (j : Nat) (best : bestState), 0 < best.bestMismatchCount →
      scanLoopNoBreak deq valuesA n pool j best = scanLoop deq valuesA n pool j best := by
  induction pool with
  | nil => intro j best _; rfl
  | cons c rest ih =>
    intro j best hpos
    simp only [scanLoopNoBreak, scanLoop, fieldMismatch_eq]
    by_cases hz : (mismatchVec deq valuesA c.values n).count true = 0
    · rw [if_pos hz, hz, if_pos hpos]
      exact scanLoopNoBreak_zero deq valuesA n rest (j + 1) _ rfl
    · rw [if_neg hz]
      by_cases hlt : (mismatchVec deq valuesA c.values n).count true < best.bestMismatchCount
      · rw [if_pos hlt, if_pos hlt]
        exact ih (j + 1) _ (Nat.pos_of_ne_zero hz)
      · rw [if_neg hlt, if_neg hlt]
        exact ih (j + 1) best hpos

theorem matchLoopNoBreak_eq {α : Type} (deq : α → α → Bool) (il : Bool) (rows : List (row α)) :
    ∀ (i : Nat) (st : diffResult α × List (unmatchedRow α)),
      matchLoopNoBreak deq il rows i st = matchLoop deq il rows i st := by
  induction rows with
  | nil => intro i st; rfl
  | cons rowA rest ih =>
    intro i st
    obtain ⟨result, unmatched⟩ := st
    have hscan := scanLoopNoBreak_eq deq rowA.values result.columns.length unmatched 0
      { bestCandidate := -1, bestMismatchCount := result.columns.length + 1,
        bestMismatch := none } (Nat.succ_pos _)
    simp only [matchLoopNoBreak, matchLoop, hscan, ih]

theorem rowsAgree_symm {α : Type} (deq : α → α → Bool) (n : Nat)
    (hsymm : ∀ x y, deq x y = true → deq y x = true) (valuesA valuesB : Option (List α))
    (h : rowsAgree deq n valuesA valuesB) : rowsAgree deq n valuesB valuesA := by
  intro c hc
  obtain ⟨x, y, hx, hy, hxy⟩ := h c hc
  exact ⟨y, x, hy, hx, hsymm x y hxy⟩

/-- In ordered mode, and in unordered mode without `ignoreLengths`, the
verdict for two tables with the same columns does not depend on which table
comes first, when value equality is symmetric and transitive. -/
theorem compare_verdict_symmetric_cases {α : Type} (deq : α → α → Bool) (a b : dataset α)
    (ignoreOrder ignoreLengths : Bool)
    (hsymm : ∀ x y, deq x y = true → deq y x = true)
    (htrans : ∀ x y z, deq x y = true → deq y z = true → deq x z = true)
    (hcols : a.columns = b.columns) (hcase : ignoreOrder = false ∨ ignoreLengths = false) :
    ∃ r1 r2, compare deq a b ignoreOrder ignoreLengths = some r1 ∧
      compare deq b a ignoreOrder ignoreLengths = some r2 ∧ r1.equal = r2.equal := by
  refine ⟨_, _, compare_eq deq a b ignoreOrder ignoreLengths,
    compare_eq deq b a ignoreOrder ignoreLengths, ?_⟩
  show (diffsOf deq a b ignoreOrder).all (rowOK ignoreLengths) =
    (diffsOf deq b a ignoreOrder).all (rowOK ignoreLengths)
  have hN : canonColumns b a = canonColumns a b := by
    unfold canonColumns; rw [hcols]
  rw [Bool.eq_iff_iff]
  cases ignoreOrder with
  | false =>
    simp only [diffsOf, Bool.false_eq_true, if_false, all_rowOK_diffsOrdered, hN]
    constructor
    · rintro ⟨h1, h2⟩
      exact ⟨fun k hk1 hk2 => rowsAgree_symm deq _ hsymm _ _ (h1 k hk2 hk1),
        fun h => (h2 h).symm⟩
    · rintro ⟨h1, h2⟩
      exact ⟨fun k hk1 hk2 => rowsAgree_symm deq _ hsymm _ _ (h1 k hk2 hk1),
        fun h => (h2 h).symm⟩
  | true =>
    have hil : ignoreLengths = false := by
      rcases hcase with h | h
      · cases h
      · exact h
    subst hil
    rw [unordered_strict_verdict_iff deq a b hsymm htrans,
      unordered_strict_verdict_iff deq b a hsymm htrans, hN]
    have hflip : ∀ (l1 l2 : List (Option (List α))),
        List.Forall₂ (rowsAgree deq (canonColumns a b).length) l1 l2 →
        List.Forall₂ (rowsAgree deq (canonColumns a b).length) l2 l1 := by
      intro l1 l2 h
      exact List.Forall₂.flip (h.imp (fun x y hxy => rowsAgree_symm deq _ hsymm x y hxy))
    constructor
    · rintro ⟨σ, hF, hP⟩
      obtain ⟨τ, hτF, hτP⟩ := List.perm_comp_forall₂ hP.symm (hflip _ _ hF)
      exact ⟨τ, hτF, hτP⟩
    · rintro ⟨σ, hF, hP⟩
      obtain ⟨τ, hτF, hτP⟩ := List.perm_comp_forall₂ hP.symm (hflip _ _ hF)
      exact ⟨τ, hτF, hτP⟩

theorem pick_head {α : Type} (deq : α → α → Bool) (valuesA : Option (List α)) (n : Nat)
    (c : unmatchedRow α) (pool : List (unmatchedRow α))
    (h : rowsAgree deq n valuesA c.values) : pick deq valuesA n (c :: pool) = 0 := by
  have hz := (count_eq_zero_iff_rowsAgree deq n valuesA c.values).mpr h
  simp [pick, scanBest, hz]

theorem matchDiffs_aligned {α : Type} (deq : α → α → Bool) (n : Nat) (rows : List (row α)) :
    ∀ (i : Nat) (pool : List (unmatchedRow α)),
      (∀ k ro c, rows.get? k = some ro → pool.get? k = some c →
        rowsAgree deq n ro.values c.values) →
      matchDiffs deq n rows i pool = (alignedDiffs deq n i rows pool, pool.drop rows.length) := by
  induction rows with
  | nil => intro i pool _; simp [matchDiffs, alignedDiffs]
  | cons rowA rest ih =>
    intro i pool hag
    cases pool with
    | nil =>
      have h := ih (i + 1) [] (fun k ro c _ hc => by simp at hc)
      simp only [matchDiffs, List.length_nil, if_true, h, alignedDiffs, List.drop_nil]
    | cons c pool =>
      have h0 := hag 0 rowA c rfl rfl
      have hpick := pick_head deq rowA.values n c pool h0
      have h := ih (i + 1) pool (fun k ro c1 hk hc => hag (k + 1) ro c1 hk hc)
      have hlen : ¬ (c :: pool).length = 0 := by simp
      simp only [matchDiffs, if_neg hlen, hpick, List.take_zero, List.nil_append, Nat.zero_add,
        List.drop_succ_cons, List.drop_zero, h, alignedDiffs, List.length_cons]
      rfl

theorem alignedDiffs_length {α : Type} (deq : α → α → Bool) (n : Nat) (rows : List (row α)) :
    ∀ (i : Nat) (pool : List (unmatchedRow α)),
      (alignedDiffs deq n i rows pool).length = rows.length := by
  induction rows with
  | nil => intro i pool; simp [alignedDiffs]
  | cons rowA rest ih =>
    intro i pool
    cases pool <;> simp [alignedDiffs, ih]

theorem alignedDiffs_get? {α : Type} (deq : α → α → Bool) (n : Nat) (rows : List (row α)) :
    ∀ (i : Nat) (pool : List (unmatchedRow α)) (k : Nat) (ro : row α), rows.get? k = some ro →
      (alignedDiffs deq n i rows pool).get? k =
        some (match pool.get? k with
          | some c => pairDiff deq n (i + k) ro.values c.values
          | none => extraADiff ((i + k : Nat) : Int) ro.values) := by
  induction rows with
  | nil => intro i pool k ro h; simp at h
  | cons rowA rest ih =>
    intro i pool k ro hk
    cases k with
    | zero =>
      simp only [List.get?_cons_zero, Option.some.injEq] at hk
      subst hk
      cases pool <;> rfl
    | succ k =>
      simp only [List.get?_cons_succ] at hk
      cases pool with
      | nil =>
        have h := ih (i + 1) [] k ro hk
        simp only [alignedDiffs, List.get?_cons_succ, h, List.get?_nil]
        rw [show i + 1 + k = i + (k + 1) by omega]
      | cons c pool =>
        have h := ih (i + 1) pool k ro hk
        simp only [alignedDiffs, List.get?_cons_succ, h]
        rw [show i + 1 + k = i + (k + 1) by omega]

theorem initialPool_get? {α : Type} (rowsB : List (row α)) (k : Nat) (hk : k < rowsB.length) :
    (initialPool rowsB).get? k = some { index := (k : Int), values := rowValues rowsB k } := by
  simp [initialPool, List.getElem?_range' 0 1 hk]

theorem initialPool_get?_none {α : Type} (rowsB : List (row α)) (k : Nat)
    (hk : rowsB.length ≤ k) : (initialPool rowsB).get? k = none := by
  rw [List.get?_eq_none]
  rw [initialPool_length]
  exact hk

/-- The rows of the ordered comparison are the aligned rows followed by the
entries of the pool beyond the first list. -/
theorem diffsOrdered_eq_aligned {α : Type} (deq : α → α → Bool) (n : Nat)
    (rowsA rowsB : List (row α)) :
    diffsOrdered deq n rowsA rowsB =
      alignedDiffs deq n 0 rowsA (initialPool rowsB) ++
        ((initialPool rowsB).drop rowsA.length).map (fun c => extraBDiff c.index c.values) := by
  apply List.ext_get?
  intro k
  by_cases hA : k < rowsA.length
  · obtain ⟨ro, hro⟩ := get?_isSome_of_lt rowsA k hA
    rw [List.get?_eq_getElem? (alignedDiffs deq n 0 rowsA (initialPool rowsB) ++ _),
      List.getElem?_append_left (by rw [alignedDiffs_length]; exact hA),
      ← List.get?_eq_getElem?, alignedDiffs_get? deq n rowsA 0 _ k ro hro, Nat.zero_add]
    by_cases hB : k < rowsB.length
    · rw [diffsOrdered_get?_pair deq n rowsA rowsB k hA hB, initialPool_get? rowsB k hB,
        rowValues_of_get? _ _ _ hro]
    · rw [diffsOrdered_get?_extraA deq n rowsA rowsB k hA (by omega),
        initialPool_get?_none rowsB k (by omega), rowValues_of_get? _ _ _ hro]
  · by_cases hB : k < rowsB.length
    · rw [diffsOrdered_get?_extraB deq n rowsA rowsB k (by omega) hB,
        List.get?_eq_getElem? (alignedDiffs deq n 0 rowsA (initialPool rowsB) ++ _),
        List.getElem?_append_right (by rw [alignedDiffs_length]; omega), alignedDiffs_length,
        List.getElem?_map, List.getElem?_drop, ← List.get?_eq_getElem?,
        show rowsA.length + (k - rowsA.length) = k by omega, initialPool_get? rowsB k hB]
      rfl
    · have h1 : (diffsOrdered deq n rowsA rowsB).length ≤ k := by
        rw [diffsOrdered_length]
        exact Nat.max_le.mpr ⟨by omega, by omega⟩
      have h2 : (alignedDiffs deq n 0 rowsA (initialPool rowsB) ++
          ((initialPool rowsB).drop rowsA.length).map
            (fun c => extraBDiff c.index c.values)).length ≤ k := by
        simp only [List.length_append, alignedDiffs_length, List.length_map, List.length_drop,
          initialPool_length]
        omega
      rw [List.get?_eq_none.mpr h1, List.get?_eq_none.mpr h2]

/-! ## Properties of the specification -/

/-- C1: in both modes the verdict of `compare` is true exactly when no emitted
row is a Mismatch and, unless `ignoreLengths` is set, no emitted row is an
Extra. -/
theorem compare_verdict_rule {α : Type} (deq : α → α → Bool) (a b : dataset α)
    (ignoreOrder ignoreLengths : Bool) :
    ∃ r, compare deq a b ignoreOrder ignoreLengths = some r ∧
      (r.equal = true ↔
        ((∀ d ∈ r.diffs, d.status ≠ rowStatus.rowMismatch) ∧
          (ignoreLengths = false → ∀ d ∈ r.diffs, d.status ≠ rowStatus.rowExtra))) :=
  ⟨_, compare_eq deq a b ignoreOrder ignoreLengths, all_rowOK_iff ignoreLengths _⟩

/-- C2: in unordered mode, when value equality is an equivalence (reflexive,
symmetric, transitive), two tables with the same column list whose rows all
hold exactly one value per column and whose row lists are permutations of each
other get verdict true and exactly one row per first-list row, all of them
Match, whatever `ignoreLengths` is. -/
theorem compare_unordered_permutation {α : Type} (deq : α → α → Bool) (a b : dataset α)
    (ignoreLengths : Bool)
    (hrefl : ∀ x, deq x x = true)
    (hsymm : ∀ x y, deq x y = true → deq y x = true)
    (htrans : ∀ x y z, deq x y = true → deq y z = true → deq x z = true)
    (hcols : b.columns = a.columns)
    (hfull : ∀ ro ∈ a.rows, sliceLen ro.values = a.columns.length)
    (hperm : b.rows.Perm a.rows) :
    ∃ r, compare deq a b true ignoreLengths = some r ∧ r.equal = true ∧
      r.diffs.length = a.rows.length ∧ ∀ d ∈ r.diffs, d.status = rowStatus.rowMatch := by
  have hN : (canonColumns a b).length = a.columns.length := by
    unfold canonColumns; split
    · rw [hcols]
    · rfl
  have hF : List.Forall₂ (rowsAgree deq (canonColumns a b).length)
      (a.rows.map (fun r => r.values)) (a.rows.map (fun r => r.values)) := by
    rw [List.forall₂_same]
    intro v hv c hc
    obtain ⟨ro, hro, rfl⟩ := List.mem_map.mp hv
    obtain ⟨x, hx⟩ := sliceAt_isSome ro.values c (by rw [hfull ro hro, ← hN]; exact hc)
    exact ⟨x, x, hx, hx, hrefl x⟩
  have hP : (a.rows.map (fun r => r.values)).Perm
      ((initialPool b.rows).map (fun c => c.values)) := by
    rw [initialPool_values]
    exact (hperm.map _).symm
  obtain ⟨h1, h2, h3⟩ := matchDiffs_all_match deq (canonColumns a b).length hsymm htrans a.rows 0
    (initialPool b.rows) _ hF hP
  have hD : diffsOf deq a b true =
      (matchDiffs deq (canonColumns a b).length a.rows 0 (initialPool b.rows)).1 := by
    simp [diffsOf, diffsUnordered, h3]
  refine ⟨_, compare_eq deq a b true ignoreLengths, ?_, ?_, ?_⟩
  · show (diffsOf deq a b true).all (rowOK ignoreLengths) = true
    rw [hD, List.all_eq_true]
    intro d hd
    simp [rowOK, h1 d hd]
  · show (diffsOf deq a b true).length = a.rows.length
    rw [hD, h2]
  · show ∀ d ∈ diffsOf deq a b true, d.status = rowStatus.rowMatch
    rw [hD]
    exact h1

/-- The duplicates example of the tests: `[X, X, Y]` against `[Y, X, X]`. -/
theorem compare_unordered_permutation_witness :
    ∃ r, compare natEq (natTable "Person" ["Name", "Age"] [[7, 1], [7, 1], [8, 2]])
        (natTable "Person" ["Name", "Age"] [[8, 2], [7, 1], [7, 1]]) true false = some r ∧
      r.equal = true ∧
      r.diffs.length = (natTable "Person" ["Name", "Age"] [[7, 1], [7, 1], [8, 2]]).rows.length ∧
      ∀ d ∈ r.diffs, d.status = rowStatus.rowMatch :=
  compare_unordered_permutation natEq
    (natTable "Person" ["Name", "Age"] [[7, 1], [7, 1], [8, 2]])
    (natTable "Person" ["Name", "Age"] [[8, 2], [7, 1], [7, 1]]) false
    (fun x => (natEq_iff x x).mpr rfl)
    (fun x y h => (natEq_iff y x).mpr ((natEq_iff x y).mp h).symm)
    (fun x y z h1 h2 => (natEq_iff x z).mpr (((natEq_iff x y).mp h1).trans ((natEq_iff y z).mp h2)))
    rfl (by decide) (by decide)

/-- C3 (the code at the failing input): with `ignoreOrder` and `ignoreLengths`
both set, rows `[1], [2]` against the single row `[1]` get verdict true, while
the same rows in the order `[2], [1]` get verdict false: the first row claims
the only candidate as a Mismatch. -/
theorem compare_unordered_row_order_matters :
    compare natEq (natTable "P" ["A"] [[1], [2]]) (natTable "P" ["A"] [[1]]) true true =
        some { equal := true, typeName := "P", columns := ["A"],
               diffs := [{ index := 0, status := rowStatus.rowMatch, valuesA := some [1],
                           valuesB := some [1], mismatch := none },
                         { index := 1, status := rowStatus.rowExtra, valuesA := some [2],
                           valuesB := none, mismatch := none }] } ∧
      compare natEq (natTable "P" ["A"] [[2], [1]]) (natTable "P" ["A"] [[1]]) true true =
        some { equal := false, typeName := "P", columns := ["A"],
               diffs := [{ index := 0, status := rowStatus.rowMismatch, valuesA := some [2],
                           valuesB := some [1], mismatch := some [true] },
                         { index := 1, status := rowStatus.rowExtra, valuesA := some [1],
                           valuesB := none, mismatch := none }] } ∧
      (natTable "P" ["A"] [[2], [1]]).rows.Perm (natTable "P" ["A"] [[1], [2]]).rows :=
  ⟨rfl, rfl, by decide⟩

/-- C4: the strict verdict (`ignoreOrder = false`, `ignoreLengths = false`) is
true exactly when the two row lists have the same length and, at every row
position and every canonical column, both rows hold a value and the two values
are deep-equal. -/
theorem compare_strict_verdict {α : Type} (deq : α → α → Bool) (a b : dataset α) :
    ∃ r, compare deq a b false false = some r ∧
      (r.equal = true ↔
        (a.rows.length = b.rows.length ∧
          ∀ i rowA rowB, a.rows.get? i = some rowA → b.rows.get? i = some rowB →
            ∀ c, c < r.columns.length →
              ∃ x y, sliceAt rowA.values c = some x ∧ sliceAt rowB.values c = some y ∧
                deq x y = true)) := by
  refine ⟨_, compare_eq deq a b false false, ?_⟩
  show (diffsOrdered deq (canonColumns a b).length a.rows b.rows).all (rowOK false) = true ↔ _
  rw [all_rowOK_diffsOrdered]
  constructor
  · rintro ⟨h1, h2⟩
    refine ⟨h2 rfl, fun i rowA rowB hA hB => ?_⟩
    have hia : i < a.rows.length := List.get?_eq_some.mp hA |>.1
    have hib : i < b.rows.length := List.get?_eq_some.mp hB |>.1
    have := h1 i hia hib
    rw [rowValues_of_get? _ _ _ hA, rowValues_of_get? _ _ _ hB] at this
    exact this
  · rintro ⟨h1, h2⟩
    refine ⟨fun k hka hkb => ?_, fun _ => h1⟩
    obtain ⟨rowA, hA⟩ := get?_isSome_of_lt a.rows k hka
    obtain ⟨rowB, hB⟩ := get?_isSome_of_lt b.rows k hkb
    rw [rowValues_of_get? _ _ _ hA, rowValues_of_get? _ _ _ hB]
    exact h2 k rowA rowB hA hB

/-- C5 (as stated, refuted): a table with one column and one row that holds no
value, compared in ordered mode with itself under a reflexive value equality,
gets verdict false and a Mismatch row. -/
theorem compare_identical_counterexample :
    compare natEq (natTable "T" ["A"] [[]]) (natTable "T" ["A"] [[]]) false false =
      some { equal := false, typeName := "T", columns := ["A"],
             diffs := [{ index := 0, status := rowStatus.rowMismatch, valuesA := some [],
                         valuesB := some [], mismatch := some [true] }] } := by
  rfl

/-- C5 (amended): when every row holds, at each canonical column, a value that
is deep-equal to itself, a table compared in ordered mode with a table of the
same columns and the same rows gets verdict true and exactly one row per input
row, the `i`-th being a Match of index `i`. -/
theorem compare_identical_ordered {α : Type} (deq : α → α → Bool) (t u : dataset α)
    (ignoreLengths : Bool) (hcols : u.columns = t.columns) (hrows : u.rows = t.rows)
    (hfull : ∀ ro ∈ t.rows, ∀ c, c < t.columns.length →
      ∃ x, sliceAt ro.values c = some x ∧ deq x x = true) :
    ∃ r, compare deq t u false ignoreLengths = some r ∧ r.equal = true ∧
      r.diffs.length = t.rows.length ∧
      ∀ i, i < t.rows.length →
        ∃ d, r.diffs.get? i = some d ∧ d.status = rowStatus.rowMatch ∧ d.index = (i : Int) := by
  refine ⟨_, compare_eq deq t u false ignoreLengths, ?_, ?_, ?_⟩
  all_goals
    have hN : (canonColumns t u).length = t.columns.length := by
      unfold canonColumns; split
      · rw [hcols]
      · rfl
    have hagree : ∀ k, k < t.rows.length →
        rowsAgree deq t.columns.length (rowValues t.rows k) (rowValues t.rows k) := by
      intro k hk c hc
      obtain ⟨ro, hr⟩ := get?_isSome_of_lt t.rows k hk
      rw [rowValues_of_get? _ _ _ hr]
      obtain ⟨x, hx, hxx⟩ := hfull ro (List.get?_mem hr) c hc
      exact ⟨x, x, hx, hx, hxx⟩
  · show (diffsOrdered deq (canonColumns t u).length t.rows u.rows).all (rowOK ignoreLengths) = true
    rw [all_rowOK_diffsOrdered, hN, hrows]
    exact ⟨fun k hk _ => hagree k hk, fun _ => rfl⟩
  · show (diffsOrdered deq (canonColumns t u).length t.rows u.rows).length = t.rows.length
    simp [diffsOrdered, hrows]
  · intro i hi
    show ∃ d, (diffsOrdered deq (canonColumns t u).length t.rows u.rows).get? i = some d ∧ _
    have hcnt := (count_eq_zero_iff_rowsAgree deq _ _ _).mpr (hagree i hi)
    refine ⟨pairDiff deq t.columns.length i (rowValues t.rows i) (rowValues t.rows i), ?_, ?_, ?_⟩
    · simp only [diffsOrdered, hrows, hN, lt_irrefl, if_false, Nat.sub_self, List.range'_zero,
        List.map_nil, List.append_nil]
      simp [List.getElem?_range' 0 1 hi, hi]
    · simp [pairDiff, hcnt]
    · simp [pairDiff, hcnt]

/-- A two-row person table compared in ordered mode with itself. -/
theorem compare_identical_ordered_witness :
    ∃ r, compare natEq (natTable "Person" ["Name", "Age"] [[1, 30], [2, 25]])
        (natTable "Person" ["Name", "Age"] [[1, 30], [2, 25]]) false false = some r ∧
      r.equal = true ∧
      r.diffs.length = (natTable "Person" ["Name", "Age"] [[1, 30], [2, 25]]).rows.length ∧
      ∀ i, i < (natTable "Person" ["Name", "Age"] [[1, 30], [2, 25]]).rows.length →
        ∃ d, r.diffs.get? i = some d ∧ d.status = rowStatus.rowMatch ∧ d.index = (i : Int) :=
  compare_identical_ordered natEq (natTable "Person" ["Name", "Age"] [[1, 30], [2, 25]])
    (natTable "Person" ["Name", "Age"] [[1, 30], [2, 25]]) false rfl rfl
    (by
      intro ro hro c hc
      simp only [natTable, List.map_cons, List.map_nil, List.mem_cons, List.mem_singleton,
        List.not_mem_nil, or_false] at hro
      have hc2 : c < 2 := hc
      rcases hro with rfl | rfl <;> interval_cases c <;> exact ⟨_, rfl, rfl⟩)

/-- C6: without `ignoreLengths`, row lists of different lengths make the
verdict false in both modes, and an Extra row is emitted. -/
theorem compare_length_mismatch_fails {α : Type} (deq : α → α → Bool) (a b : dataset α)
    (ignoreOrder : Bool) (hne : a.rows.length ≠ b.rows.length) :
    ∃ r, compare deq a b ignoreOrder false = some r ∧ r.equal = false ∧
      ∃ d ∈ r.diffs, d.status = rowStatus.rowExtra := by
  refine ⟨_, compare_eq deq a b ignoreOrder false, ?_, extra_of_length_ne deq a b ignoreOrder hne⟩
  obtain ⟨d, hd, hs⟩ := extra_of_length_ne deq a b ignoreOrder hne
  show (diffsOf deq a b ignoreOrder).all (rowOK false) = false
  rw [List.all_eq_false]
  exact ⟨d, hd, by simp [rowOK, hs]⟩

/-- A two-row table against a one-row table, in unordered mode without
`ignoreLengths`: the verdict is false and an Extra row is emitted. -/
theorem compare_length_mismatch_fails_witness :
    ∃ r, compare natEq (natTable "Person" ["Name", "Age"] [[1, 30], [2, 25]])
        (natTable "Person" ["Name", "Age"] [[2, 25]]) true false = some r ∧
      r.equal = false ∧ ∃ d ∈ r.diffs, d.status = rowStatus.rowExtra :=
  compare_length_mismatch_fails natEq (natTable "Person" ["Name", "Age"] [[1, 30], [2, 25]])
    (natTable "Person" ["Name", "Age"] [[2, 25]]) true (by decide)

/-- C7: `ignoreLengths` changes nothing of what `compare` reports: the type
name, the columns and the emitted rows are the same with and without it. -/
theorem compare_ignoreLengths_same_report {α : Type} (deq : α → α → Bool) (a b : dataset α)
    (ignoreOrder : Bool) :
    ∃ r1 r2, compare deq a b ignoreOrder true = some r1 ∧
      compare deq a b ignoreOrder false = some r2 ∧
      r1.typeName = r2.typeName ∧ r1.columns = r2.columns ∧ r1.diffs = r2.diffs :=
  ⟨_, _, compare_eq deq a b ignoreOrder true, compare_eq deq a b ignoreOrder false, rfl, rfl, rfl⟩

/-- C8: `fieldMismatch` returns a vector of length `columnCount` whose entry `i`
is true exactly when `i` is out of range for either sequence or the two values
at `i` are not deep-equal, together with the number of true entries. -/
theorem fieldMismatch_contract {α : Type} (deq : α → α → Bool)
    (valuesA valuesB : Option (List α)) (columnCount : Nat) :
    ∃ v c, fieldMismatch deq valuesA valuesB columnCount = some (v, c) ∧
      v.length = columnCount ∧
      (∀ i, i < columnCount → ∃ f, v.get? i = some f ∧
        (f = true ↔
          (i ≥ sliceLen valuesA ∨ i ≥ sliceLen valuesB ∨
            ∃ x y, sliceAt valuesA i = some x ∧ sliceAt valuesB i = some y ∧
              deq x y = false))) ∧
      c = v.count true :=
  ⟨_, _, fieldMismatch_eq deq valuesA valuesB columnCount,
    mismatchVec_length deq valuesA valuesB columnCount,
    fun i hi => ⟨_, mismatchVec_get? deq valuesA valuesB columnCount i hi,
      colMismatch_eq_true_iff deq valuesA valuesB i⟩, rfl⟩

/-- C9: every emitted row that pairs a first-list row with a second-list row
is a Match exactly when `fieldMismatch` of its own two value lists counts 0;
otherwise it is a Mismatch, its mismatch vector is the one `fieldMismatch`
returns for that pair, and the vector has a true entry. -/
theorem compare_row_classification {α : Type} (deq : α → α → Bool) (a b : dataset α)
    (ignoreOrder ignoreLengths : Bool) :
    ∃ r, compare deq a b ignoreOrder ignoreLengths = some r ∧
      ∀ d ∈ r.diffs, d.status ≠ rowStatus.rowExtra →
        ∃ v c, fieldMismatch deq d.valuesA d.valuesB r.columns.length = some (v, c) ∧
          (d.status = rowStatus.rowMatch ↔ c = 0) ∧
          (d.status ≠ rowStatus.rowMatch →
            d.status = rowStatus.rowMismatch ∧ d.mismatch = some v ∧ true ∈ v) := by
  refine ⟨_, compare_eq deq a b ignoreOrder ignoreLengths, ?_⟩
  intro d hd hne
  have he := emitted_diffsOf deq a b ignoreOrder d hd
  cases he with
  | pair i valuesA valuesB =>
    rcases pairDiff_status deq (canonColumns a b).length i valuesA valuesB with ⟨hc, hp⟩ | ⟨hc, hp⟩
    · rw [hp]
      exact ⟨_, _, fieldMismatch_eq deq _ _ _, by simp [hc], by simp⟩
    · rw [hp]
      refine ⟨_, _, fieldMismatch_eq deq _ _ _, by simp; omega, fun _ => ⟨rfl, rfl, ?_⟩⟩
      exact List.count_pos_iff.mp hc
  | extraA i valuesA => exact absurd rfl hne
  | extraB i valuesB => exact absurd rfl hne

/-- C10: in every result of `compare` a row carries a (non-nil) mismatch
vector exactly when it is a Mismatch, and the vector then has one entry per
canonical column. -/
theorem compare_mismatch_vector_invariant {α : Type} (deq : α → α → Bool) (a b : dataset α)
    (ignoreOrder ignoreLengths : Bool) :
    ∃ r, compare deq a b ignoreOrder ignoreLengths = some r ∧
      ∀ d ∈ r.diffs, (d.mismatch ≠ none ↔ d.status = rowStatus.rowMismatch) ∧
        ∀ m, d.mismatch = some m → m.length = r.columns.length := by
  refine ⟨_, compare_eq deq a b ignoreOrder ignoreLengths, ?_⟩
  intro d hd
  have he := emitted_diffsOf deq a b ignoreOrder d hd
  cases he with
  | pair i valuesA valuesB =>
    rcases pairDiff_status deq (canonColumns a b).length i valuesA valuesB with ⟨_, hp⟩ | ⟨_, hp⟩
    · rw [hp]; simp
    · rw [hp]
      refine ⟨by simp, ?_⟩
      intro m hm
      simp only [Option.some.injEq] at hm
      rw [← hm]
      exact mismatchVec_length deq _ _ _
  | extraA i valuesA => simp [extraADiff]
  | extraB i valuesB => simp [extraBDiff]

/-- C11 (as stated, refuted): a first-list row whose value slice is nil, with
no counterpart, is emitted as an Extra whose `valuesA` and `valuesB` are both
nil; compared in ordered mode with itself it is a Mismatch whose `valuesA` and
`valuesB` are both nil. -/
theorem compare_values_invariant_counterexample :
    compare natEq { typeName := "T", columns := ["A"], rows := [{ values := none }] }
        { typeName := "T", columns := ["A"], rows := [] } false false =
        some { equal := false, typeName := "T", columns := ["A"],
               diffs := [{ index := 0, status := rowStatus.rowExtra, valuesA := none,
                           valuesB := none, mismatch := none }] } ∧
      compare natEq { typeName := "T", columns := ["A"], rows := [{ values := none }] }
        { typeName := "T", columns := ["A"], rows := [{ values := none }] } false false =
        some { equal := false, typeName := "T", columns := ["A"],
               diffs := [{ index := 0, status := rowStatus.rowMismatch, valuesA := none,
                           valuesB := none, mismatch := some [true] }] } :=
  ⟨rfl, rfl⟩

/-- C11 (amended): when no row of either table has a nil value slice, in every
result of `compare` an Extra row has exactly one of `valuesA`, `valuesB` nil,
and a Match or Mismatch row has both non-nil. -/
theorem compare_values_invariant {α : Type} (deq : α → α → Bool) (a b : dataset α)
    (ignoreOrder ignoreLengths : Bool)
    (hA : ∀ ro ∈ a.rows, ro.values ≠ none) (hB : ∀ ro ∈ b.rows, ro.values ≠ none) :
    ∃ r, compare deq a b ignoreOrder ignoreLengths = some r ∧
      ∀ d ∈ r.diffs,
        (d.status = rowStatus.rowExtra →
          (d.valuesA = none ∧ d.valuesB ≠ none) ∨ (d.valuesA ≠ none ∧ d.valuesB = none)) ∧
        (d.status = rowStatus.rowMatch ∨ d.status = rowStatus.rowMismatch →
          d.valuesA ≠ none ∧ d.valuesB ≠ none) := by
  refine ⟨_, compare_eq deq a b ignoreOrder ignoreLengths, ?_⟩
  intro d hd
  have hp := provenance_diffsOf deq a b ignoreOrder d hd
  cases hp with
  | pair k rowA rowB hkA hkB =>
    obtain ⟨_, h2, h3, h4⟩ := pairDiff_fields deq (canonColumns a b).length k rowA.values
      rowB.values
    refine ⟨?_, ?_⟩
    · intro hs
      rcases h4 with h | h <;> rw [h] at hs <;> cases hs
    · intro _
      rw [h2, h3]
      exact ⟨hA rowA (List.get?_mem hkA), hB rowB hkB⟩
  | extraA k rowA hkA =>
    refine ⟨fun _ => Or.inr ⟨hA rowA (List.get?_mem hkA), rfl⟩, ?_⟩
    intro hs
    rcases hs with hs | hs <;> cases hs
  | extraB k rowB hkB =>
    refine ⟨fun _ => Or.inl ⟨rfl, hB rowB (List.get?_mem hkB)⟩, ?_⟩
    intro hs
    rcases hs with hs | hs <;> cases hs

/-- Three rows against two in unordered mode with `ignoreLengths`. -/
theorem compare_values_invariant_witness :
    ∃ r, compare natEq (natTable "Person" ["Name", "Age"] [[1, 30], [2, 25], [3, 35]])
        (natTable "Person" ["Name", "Age"] [[2, 25], [1, 31]]) true true = some r ∧
      ∀ d ∈ r.diffs,
        (d.status = rowStatus.rowExtra →
          (d.valuesA = none ∧ d.valuesB ≠ none) ∨ (d.valuesA ≠ none ∧ d.valuesB = none)) ∧
        (d.status = rowStatus.rowMatch ∨ d.status = rowStatus.rowMismatch →
          d.valuesA ≠ none ∧ d.valuesB ≠ none) :=
  compare_values_invariant natEq (natTable "Person" ["Name", "Age"] [[1, 30], [2, 25], [3, 35]])
    (natTable "Person" ["Name", "Age"] [[2, 25], [1, 31]]) true true (by decide) (by decide)

/-- C12: in ordered mode `compare` emits `max(len(a.rows), len(b.rows))` rows;
the `k`-th has index `k`; below both lengths it is a Match or a Mismatch of row
`k` of `a` with row `k` of `b`; beyond the shorter list it is an Extra carrying
row `k` of the longer list on that list's side. -/
theorem compare_ordered_layout {α : Type} (deq : α → α → Bool) (a b : dataset α)
    (ignoreLengths : Bool) :
    ∃ r, compare deq a b false ignoreLengths = some r ∧
      r.diffs.length = max a.rows.length b.rows.length ∧
      ∀ k, k < max a.rows.length b.rows.length →
        ∃ d, r.diffs.get? k = some d ∧ d.index = (k : Int) ∧
          (k < a.rows.length → k < b.rows.length →
            (d.status = rowStatus.rowMatch ∨ d.status = rowStatus.rowMismatch) ∧
              ∃ rowA rowB, a.rows.get? k = some rowA ∧ b.rows.get? k = some rowB ∧
                d.valuesA = rowA.values ∧ d.valuesB = rowB.values) ∧
          (b.rows.length ≤ k →
            d.status = rowStatus.rowExtra ∧
              ∃ rowA, a.rows.get? k = some rowA ∧ d.valuesA = rowA.values ∧ d.valuesB = none) ∧
          (a.rows.length ≤ k →
            d.status = rowStatus.rowExtra ∧
              ∃ rowB, b.rows.get? k = some rowB ∧ d.valuesB = rowB.values ∧ d.valuesA = none) := by
  refine ⟨_, compare_eq deq a b false ignoreLengths, ?_, ?_⟩
  · exact diffsOrdered_length deq _ a.rows b.rows
  · intro k hk
    show ∃ d, (diffsOrdered deq (canonColumns a b).length a.rows b.rows).get? k = some d ∧ _
    by_cases hA : k < a.rows.length
    · obtain ⟨rowA, hrA⟩ := get?_isSome_of_lt a.rows k hA
      by_cases hB : k < b.rows.length
      · obtain ⟨rowB, hrB⟩ := get?_isSome_of_lt b.rows k hB
        obtain ⟨h1, h2, h3, h4⟩ := pairDiff_fields deq (canonColumns a b).length k
          (rowValues a.rows k) (rowValues b.rows k)
        refine ⟨_, diffsOrdered_get?_pair deq _ _ _ k hA hB, h1, ?_, ?_, ?_⟩
        · intro _ _
          refine ⟨h4, rowA, rowB, hrA, hrB, ?_, ?_⟩
          · rw [h2, rowValues_of_get? _ _ _ hrA]
          · rw [h3, rowValues_of_get? _ _ _ hrB]
        · intro h; omega
        · intro h; omega
      · refine ⟨_, diffsOrdered_get?_extraA deq _ _ _ k hA (by omega), rfl, ?_, ?_, ?_⟩
        · intro _ h; omega
        · intro _
          exact ⟨rfl, rowA, hrA, by rw [← rowValues_of_get? _ _ _ hrA]; rfl, rfl⟩
        · intro h; omega
    · have hB : k < b.rows.length := by
        rcases Nat.lt_or_ge k b.rows.length with h | h
        · exact h
        · exfalso
          have := Nat.max_le.mpr ⟨Nat.le_of_not_lt hA, h⟩
          omega
      obtain ⟨rowB, hrB⟩ := get?_isSome_of_lt b.rows k hB
      refine ⟨_, diffsOrdered_get?_extraB deq _ _ _ k (by omega) hB, rfl, ?_, ?_, ?_⟩
      · intro h; omega
      · intro h; omega
      · intro _
        exact ⟨rfl, rowB, hrB, by rw [← rowValues_of_get? _ _ _ hrB]; rfl, rfl⟩

/-- C13: an iteration of the main loop of `compareUnordered` on a non-empty
pool claims the candidate at a position `k` whose mismatch count (by
`fieldMismatch` against the canonical column count) is at most that of every
entry of the pool and strictly below that of every earlier entry; it pairs the
row with that candidate and goes on with the pool without entry `k`, the other
entries keeping their order. -/
theorem unordered_claims_first_best {α : Type} (deq : α → α → Bool) (ignoreLengths : Bool)
    (rowA : row α) (rest : List (row α)) (i : Nat) (result : diffResult α)
    (unmatched : List (unmatchedRow α)) (hne : unmatched.length ≠ 0) :
    ∃ (k : Nat) (candidate : unmatchedRow α) (v : List Bool) (c : Nat),
      unmatched.get? k = some candidate ∧
      fieldMismatch deq rowA.values candidate.values result.columns.length = some (v, c) ∧
      (∀ t other, unmatched.get? t = some other →
        ∃ v1 c1, fieldMismatch deq rowA.values other.values result.columns.length =
            some (v1, c1) ∧ c ≤ c1 ∧ (t < k → c < c1)) ∧
      ∃ d : rowDiff α, d.index = (i : Int) ∧ d.valuesA = rowA.values ∧
        d.valuesB = candidate.values ∧
        (d.status = rowStatus.rowMatch ∨ d.status = rowStatus.rowMismatch) ∧
        matchLoop deq ignoreLengths (rowA :: rest) i (result, unmatched) =
          matchLoop deq ignoreLengths rest (i + 1)
            ({ result with
               equal := if d.status = rowStatus.rowMatch then result.equal else false
               diffs := result.diffs ++ [d] },
              unmatched.take k ++ unmatched.drop (k + 1)) := by
  have hnil : unmatched ≠ [] := by
    intro h; apply hne; rw [h]; rfl
  have hlt := pick_lt deq rowA.values result.columns.length unmatched hnil
  obtain ⟨hmin, hfirst⟩ := pick_argmin deq rowA.values result.columns.length unmatched hnil
  obtain ⟨candidate, hc⟩ := get?_isSome_of_lt unmatched _ hlt
  have hpv : poolValues unmatched (pick deq rowA.values result.columns.length unmatched) =
      candidate.values := by
    unfold poolValues; rw [hc]
  rw [hpv] at hmin hfirst
  refine ⟨pick deq rowA.values result.columns.length unmatched, candidate, _, _, hc,
    fieldMismatch_eq deq _ _ _, ?_, ?_⟩
  · intro t other ht
    have htl : t < unmatched.length := (List.get?_eq_some.mp ht).1
    have hto : poolValues unmatched t = other.values := by
      unfold poolValues; rw [ht]
    refine ⟨_, _, fieldMismatch_eq deq _ _ _, ?_, ?_⟩
    · have := hmin t htl
      rwa [hto] at this
    · intro htk
      have := hfirst t htk
      rwa [hto] at this
  · obtain ⟨h1, h2, h3, h4⟩ := pairDiff_fields deq result.columns.length i rowA.values
      candidate.values
    refine ⟨pairDiff deq result.columns.length i rowA.values candidate.values, h1, h2, h3, h4, ?_⟩
    rw [matchLoop_step deq ignoreLengths rowA rest i result unmatched hnil, hpv]
    congr 2
    rcases h4 with h | h
    · simp [extend, rowOK, h]
    · simp [extend, rowOK, h]

/-- The row `[1, 30]` against a pool of three candidates with mismatch counts
2, 1, 1: the candidate at position 1 is claimed. -/
theorem unordered_claims_first_best_witness :
    ∃ (k : Nat) (candidate : unmatchedRow Nat) (v : List Bool) (c : Nat),
      samplePool.get? k = some candidate ∧
      fieldMismatch natEq (some [1, 30]) candidate.values sampleResult.columns.length =
        some (v, c) ∧
      (∀ t other, samplePool.get? t = some other →
        ∃ v1 c1, fieldMismatch natEq (some [1, 30]) other.values sampleResult.columns.length =
            some (v1, c1) ∧ c ≤ c1 ∧ (t < k → c < c1)) ∧
      ∃ d : rowDiff Nat, d.index = ((0 : Nat) : Int) ∧ d.valuesA = some [1, 30] ∧
        d.valuesB = candidate.values ∧
        (d.status = rowStatus.rowMatch ∨ d.status = rowStatus.rowMismatch) ∧
        matchLoop natEq false [{ values := some [1, 30] }] 0 (sampleResult, samplePool) =
          matchLoop natEq false [] (0 + 1)
            ({ sampleResult with
               equal := if d.status = rowStatus.rowMatch then sampleResult.equal else false
               diffs := sampleResult.diffs ++ [d] },
              samplePool.take k ++ samplePool.drop (k + 1)) :=
  unordered_claims_first_best natEq false { values := some [1, 30] } [] 0 sampleResult samplePool
    (by decide)

/-- C14 (as stated, refuted): a second-list row whose value slice is nil is
emitted once, as an Extra, but with a nil `valuesB`: the non-nil `valuesB` of
the emitted rows are none, so they are not a permutation of the one row of the
second list. -/
theorem compare_unordered_consumes_counterexample :
    ∃ r, compare natEq { typeName := "T", columns := ["A"], rows := [] }
        { typeName := "T", columns := ["A"], rows := [{ values := none }] } true true = some r ∧
      r.diffs = [{ index := 0, status := rowStatus.rowExtra, valuesA := none, valuesB := none,
                   mismatch := none }] ∧
      ¬ ((r.diffs.map (fun d => d.valuesB)).filter (fun v => v.isSome)).Perm
          [(none : Option (List Nat))] :=
  ⟨_, rfl, rfl, by decide⟩

/-- C14 (amended): in unordered mode the non-nil `valuesB` of the emitted rows
are, in emission order, the non-nil value slices of the rows of `b` taken at
the positions of a permutation of all positions of `b`, and the non-nil
`valuesA` of the emitted rows are the non-nil value slices of the rows of `a`
in their order. -/
theorem compare_unordered_consumes_once {α : Type} (deq : α → α → Bool) (a b : dataset α)
    (ignoreLengths : Bool) :
    ∃ r, compare deq a b true ignoreLengths = some r ∧
      r.diffs.filterMap (fun d => d.valuesA) = a.rows.filterMap (fun ro => ro.values) ∧
      ∃ σ : List Nat, σ.Perm (List.range b.rows.length) ∧
        r.diffs.filterMap (fun d => d.valuesB) =
          σ.filterMap (fun k => (b.rows.get? k).bind (fun ro => ro.values)) := by
  refine ⟨_, compare_eq deq a b true ignoreLengths, ?_, ?_⟩
  · show (diffsOf deq a b true).filterMap (fun d => d.valuesA) = _
    obtain ⟨claimed, _, _, h3⟩ := matchDiffs_claimed deq (canonColumns a b).length a.rows 0
      (initialPool b.rows)
    have hback : ∀ l : List (unmatchedRow α),
        (l.map (fun c => extraBDiff c.index c.values)).filterMap (fun d => d.valuesA) = [] := by
      intro l
      induction l with
      | nil => rfl
      | cons c l ihl => simp [extraBDiff]
    have hfront : ∀ l : List (rowDiff α),
        l.filterMap (fun d => d.valuesA) = (l.map (fun d => d.valuesA)).filterMap id := by
      intro l; rw [List.filterMap_map]; rfl
    simp only [diffsOf, if_true, diffsUnordered, List.filterMap_append, hback, List.append_nil]
    rw [hfront, h3, List.filterMap_map]
    rfl
  · obtain ⟨claimed, h1, h2, _⟩ := matchDiffs_claimed deq (canonColumns a b).length a.rows 0
      (initialPool b.rows)
    refine ⟨(claimed ++ (matchDiffs deq (canonColumns a b).length a.rows 0
      (initialPool b.rows)).2).map (fun c => c.index.toNat), ?_, ?_⟩
    · have hmap := h1.map (fun c => c.index.toNat)
      have hidx : (initialPool b.rows).map (fun c => c.index.toNat) =
          List.range b.rows.length := by
        simp only [initialPool, List.map_map, List.range_eq_range']
        apply List.map_id''
        intro k
        simp
      rw [hidx] at hmap
      exact hmap
    · show (diffsOf deq a b true).filterMap (fun d => d.valuesB) = _
      have hback : ∀ l : List (unmatchedRow α),
          (l.map (fun c => extraBDiff c.index c.values)).filterMap (fun d => d.valuesB) =
            l.filterMap (fun c => c.values) := by
        intro l
        rw [List.filterMap_map]
        rfl
      simp only [diffsOf, if_true, diffsUnordered, List.filterMap_append, hback, h2]
      rw [← List.filterMap_append, List.filterMap_map]
      apply List.filterMap_congr
      intro c hc
      have hc1 : c ∈ initialPool b.rows := h1.mem_iff.mp hc
      obtain ⟨k, ro, hk, rfl⟩ := mem_initialPool b.rows c hc1
      show ro.values = (b.rows.get? (Int.toNat (k : Int))).bind (fun ro => ro.values)
      rw [Int.toNat_ofNat, hk]
      rfl

/-- C15: the index of an emitted row is the position of its row in its source
list: a Match, a Mismatch and an Extra of the first list carry row `index` of
`a` in `valuesA`, an Extra of the second list carries row `index` of `b` in
`valuesB`; in unordered mode the rows for the first list come first, then the
Extra rows of the second list by increasing index. -/
theorem compare_index_meaning {α : Type} (deq : α → α → Bool) (a b : dataset α)
    (ignoreOrder ignoreLengths : Bool) :
    ∃ r, compare deq a b ignoreOrder ignoreLengths = some r ∧
      (∀ d ∈ r.diffs,
        (d.status = rowStatus.rowMatch ∨ d.status = rowStatus.rowMismatch →
          ∃ (k : Nat) (rowA : row α), d.index = (k : Int) ∧ a.rows.get? k = some rowA ∧ d.valuesA = rowA.values) ∧
        (d.status = rowStatus.rowExtra →
          (∃ (k : Nat) (rowA : row α), d.index = (k : Int) ∧ a.rows.get? k = some rowA ∧
              d.valuesA = rowA.values ∧ d.valuesB = none) ∨
            (∃ (k : Nat) (rowB : row α), d.index = (k : Int) ∧ b.rows.get? k = some rowB ∧
              d.valuesB = rowB.values ∧ d.valuesA = none))) ∧
      (ignoreOrder = true →
        ∃ front back, r.diffs = front ++ back ∧ front.length = a.rows.length ∧
          (∀ d ∈ front, d.status = rowStatus.rowExtra →
            ∃ (k : Nat) (rowA : row α), d.index = (k : Int) ∧ a.rows.get? k = some rowA ∧
              d.valuesA = rowA.values ∧ d.valuesB = none) ∧
          (∀ d ∈ back, d.status = rowStatus.rowExtra ∧
            ∃ (k : Nat) (rowB : row α), d.index = (k : Int) ∧ b.rows.get? k = some rowB ∧
              d.valuesB = rowB.values ∧ d.valuesA = none) ∧
          back.Pairwise (fun d e => d.index < e.index)) := by
  refine ⟨_, compare_eq deq a b ignoreOrder ignoreLengths, ?_, ?_⟩
  · intro d hd
    have hp := provenance_diffsOf deq a b ignoreOrder d hd
    cases hp with
    | pair k rowA rowB hkA hkB =>
      obtain ⟨h1, h2, _, h4⟩ := pairDiff_fields deq (canonColumns a b).length k rowA.values
        rowB.values
      refine ⟨fun _ => ⟨k, rowA, h1, hkA, h2⟩, ?_⟩
      intro hs
      rcases h4 with h | h <;> rw [h] at hs <;> cases hs
    | extraA k rowA hkA =>
      refine ⟨?_, fun _ => Or.inl ⟨k, rowA, rfl, hkA, rfl, rfl⟩⟩
      intro hs
      rcases hs with hs | hs <;> cases hs
    | extraB k rowB hkB =>
      refine ⟨?_, fun _ => Or.inr ⟨k, rowB, rfl, hkB, rfl, rfl⟩⟩
      intro hs
      rcases hs with hs | hs <;> cases hs
  · intro hio
    subst hio
    refine ⟨(matchDiffs deq (canonColumns a b).length a.rows 0 (initialPool b.rows)).1,
      (matchDiffs deq (canonColumns a b).length a.rows 0 (initialPool b.rows)).2.map
        (fun c => extraBDiff c.index c.values), ?_, matchDiffs_length deq _ _ _ _, ?_, ?_, ?_⟩
    · simp [diffsOf, diffsUnordered]
    · intro d hd hs
      obtain ⟨k, ro, hk, h⟩ := matchDiffs_mem deq _ a.rows 0 _ d hd
      rw [Nat.zero_add] at h
      rcases h with rfl | ⟨c, _, rfl⟩
      · exact ⟨k, ro, rfl, hk, rfl, rfl⟩
      · exfalso
        rcases (pairDiff_fields deq (canonColumns a b).length k ro.values c.values).2.2.2 with
          h | h <;> rw [h] at hs <;> cases hs
    · intro d hd
      obtain ⟨c, hc, rfl⟩ := List.mem_map.mp hd
      have hc1 := (matchDiffs_pool_sublist deq _ a.rows 0 (initialPool b.rows)).subset hc
      obtain ⟨j, rb, hj, rfl⟩ := mem_initialPool b.rows c hc1
      exact ⟨rfl, j, rb, rfl, hj, rfl, rfl⟩
    · rw [List.pairwise_map]
      exact (initialPool_pairwise b.rows).sublist
        (matchDiffs_pool_sublist deq _ a.rows 0 (initialPool b.rows))

/-- C16: the type name of the result is `a.typeName` unless that is empty, then
`b.typeName`; its columns are `a.columns` unless that list is empty, then
`b.columns`; tables with the same names and columns get the same labels
whatever their rows and the flags; and every paired row is classified by
`fieldMismatch` against the length of these columns. -/
theorem compare_canonical_labels {α : Type} (deq : α → α → Bool) (a b : dataset α)
    (ignoreOrder ignoreLengths : Bool) :
    ∃ r, compare deq a b ignoreOrder ignoreLengths = some r ∧
      r.typeName = (if a.typeName ≠ "" then a.typeName else b.typeName) ∧
      r.columns = (if a.columns ≠ [] then a.columns else b.columns) ∧
      (∀ (a1 b1 : dataset α) (io1 il1 : Bool),
        a1.typeName = a.typeName → a1.columns = a.columns →
        b1.typeName = b.typeName → b1.columns = b.columns →
        ∃ r1, compare deq a1 b1 io1 il1 = some r1 ∧ r1.typeName = r.typeName ∧
          r1.columns = r.columns) ∧
      (∀ d ∈ r.diffs, d.status = rowStatus.rowMatch ∨ d.status = rowStatus.rowMismatch →
        ∃ v c, fieldMismatch deq d.valuesA d.valuesB r.columns.length = some (v, c) ∧
          (d.status = rowStatus.rowMatch ↔ c = 0) ∧
          (d.status = rowStatus.rowMismatch → d.mismatch = some v)) := by
  refine ⟨_, compare_eq deq a b ignoreOrder ignoreLengths, ?_, ?_, ?_, ?_⟩
  · show canonTypeName a b = _
    unfold canonTypeName
    by_cases h : a.typeName = "" <;> simp [h]
  · show canonColumns a b = _
    unfold canonColumns
    cases hc : a.columns <;> simp
  · intro a1 b1 io1 il1 h1 h2 h3 h4
    refine ⟨_, compare_eq deq a1 b1 io1 il1, ?_, ?_⟩
    · show canonTypeName a1 b1 = canonTypeName a b
      unfold canonTypeName
      rw [h1, h3]
    · show canonColumns a1 b1 = canonColumns a b
      unfold canonColumns
      rw [h2, h4]
  · intro d hd hs
    have he := emitted_diffsOf deq a b ignoreOrder d hd
    cases he with
    | pair i valuesA valuesB =>
      rcases pairDiff_status deq (canonColumns a b).length i valuesA valuesB with
        ⟨hc, hp⟩ | ⟨hc, hp⟩
      · rw [hp]
        exact ⟨_, _, fieldMismatch_eq deq _ _ _, by simp [hc], by simp⟩
      · rw [hp]
        exact ⟨_, _, fieldMismatch_eq deq _ _ _, by simp; omega, fun _ => rfl⟩
    | extraA i valuesA => rcases hs with hs | hs <;> cases hs
    | extraB i valuesB => rcases hs with hs | hs <;> cases hs

/-- C17: `compare`, `compareOrdered`, `compareUnordered` and `fieldMismatch`
return a result on every input: no index or slice bound is out of range. -/
theorem compare_total {α : Type} (deq : α → α → Bool) (a b : dataset α)
    (ignoreOrder ignoreLengths : Bool) :
    (∃ r, compare deq a b ignoreOrder ignoreLengths = some r) ∧
      (∀ result, ∃ r, compareOrdered deq result a b ignoreLengths = some r) ∧
      (∀ result, ∃ r, compareUnordered deq result a b ignoreLengths = some r) ∧
      (∀ valuesA valuesB columnCount,
        ∃ v c, fieldMismatch deq valuesA valuesB columnCount = some (v, c)) :=
  ⟨⟨_, compare_eq deq a b ignoreOrder ignoreLengths⟩,
    fun result => ⟨_, compareOrdered_eq deq result a b ignoreLengths⟩,
    fun result => ⟨_, compareUnordered_eq deq result a b ignoreLengths⟩,
    fun valuesA valuesB columnCount => ⟨_, _, fieldMismatch_eq deq valuesA valuesB columnCount⟩⟩

/-- C18 (as stated, refuted): with the invalid flag `"bad-flag"` (a string),
`Assert` calls `t.Fatalf` and does not return: no value, not `false`, is
returned. -/
theorem Assert_decision_counterexample :
    (Assert natEq (fun _ => "") (fun text => text) emptyPersons emptyPersons
        [flagArg.other "string"]).map (fun run => (run.fatalf, run.returned)) =
      some (some "datadiff: unknown flag type string (expected datadiff.Flag)", none) := by
  rfl

/-- C18 (amended): `Assert` returns true exactly when every flag is a `Flag`
equal to `IgnoreOrder` or `IgnoreLengths`, both extractions succeed, the two
type names are equal and `compare` (with `ignoreOrder`, `ignoreLengths` set
exactly when the flag occurs) gives verdict true. On an invalid flag or a
failed extraction it calls `t.Fatalf` and returns nothing; on a type-name
mismatch it calls `t.Errorf` and returns false; in these cases `compare` is
not run. -/
theorem Assert_decision {α : Type} (deq : α → α → Bool) (fmtV : α → String)
    (tab : String → String) (listA listB : goAny α) (flags : List flagArg) :
    ∃ run, Assert deq fmtV tab listA listB flags = some run ∧
      (run.returned = some true ↔
        ((∀ f ∈ flags, validFlag f) ∧
          ∃ dsA dsB r, extract listA = Except.ok dsA ∧ extract listB = Except.ok dsB ∧
            dsA.typeName = dsB.typeName ∧
            compare deq dsA dsB (decide (flagArg.flag IgnoreOrder ∈ flags))
              (decide (flagArg.flag IgnoreLengths ∈ flags)) = some r ∧
            r.equal = true)) ∧
      (((∃ f ∈ flags, ¬ validFlag f) ∨
          (∃ e, (extract listA : Except String (dataset α)) = Except.error e) ∨
          (∃ e, (extract listB : Except String (dataset α)) = Except.error e)) →
        run.fatalf ≠ none ∧ run.returned = none ∧ run.compared = none) ∧
      ((∀ f ∈ flags, validFlag f) →
        ∀ dsA dsB, extract listA = Except.ok dsA → extract listB = Except.ok dsB →
          dsA.typeName ≠ dsB.typeName →
          run.fatalf = none ∧ run.errorf ≠ none ∧ run.returned = some false ∧
            run.compared = none) := by
  by_cases hv : ∀ f ∈ flags, validFlag f
  · have hfl := flagLoop_ok flags false false hv
    simp only [Bool.false_or] at hfl
    cases hA : (extract listA : Except String (dataset α)) with
    | error e =>
      refine ⟨_, by simp only [Assert, hfl, hA]; rfl, ?_, ?_, ?_⟩
      · constructor
        · intro h; cases h
        · rintro ⟨_, dsA, _, _, h, _⟩; cases h
      · intro _; exact ⟨by simp, rfl, rfl⟩
      · intro _ dsA dsB h; cases h
    | ok dsA =>
      cases hB : (extract listB : Except String (dataset α)) with
      | error e =>
        refine ⟨_, by simp only [Assert, hfl, hA, hB]; rfl, ?_, ?_, ?_⟩
        · constructor
          · intro h; cases h
          · rintro ⟨_, _, dsB, _, _, h, _⟩; cases h
        · intro _; exact ⟨by simp, rfl, rfl⟩
        · intro _ dsA1 dsB1 _ h; cases h
      | ok dsB =>
        by_cases hn : dsA.typeName = dsB.typeName
        · have hcmp := compare_eq deq dsA dsB (decide (flagArg.flag IgnoreOrder ∈ flags))
            (decide (flagArg.flag IgnoreLengths ∈ flags))
          by_cases he : (diffsOf deq dsA dsB (decide (flagArg.flag IgnoreOrder ∈ flags))).all
              (rowOK (decide (flagArg.flag IgnoreLengths ∈ flags))) = true
          · refine ⟨_, by simp only [Assert, hfl, hA, hB, hcmp, hn, ne_eq, not_true, if_false, he,
              Bool.not_true, Bool.false_eq_true]; rfl, ?_, ?_, ?_⟩
            · constructor
              · intro _
                exact ⟨hv, dsA, dsB, _, rfl, rfl, hn, hcmp, he⟩
              · intro _; rfl
            · rintro (⟨f, hf, hnf⟩ | ⟨e, h⟩ | ⟨e, h⟩)
              · exact absurd (hv f hf) hnf
              · cases h
              · cases h
            · intro _ dsA1 dsB1 h1 h2 hne
              cases h1; cases h2
              exact absurd hn hne
          · have he1 : (diffsOf deq dsA dsB (decide (flagArg.flag IgnoreOrder ∈ flags))).all
                (rowOK (decide (flagArg.flag IgnoreLengths ∈ flags))) = false := by
              simpa using he
            refine ⟨_, by simp only [Assert, hfl, hA, hB, hcmp, hn, ne_eq, not_true, if_false, he1,
              Bool.not_false, if_true]; rfl, ?_, ?_, ?_⟩
            · constructor
              · intro h; cases h
              · rintro ⟨_, dsA1, dsB1, r, h1, h2, _, h4, h5⟩
                cases h1; cases h2
                rw [hcmp] at h4
                cases h4
                exact absurd h5 he
            · rintro (⟨f, hf, hnf⟩ | ⟨e, h⟩ | ⟨e, h⟩)
              · exact absurd (hv f hf) hnf
              · cases h
              · cases h
            · intro _ dsA1 dsB1 h1 h2 hne
              cases h1; cases h2
              exact absurd hn hne
        · refine ⟨_, by simp only [Assert, hfl, hA, hB, ne_eq, hn, not_false_eq_true, if_true]; rfl,
            ?_, ?_, ?_⟩
          · constructor
            · intro h; cases h
            · rintro ⟨_, dsA1, dsB1, r, h1, h2, h3, _⟩
              cases h1; cases h2
              exact absurd h3 hn
          · rintro (⟨f, hf, hnf⟩ | ⟨e, h⟩ | ⟨e, h⟩)
            · exact absurd (hv f hf) hnf
            · cases h
            · cases h
          · intro _ dsA1 dsB1 h1 h2 _
            cases h1; cases h2
            exact ⟨rfl, by simp, rfl, rfl⟩
  · have hex : ∃ f ∈ flags, ¬ validFlag f := by
      by_contra hc
      apply hv
      intro f hf
      by_contra hnf
      exact hc ⟨f, hf, hnf⟩
    obtain ⟨message, hm⟩ := flagLoop_error flags (false, false) hex
    refine ⟨_, by simp only [Assert, hm]; rfl, ?_, ?_, ?_⟩
    · constructor
      · intro h; cases h
      · rintro ⟨h, _⟩; exact absurd h hv
    · intro _; exact ⟨by simp, rfl, rfl⟩
    · intro h; exact absurd h hv

/-- C19: `formatDiff` returns the empty string exactly when `equal` is true,
whatever the rows; otherwise its output starts with the line
`datadiff: []<typeName> are not equal` followed by an empty line. -/
theorem formatDiff_empty_iff_equal {α : Type} (fmtV : α → String) (tab : String → String)
    (r : diffResult α) :
    (formatDiff fmtV tab r = "" ↔ r.equal = true) ∧
      (r.equal = false →
        ∃ rest, formatDiff fmtV tab r =
          "datadiff: []" ++ r.typeName ++ " are not equal\n\n" ++ rest) := by
  refine ⟨⟨?_, ?_⟩, ?_⟩
  · intro h
    by_contra hne
    have hf : r.equal = false := by simpa using hne
    simp only [formatDiff, hf, Bool.false_eq_true, if_false] at h
    exact header_ne_empty _ _ h
  · intro h
    simp [formatDiff, h]
  · intro h
    exact ⟨tab (tableText fmtV r), by simp [formatDiff, h]⟩

/-- C20 (as stated, refuted): in ordered mode with `ignoreLengths`, one row
against the same row followed by a second one gives an Extra row and verdict
true, and `formatDiff` of that result is the empty string: the Extra row is
not reported. -/
theorem compare_extras_reported_counterexample :
    ∃ r, compare natEq (natTable "Person" ["Name", "Age"] [[1, 30]])
        (natTable "Person" ["Name", "Age"] [[1, 30], [2, 25]]) false true = some r ∧
      (∃ d ∈ r.diffs, d.status = rowStatus.rowExtra) ∧
      ∀ (fmtV : Nat → String) (tab : String → String), formatDiff fmtV tab r = "" :=
  ⟨_, rfl, ⟨_, List.mem_cons_of_mem _ (List.mem_cons_self _ _), rfl⟩, fun _ _ => rfl⟩

/-- C20 (amended): with `ignoreLengths`, when the verdict is true `formatDiff`
of the result is the empty string; when the verdict is false it is the header
followed by what the tab writer makes of the table text, and the table text
ends with one block per emitted row, in order, the block of an Extra row being
one line: the yellow `+`, the index, the cells, and the label
`← extra in expected` (non-nil `valuesA`) or `← extra in actual`. -/
theorem compare_extras_reported {α : Type} (deq : α → α → Bool) (fmtV : α → String)
    (tab : String → String) (a b : dataset α) (ignoreOrder : Bool) :
    ∃ r, compare deq a b ignoreOrder true = some r ∧
      (r.equal = true → formatDiff fmtV tab r = "") ∧
      (r.equal = false →
        formatDiff fmtV tab r =
            "datadiff: []" ++ r.typeName ++ " are not equal\n\n" ++ tab (tableText fmtV r) ∧
          (∃ head, tableText fmtV r =
            head ++ String.join (r.diffs.map (formatRow fmtV r.columns))) ∧
          ∀ d ∈ r.diffs, d.status = rowStatus.rowExtra →
            ∃ cells note,
              ((d.valuesA ≠ none ∧ note = "← extra in expected") ∨
                (d.valuesA = none ∧ note = "← extra in actual")) ∧
              formatRow fmtV r.columns d =
                colorize "+" ansiYellow ++ "\t" ++ toString d.index ++ "\t" ++ cells ++
                  (note ++ "\t") ++ "\n") := by
  refine ⟨_, compare_eq deq a b ignoreOrder true, ?_, ?_⟩
  · intro h
    simp only [formatDiff]
    rw [if_pos h]
  · intro h
    refine ⟨?_, ⟨_, rfl⟩, fun d _ hs => formatRow_extra fmtV _ d hs⟩
    simp only [formatDiff]
    have h1 : (diffsOf deq a b ignoreOrder).all (rowOK true) = false := h
    rw [if_neg (by rw [h1]; decide)]

/-- C21: `extract` returns an error exactly when its argument is the nil
interface, or is not a slice, or is a slice whose element type is not a struct,
or is a slice of a struct type with no exported field; on every slice of a
struct type with an exported field, whatever its elements, it succeeds. -/
theorem extract_error_iff {α : Type} (v : goAny α) :
    ((∃ e, (extract v : Except String (dataset α)) = Except.error e) ↔
        (v = goAny.nilInterface ∨ (∃ typeText, v = goAny.notSlice typeText) ∨
          (∃ kind elems, v = goAny.slice (elemKind.otherKind kind) elems) ∨
          (∃ name fields elems, v = goAny.slice (elemKind.structType name fields) elems ∧
            ∀ f ∈ fields, f.exported = false))) ∧
      (∀ name fields (elems : List (Nat → α)), (∃ f ∈ fields, f.exported = true) →
        ∃ ds, (extract (goAny.slice (elemKind.structType name fields) elems) :
          Except String (dataset α)) = Except.ok ds) := by
  constructor
  · cases v with
    | nilInterface => simp [extract]
    | notSlice typeText => simp [extract]
    | slice elem elems =>
      cases elem with
      | otherKind kind => simp [extract]
      | structType name fields =>
        rw [extract_struct]
        by_cases h : ((fields.filter (fun f => f.exported)).map (fun f => f.name)).length = 0
        · rw [if_pos h]
          have h1 := (no_exported_iff fields).mp h
          constructor
          · intro _
            exact Or.inr (Or.inr (Or.inr ⟨name, fields, elems, rfl, h1⟩))
          · intro _; exact ⟨_, rfl⟩
        · rw [if_neg h]
          constructor
          · rintro ⟨e, he⟩; cases he
          · rintro (h1 | ⟨t, h1⟩ | ⟨k, e, h1⟩ | ⟨n, fs, es, h1, h2⟩)
            · cases h1
            · cases h1
            · cases h1
            · cases h1
              exact absurd ((no_exported_iff fields).mpr h2) h
  · intro name fields elems hex
    rw [extract_struct]
    have h : ¬ ((fields.filter (fun f => f.exported)).map (fun f => f.name)).length = 0 := by
      intro h0
      obtain ⟨f, hf, hfe⟩ := hex
      have := (no_exported_iff fields).mp h0 f hf
      rw [this] at hfe
      cases hfe
    rw [if_neg h]
    exact ⟨_, rfl⟩

/-- C22: when `extract` succeeds its argument is a slice of a struct type; the
type name of the table is that of the struct; the columns are the names of the
exported fields, by increasing field number; there is one row per element, in
order, and each row holds one value per column, the `j`-th being the element's
value of the `j`-th exported field. -/
theorem extract_table {α : Type} (v : goAny α) (ds : dataset α)
    (h : extract v = Except.ok ds) :
    ∃ name fields elems idx,
      v = goAny.slice (elemKind.structType name fields) elems ∧
      ds.typeName = name ∧
      idx.Pairwise (fun x y => x < y) ∧
      (∀ k, k ∈ idx ↔ ∃ f, fields.get? k = some f ∧ f.exported = true) ∧
      List.Forall₂ (fun k column => ∃ f, fields.get? k = some f ∧ f.name = column)
        idx ds.columns ∧
      ds.rows.length = elems.length ∧
      ∀ i element, elems.get? i = some element →
        ∃ values, ds.rows.get? i = some { values := some values } ∧
          values.length = ds.columns.length ∧
          values = idx.map (fun k => element k) := by
  cases v with
  | nilInterface => simp [extract] at h
  | notSlice typeText => simp [extract] at h
  | slice elem elems =>
    cases elem with
    | otherKind kind => simp [extract] at h
    | structType name fields =>
      rw [extract_struct] at h
      by_cases h0 : ((fields.filter (fun f => f.exported)).map (fun f => f.name)).length = 0
      · rw [if_pos h0] at h; cases h
      · rw [if_neg h0] at h
        cases h
        have hnames := exportedIndexes_names fields 0 fields rfl
        refine ⟨name, fields, elems, exportedIndexes fields 0, rfl, rfl,
          exportedIndexes_pairwise fields 0, ?_, hnames, by simp, ?_⟩
        · intro k
          rw [exportedIndexes_mem]
          simp
        · intro i element hi
          refine ⟨_, ?_, ?_, rfl⟩
          · simp only [List.get?_eq_getElem?, List.getElem?_map]
            rw [List.get?_eq_getElem?] at hi
            rw [hi]
            rfl
          · rw [List.length_map]
            exact hnames.length_eq

/-- The `[]Person` of the test with an unexported field in the middle. -/
theorem extract_table_witness :
    ∃ name fields elems idx,
      samplePersons = goAny.slice (elemKind.structType name fields) elems ∧
      samplePersonsTable.typeName = name ∧
      idx.Pairwise (fun x y => x < y) ∧
      (∀ k, k ∈ idx ↔ ∃ f, fields.get? k = some f ∧ f.exported = true) ∧
      List.Forall₂ (fun k column => ∃ f, fields.get? k = some f ∧ f.name = column)
        idx samplePersonsTable.columns ∧
      samplePersonsTable.rows.length = elems.length ∧
      ∀ i element, elems.get? i = some element →
        ∃ values, samplePersonsTable.rows.get? i = some { values := some values } ∧
          values.length = samplePersonsTable.columns.length ∧
          values = idx.map (fun k => element k) :=
  extract_table samplePersons samplePersonsTable rfl

/-- C23 (as stated, refuted): a first-list row without counterpart is emitted
as an Extra whose index is its position 0, not -1. -/
theorem compare_extra_index_counterexample :
    compare natEq (natTable "Person" ["Name", "Age"] [[1, 30]])
        (natTable "Person" ["Name", "Age"] []) false false =
      some { equal := false, typeName := "Person", columns := ["Name", "Age"],
             diffs := [{ index := 0, status := rowStatus.rowExtra, valuesA := some [1, 30],
                         valuesB := none, mismatch := none }] } :=
  rfl

/-- C23 (amended): every emitted row, Extra rows included, carries as index a
position of its source list, never -1: a Match or Mismatch row the position of
its first-list row, an Extra row the position of its row in the first or in
the second list. -/
theorem compare_extra_index {α : Type} (deq : α → α → Bool) (a b : dataset α)
    (ignoreOrder ignoreLengths : Bool) :
    ∃ r, compare deq a b ignoreOrder ignoreLengths = some r ∧
      ∀ d ∈ r.diffs, d.index ≠ -1 ∧
        ∃ k : Nat, d.index = (k : Int) ∧
          (d.status = rowStatus.rowMatch ∨ d.status = rowStatus.rowMismatch →
            ∃ rowA, a.rows.get? k = some rowA ∧ d.valuesA = rowA.values) ∧
          (d.status = rowStatus.rowExtra →
            (∃ rowA, a.rows.get? k = some rowA ∧ d.valuesA = rowA.values ∧ d.valuesB = none) ∨
              (∃ rowB, b.rows.get? k = some rowB ∧ d.valuesB = rowB.values ∧
                d.valuesA = none)) := by
  refine ⟨_, compare_eq deq a b ignoreOrder ignoreLengths, ?_⟩
  intro d hd
  have hp := provenance_diffsOf deq a b ignoreOrder d hd
  cases hp with
  | pair k rowA rowB hkA hkB =>
    obtain ⟨h1, h2, _, h4⟩ := pairDiff_fields deq (canonColumns a b).length k rowA.values
      rowB.values
    refine ⟨by rw [h1]; omega, k, h1, fun _ => ⟨rowA, hkA, h2⟩, ?_⟩
    intro hs
    rcases h4 with h | h <;> rw [h] at hs <;> cases hs
  | extraA k rowA hkA =>
    refine ⟨by show (k : Int) ≠ -1; omega, k, rfl, ?_, fun _ => Or.inl ⟨rowA, hkA, rfl, rfl⟩⟩
    intro hs
    rcases hs with hs | hs <;> cases hs
  | extraB k rowB hkB =>
    refine ⟨by show (k : Int) ≠ -1; omega, k, rfl, ?_, fun _ => Or.inr ⟨rowB, hkB, rfl, rfl⟩⟩
    intro hs
    rcases hs with hs | hs <;> cases hs

/-- C24: `compareUnordered`, whose scan stops at the first candidate with no
mismatch, returns the same result as its variant whose scan examines the whole
pool and replaces the best candidate only by a strictly lower count; in that
variant a best candidate with count 0 is never replaced. -/
theorem compareUnordered_short_circuit {α : Type} (deq : α → α → Bool) (a b : dataset α)
    (ignoreLengths : Bool) :
    (∀ result, compareUnordered deq result a b ignoreLengths =
        compareUnorderedNoBreak deq result a b ignoreLengths) ∧
      (∀ result, ∃ r, compareUnordered deq result a b ignoreLengths = some r) ∧
      (∀ (valuesA : Option (List α)) (columnCount : Nat) (unmatched : List (unmatchedRow α))
        (j : Nat) (best : bestState), best.bestMismatchCount = 0 →
        scanLoopNoBreak deq valuesA columnCount unmatched j best = some best) := by
  refine ⟨?_, fun result => ⟨_, compareUnordered_eq deq result a b ignoreLengths⟩, ?_⟩
  · intro result
    simp only [compareUnordered, compareUnorderedNoBreak, matchLoopNoBreak_eq]
  · intro valuesA columnCount unmatched j best h0
    exact scanLoopNoBreak_zero deq valuesA columnCount unmatched j best h0

/-- C25: for `a = [(0,1),(0,2)]` and `b = [(0,2),(1,1)]` the unordered
comparison pairs `(0,1)` with `(0,2)` and `(0,2)` with `(1,1)`: no Match row and
three flagged columns in all, while the other one-to-one pairing, `(0,1)` with
`(1,1)` and `(0,2)` with `(0,2)`, counts one flagged column and one exact
match. -/
theorem compare_unordered_not_optimal :
    ∀ ignoreLengths : Bool,
    ∃ r, compare natEq (natTable "T" ["X", "Y"] [[0, 1], [0, 2]])
        (natTable "T" ["X", "Y"] [[0, 2], [1, 1]]) true ignoreLengths = some r ∧
      r.diffs =
        [{ index := 0, status := rowStatus.rowMismatch, valuesA := some [0, 1],
           valuesB := some [0, 2], mismatch := some [false, true] },
         { index := 1, status := rowStatus.rowMismatch, valuesA := some [0, 2],
           valuesB := some [1, 1], mismatch := some [true, true] }] ∧
      (r.diffs.filter (fun d => decide (d.status = rowStatus.rowMatch))).length = 0 ∧
      (r.diffs.map (fun d => (match d.mismatch with
        | some m => m.count true
        | none => 0))).sum = 3 ∧
      fieldMismatch natEq (some [0, 1]) (some [1, 1]) 2 = some ([true, false], 1) ∧
      fieldMismatch natEq (some [0, 2]) (some [0, 2]) 2 = some ([false, false], 0) := by
  intro ignoreLengths
  cases ignoreLengths <;> exact ⟨_, rfl, rfl, rfl, rfl, rfl, rfl⟩

/-- C26: when the ordered comparison gives verdict true, the unordered
comparison of the same tables with the same `ignoreLengths` returns the very
same result. -/
theorem compare_unordered_of_ordered_pass {α : Type} (deq : α → α → Bool) (a b : dataset α)
    (ignoreLengths : Bool) (r : diffResult α)
    (h : compare deq a b false ignoreLengths = some r) (he : r.equal = true) :
    compare deq a b true ignoreLengths = some r := by
  rw [compare_eq] at h
  cases h
  have he1 : (diffsOrdered deq (canonColumns a b).length a.rows b.rows).all
      (rowOK ignoreLengths) = true := by
    simpa [diffsOf] using he
  have hag := ((all_rowOK_diffsOrdered deq ignoreLengths _ a.rows b.rows).mp he1).1
  have hD : diffsOf deq a b true = diffsOf deq a b false := by
    simp only [diffsOf, if_true, Bool.false_eq_true, if_false, diffsUnordered]
    rw [diffsOrdered_eq_aligned, matchDiffs_aligned deq _ a.rows 0 (initialPool b.rows)]
    intro k ro c hk hc
    have hkA : k < a.rows.length := (List.get?_eq_some.mp hk).1
    have hkB : k < b.rows.length := by
      have := (List.get?_eq_some.mp hc).1
      rwa [initialPool_length] at this
    rw [initialPool_get? b.rows k hkB] at hc
    cases hc
    have := hag k hkA hkB
    rwa [rowValues_of_get? _ _ _ hk] at this
  rw [compare_eq, hD]

/-- The two-row table of the tests compared with itself. -/
theorem compare_unordered_of_ordered_pass_witness :
    compare natEq (natTable "Person" ["Name", "Age"] [[1, 30], [2, 25]])
        (natTable "Person" ["Name", "Age"] [[1, 30], [2, 25]]) true false =
      some { equal := true, typeName := "Person", columns := ["Name", "Age"],
             diffs := [{ index := 0, status := rowStatus.rowMatch, valuesA := some [1, 30],
                         valuesB := some [1, 30], mismatch := none },
                       { index := 1, status := rowStatus.rowMatch, valuesA := some [2, 25],
                         valuesB := some [2, 25], mismatch := none }] } :=
  compare_unordered_of_ordered_pass natEq (natTable "Person" ["Name", "Age"] [[1, 30], [2, 25]])
    (natTable "Person" ["Name", "Age"] [[1, 30], [2, 25]]) false _ rfl rfl

/-- C27: in unordered mode without `ignoreLengths`, a true verdict implies that
the two row lists have the same length and that some permutation of the rows
of `b` agrees with the rows of `a` one by one: at every canonical column both
rows hold a value and the two values are deep-equal. -/
theorem compare_unordered_sound {α : Type} (deq : α → α → Bool) (a b : dataset α) :
    ∃ r, compare deq a b true false = some r ∧
      (r.equal = true →
        a.rows.length = b.rows.length ∧
          ∃ σ : List (row α), σ.Perm b.rows ∧
            List.Forall₂ (fun rowA rowB => ∀ c, c < r.columns.length →
              ∃ x y, sliceAt rowA.values c = some x ∧ sliceAt rowB.values c = some y ∧
                deq x y = true) a.rows σ) := by
  refine ⟨_, compare_eq deq a b true false, ?_⟩
  intro h
  have h1 : (diffsOf deq a b true).all (rowOK false) = true := h
  rw [all_rowOK_iff] at h1
  obtain ⟨hm, hx⟩ := h1
  have hx := hx rfl
  simp only [diffsOf, if_true, diffsUnordered, List.mem_append, List.mem_map] at hm hx
  have hmatch : ∀ d ∈ (matchDiffs deq (canonColumns a b).length a.rows 0 (initialPool b.rows)).1,
      d.status = rowStatus.rowMatch := by
    intro d hd
    have h1 := hm d (Or.inl hd)
    have h2 := hx d (Or.inl hd)
    cases hs : d.status
    · rfl
    · exact absurd hs h1
    · exact absurd hs h2
  have hleft : (matchDiffs deq (canonColumns a b).length a.rows 0 (initialPool b.rows)).2 = [] := by
    cases hl : (matchDiffs deq (canonColumns a b).length a.rows 0 (initialPool b.rows)).2 with
    | nil => rfl
    | cons c rest =>
      exfalso
      exact hx (extraBDiff c.index c.values) (Or.inr ⟨c, by rw [hl]; simp, rfl⟩) rfl
  obtain ⟨σ, hF, hP⟩ := matchDiffs_matchable deq _ a.rows 0 _ hmatch hleft
  rw [initialPool_values] at hP
  have hP2 : (σ.map (fun v => ({ values := v } : row α))).Perm b.rows := by
    have := hP.map (fun v => ({ values := v } : row α))
    rw [List.map_map] at this
    have hid : b.rows.map ((fun v => ({ values := v } : row α)) ∘ fun r => r.values) = b.rows := by
      apply List.map_id''
      intro ro
      rfl
    rwa [hid] at this
  have hF2 : List.Forall₂ (fun rowA rowB => rowsAgree deq (canonColumns a b).length
      rowA.values rowB.values) a.rows (σ.map (fun v => ({ values := v } : row α))) := by
    rw [List.forall₂_map_right_iff]
    rw [List.forall₂_map_left_iff] at hF
    exact hF
  refine ⟨?_, _, hP2, hF2⟩
  rw [hF2.length_eq, hP2.length_eq]

/-- C28: in unordered mode `compare` emits `max(len(a.rows), len(b.rows))`
rows: below both lengths the `k`-th is a Match or Mismatch of row `k` of `a`
with a row of `b`; from the shorter length on every row is an Extra of the
longer list. The scan of a non-empty pool never leaves `bestCandidate`
negative, so a first-list row is an Extra only when the pool is empty. -/
theorem compare_unordered_shape {α : Type} (deq : α → α → Bool) (a b : dataset α)
    (ignoreLengths : Bool) :
    ∃ r, compare deq a b true ignoreLengths = some r ∧
      r.diffs.length = max a.rows.length b.rows.length ∧
      (∀ k, k < max a.rows.length b.rows.length →
        ∃ d, r.diffs.get? k = some d ∧
          (k < a.rows.length → k < b.rows.length →
            (d.status = rowStatus.rowMatch ∨ d.status = rowStatus.rowMismatch) ∧
              d.index = (k : Int) ∧
              ∃ rowA rowB, a.rows.get? k = some rowA ∧ rowB ∈ b.rows ∧
                d.valuesA = rowA.values ∧ d.valuesB = rowB.values) ∧
          (b.rows.length ≤ k →
            d.status = rowStatus.rowExtra ∧ d.index = (k : Int) ∧
              ∃ rowA, a.rows.get? k = some rowA ∧ d.valuesA = rowA.values ∧ d.valuesB = none) ∧
          (a.rows.length ≤ k →
            d.status = rowStatus.rowExtra ∧
              ∃ (j : Nat) (rowB : row α), d.index = (j : Int) ∧ b.rows.get? j = some rowB ∧
                d.valuesB = rowB.values ∧ d.valuesA = none)) ∧
      (∀ (valuesA : Option (List α)) (columnCount : Nat) (unmatched : List (unmatchedRow α)),
        unmatched.length ≠ 0 →
        ∃ best, scanLoop deq valuesA columnCount unmatched 0
            { bestCandidate := -1, bestMismatchCount := columnCount + 1, bestMismatch := none } =
              some best ∧
          ¬ best.bestCandidate < 0 ∧ best.bestCandidate < (unmatched.length : Int)) := by
  refine ⟨_, compare_eq deq a b true ignoreLengths, ?_, ?_, ?_⟩
  · show (diffsOf deq a b true).length = _
    simp only [diffsOf, if_true]
    exact diffsUnordered_length deq _ _ _
  · intro k hk
    show ∃ d, (diffsOf deq a b true).get? k = some d ∧ _
    simp only [diffsOf, if_true, diffsUnordered]
    have hlen1 := matchDiffs_length deq (canonColumns a b).length a.rows 0 (initialPool b.rows)
    have hlen2 := matchDiffs_pool_length deq (canonColumns a b).length a.rows 0
      (initialPool b.rows)
    rw [initialPool_length] at hlen2
    by_cases hA : k < a.rows.length
    · obtain ⟨rowA, hrA⟩ := get?_isSome_of_lt a.rows k hA
      obtain ⟨d, hd, h1, h2⟩ := matchDiffs_get? deq (canonColumns a b).length a.rows 0
        (initialPool b.rows) k rowA hrA
      rw [initialPool_length, Nat.zero_add] at h1 h2
      refine ⟨d, ?_, ?_, ?_, ?_⟩
      · rw [List.get?_eq_getElem?, List.getElem?_append_left (by rw [hlen1]; exact hA),
          ← List.get?_eq_getElem?]
        exact hd
      · intro _ hB
        obtain ⟨c, hc, rfl⟩ := h1 hB
        obtain ⟨j, rb, hj, rfl⟩ := mem_initialPool b.rows c hc
        obtain ⟨f1, f2, f3, f4⟩ := pairDiff_fields deq (canonColumns a b).length k rowA.values
          rb.values
        exact ⟨f4, f1, rowA, rb, hrA, List.get?_mem hj, f2, f3⟩
      · intro hB
        rw [h2 hB]
        exact ⟨rfl, rfl, rowA, hrA, rfl, rfl⟩
      · intro h; omega
    · have hB : k < b.rows.length := by
        rcases Nat.lt_or_ge k b.rows.length with h | h
        · exact h
        · exfalso
          have := Nat.max_le.mpr ⟨Nat.le_of_not_lt hA, h⟩
          omega
      have hk2 : k - a.rows.length <
          (matchDiffs deq (canonColumns a b).length a.rows 0 (initialPool b.rows)).2.length := by
        rw [hlen2]; omega
      obtain ⟨c, hc⟩ := get?_isSome_of_lt _ _ hk2
      have hc1 := (matchDiffs_pool_sublist deq _ a.rows 0 (initialPool b.rows)).subset
        (List.get?_mem hc)
      obtain ⟨j, rb, hj, rfl⟩ := mem_initialPool b.rows c hc1
      refine ⟨extraBDiff (j : Int) rb.values, ?_, ?_, ?_, ?_⟩
      · rw [List.get?_eq_getElem?, List.getElem?_append_right (by rw [hlen1]; omega), hlen1,
          List.getElem?_map, ← List.get?_eq_getElem?, hc]
        rfl
      · intro h; omega
      · intro h; omega
      · intro _
        exact ⟨rfl, j, rb, rfl, hj, rfl, rfl⟩
  · intro valuesA columnCount unmatched hne
    have hnil : unmatched ≠ [] := by
      intro h; apply hne; rw [h]; rfl
    obtain ⟨hbc, hlt, _, _⟩ := pick_spec deq valuesA columnCount unmatched hnil
    refine ⟨_, scanLoop_eq deq valuesA columnCount unmatched 0 _, ?_, ?_⟩
    · rw [hbc]; omega
    · rw [hbc]; exact_mod_cast hlt

/-- C29 (the code at the failing input): with `ignoreOrder` and `ignoreLengths`
both set, rows `[2], [1]` against the single row `[1]` get verdict false,
while the single row `[1]` against rows `[2], [1]` gets verdict true. -/
theorem compare_verdict_not_symmetric :
    compare natEq (natTable "P" ["A"] [[2], [1]]) (natTable "P" ["A"] [[1]]) true true =
        some { equal := false, typeName := "P", columns := ["A"],
               diffs := [{ index := 0, status := rowStatus.rowMismatch, valuesA := some [2],
                           valuesB := some [1], mismatch := some [true] },
                         { index := 1, status := rowStatus.rowExtra, valuesA := some [1],
                           valuesB := none, mismatch := none }] } ∧
      compare natEq (natTable "P" ["A"] [[1]]) (natTable "P" ["A"] [[2], [1]]) true true =
        some { equal := true, typeName := "P", columns := ["A"],
               diffs := [{ index := 0, status := rowStatus.rowMatch, valuesA := some [1],
                           valuesB := some [1], mismatch := none },
                         { index := 0, status := rowStatus.rowExtra, valuesA := none,
                           valuesB := some [2], mismatch := none }] } :=
  ⟨rfl, rfl⟩

end Datadiff
